import Mathlib

/-!
# bambu-cli: the device-communication core

A shallow embedding of the Go packages `internal/printer` (state aggregator,
status decoder, command payload builders, gcode line validator) and of the
helper `plateToLocation` of `cmd/bambu-cli`, followed by theorems about them.

Conventions of the embedding:

* a Go `string` is a Lean `String` (its runes are `String.toList`);
* a Go value of type `any` is an `Any`; the constructors are the dynamic types
  that occur in the program;
* a Go `map[string]any` is an association list with `mapGet` (`v, ok := m[k]`)
  and `mapSet` (`m[k] = v`); a Go map has each key once, which is the
  predicate `KeysNodup`; `range` visits the bindings in list order, and a
  statement quantified over every list covers every iteration order;
* a Go `int`/`int64` is an `Int` (64-bit range, no arithmetic overflows in
  the embedded code); a finite `float64` is the rational number it denotes;
* a Go `(T, error)` or `(T, bool)` result is an `Except` or an `Option`.
-/

namespace BambuCli

/-! ## Values of type `any` -/

/-- Dynamic values of Go type `any` as they occur in decoded telemetry
documents and in command payloads. -/
inductive Any where
  /-- the nil interface value (JSON `null`) -/
  | nil
  | bool (b : Bool)
  | str (s : String)
  /-- dynamic type `int` -/
  | int (n : Int)
  /-- dynamic type `int64` -/
  | int64 (n : Int)
  /-- dynamic type `float64`, a finite value given by the rational it denotes -/
  | float64 (x : ℚ)
  /-- dynamic type `json.Number`: the literal text of a JSON number -/
  | jsonNumber (text : String)
  /-- dynamic type `[]int`; `none` is the nil slice -/
  | intSlice (xs : Option (List Int))
  /-- dynamic type `[]any` -/
  | slice (xs : List Any)
  /-- dynamic type `map[string]any` -/
  | map (kvs : List (String × Any))

/-- A Go `map[string]any`. -/
abbrev GoMap := List (String × Any)

/-- The comma-ok lookup `v, ok := m[k]` in a map with string keys. -/
def mapGet {β : Type} : List (String × β) → String → Option β
  | [], _ => none
  | (k', v) :: rest, k => if k' = k then some v else mapGet rest k

/-- The assignment `m[k] = v`: the binding of `k` is replaced, or added. -/
def mapSet {β : Type} : List (String × β) → String → β → List (String × β)
  | [], k, v => [(k, v)]
  | (k', v') :: rest, k, v =>
    if k' = k then (k, v) :: rest else (k', v') :: mapSet rest k v

/-- A Go map binds each key once. -/
def KeysNodup (m : GoMap) : Prop := (m.map Prod.fst).Nodup

instance (m : GoMap) : Decidable (KeysNodup m) := by
  unfold KeysNodup; infer_instance

/-- The type assertion `v.(map[string]any)`. -/
def Any.asMap : Any → Option GoMap
  | .map kvs => some kvs
  | _ => none

/-- The type assertion `v.(string)`. -/
def Any.asString : Any → Option String
  | .str s => some s
  | _ => none

/-- The type assertion `v.([]any)`. -/
def Any.asSlice : Any → Option (List Any)
  | .slice xs => some xs
  | _ => none

/-! ## `internal/printer/mqtt.go`: the state aggregator -/

/-- The fields of `MQTTClient` that the aggregator reads and writes: the
document `data` and whether the channel `ready` has been closed. -/
structure MQTTClient where
  data : GoMap
  ready : Bool

/-- The aggregator as `NewMQTTClient` builds it: `data: map[string]any{}` and
an open `ready` channel. -/
def NewMQTTClient : MQTTClient := { data := [], ready := false }

/-- The inner loop of `onMessage`:
`for kk, vv := range vMap { existingMap[kk] = vv }`. -/
def mergeInto (existingMap vMap : GoMap) : GoMap :=
  vMap.foldl (fun em kv => mapSet em kv.1 kv.2) existingMap

/-- One iteration of the outer loop of `onMessage` for the binding `k, v` of
the incoming document. -/
def ingestEntry (data : GoMap) (k : String) (v : Any) : GoMap :=
  match mapGet data k, v.asMap with
  | some existing, some vMap =>
    match existing.asMap with
    | some existingMap => mapSet data k (.map (mergeInto existingMap vMap))
    | none => mapSet data k v
  | _, _ => mapSet data k v

/-- `MQTTClient.onMessage`. The argument is the outcome of decoding the
payload into `map[string]any`: `none` when `dec.Decode` fails (the function
returns at once), `some doc` otherwise. After the merge the `ready` channel is
closed unless it is closed already. -/
def MQTTClient.onMessage (m : MQTTClient) (payload : Option GoMap) : MQTTClient :=
  match payload with
  | none => m
  | some doc =>
    { data := doc.foldl (fun d kv => ingestEntry d kv.1 kv.2) m.data
      ready := true }

/-- The descent of `MQTTClient.Get` from the value `current` along `path`. -/
def getFrom (current : Any) : List String → Option Any
  | [] => some current
  | p :: rest =>
    match current.asMap with
    | none => none
    | some mMap =>
      match mapGet mMap p with
      | none => none
      | some next => getFrom next rest

/-- `MQTTClient.Get`: `some v` is `(v, true)`, `none` is `(nil, false)`. -/
def MQTTClient.Get (m : MQTTClient) (path : List String) : Option Any :=
  getFrom (.map m.data) path

/-- `MQTTClient.Snapshot`: a new map `out` that receives every binding of
`m.data`. Read as contents, the result is the document; which map objects it
shares with the aggregator is what `RefClient.Snapshot` records. -/
def MQTTClient.Snapshot (m : MQTTClient) : GoMap :=
  m.data.foldl (fun out kv => mapSet out kv.1 kv.2) []

/-- What a run of the `select` in `WaitForData` depends on besides the state.
`elapsed` is the time in nanoseconds from `time.After(timeout)` to the moment
the `select` examines its cases: the timer has fired by then when `elapsed` has
reached the timeout. `pickTimer` is the choice of `select` when both cases can
proceed, which Go makes at random. `closedFirst` tells, when neither case can
proceed and the call blocks, whether `onMessage` closes `ready` before the
timer fires. -/
structure SelectEnv where
  elapsed : Int
  pickTimer : Bool
  closedFirst : Bool

/-- `MQTTClient.WaitForData`, with `timeout` in nanoseconds as in
`time.Duration`. A `timeout <= 0` becomes 5 seconds. The `select` has the two
cases `<-m.ready` and `<-time.After(timeout)`: when only one can proceed it is
taken, when both can (`ready` is closed and the timer has fired) either is
taken, and when none can the call blocks until the first of them can. The
case `<-m.ready` returns `nil`, the timer case the timeout error. -/
def MQTTClient.WaitForData (m : MQTTClient) (timeout : Int) (env : SelectEnv) :
    Except String Unit :=
  let timeout := if timeout ≤ 0 then 5 * 1000000000 else timeout
  let fired := decide (timeout ≤ env.elapsed)
  match m.ready, fired with
  | true, true =>
    if env.pickTimer = true then .error "timeout waiting for printer data" else .ok ()
  | true, false => .ok ()
  | false, true => .error "timeout waiting for printer data"
  | false, false =>
    if env.closedFirst = true then .ok () else .error "timeout waiting for printer data"

/-- The calls on the aggregator: a message delivered to `onMessage`, a `Get`
and a `Snapshot`. -/
inductive Call where
  | onMessage (payload : Option GoMap)
  | get (path : List String)
  | snapshot

/-- The state after a call. `Get` and `Snapshot` hold the read lock and assign
to no field of the client. -/
def MQTTClient.after (m : MQTTClient) : Call → MQTTClient
  | .onMessage payload => m.onMessage payload
  | .get _ => m
  | .snapshot => m

/-- The state after a sequence of calls. -/
def MQTTClient.afterAll (m : MQTTClient) (calls : List Call) : MQTTClient :=
  calls.foldl MQTTClient.after m

/-! ### The aggregator with map objects held by reference

A Go map is a reference to a map object. `m.data[k] = v` stores the reference
`v`, `existingMap[kk] = vv` updates the object `existingMap` refers to, and
`out[k] = v` in `Snapshot` copies the reference, not the object. The
definitions above read a map as its contents; the ones below keep the objects
that `onMessage` updates in place, the values of the top-level keys, in a heap
and so record which maps are shared. Values below the second level are never
updated in place and stay `Any` values. -/

/-- What a top-level key of `m.data` (or of a snapshot) holds: a reference to
a map object, or a value of another dynamic type. -/
inductive Slot where
  | ref (addr : Nat)
  | val (v : Any)

/-- The map objects, by address. -/
abbrev Heap := List GoMap

/-- `MQTTClient` with the map objects of the top-level values in `heap`. -/
structure RefClient where
  heap : Heap
  data : List (String × Slot)
  ready : Bool

/-- The aggregator as `NewMQTTClient` builds it. -/
def RefClient.new : RefClient := { heap := [], data := [], ready := false }

/-- `m.data[k] = v` for a value `v` of the incoming document: a mapping `v` is
an object of its own, which enters the heap at a new address. -/
def RefClient.store (heap : Heap) (data : List (String × Slot)) (k : String) (v : Any) :
    Heap × List (String × Slot) :=
  match v.asMap with
  | some vMap => (heap ++ [vMap], mapSet data k (.ref heap.length))
  | none => (heap, mapSet data k (.val v))

/-- One iteration of the outer loop of `onMessage`: when the existing value is
a map object, `existingMap[kk] = vv` updates that object where it is. -/
def RefClient.ingestEntry (st : Heap × List (String × Slot)) (k : String) (v : Any) :
    Heap × List (String × Slot) :=
  match mapGet st.2 k, v.asMap with
  | some existing, some vMap =>
    match existing with
    | .ref a => (st.1.set a (mergeInto (st.1.getD a []) vMap), mapSet st.2 k (.ref a))
    | .val _ => RefClient.store st.1 st.2 k v
  | _, _ => RefClient.store st.1 st.2 k v

/-- `MQTTClient.onMessage` on the state with a heap. -/
def RefClient.onMessage (m : RefClient) (payload : Option GoMap) : RefClient :=
  match payload with
  | none => m
  | some doc =>
    let st := doc.foldl (fun st kv => RefClient.ingestEntry st kv.1 kv.2) (m.heap, m.data)
    { heap := st.1, data := st.2, ready := true }

/-- `MQTTClient.Snapshot` on the state with a heap: `out[k] = v` copies what
the key holds, a reference included. -/
def RefClient.Snapshot (m : RefClient) : List (String × Slot) :=
  m.data.foldl (fun out kv => mapSet out kv.1 kv.2) []

/-- The value a slot stands for in a heap. -/
def Slot.read (heap : Heap) : Slot → Any
  | .ref a => .map (heap.getD a [])
  | .val v => v

/-- The contents of a top-level map as its holder reads them in a heap. -/
def readMap (heap : Heap) (slots : List (String × Slot)) : GoMap :=
  slots.map (fun kv => (kv.1, kv.2.read heap))

/-! ## Library functions of Go that the program calls -/

/-- The two kinds of `*strconv.NumError`. -/
inductive NumError where
  /-- `strconv.ErrSyntax` -/
  | invalidText
  /-- `strconv.ErrRange` -/
  | outOfRange
  deriving DecidableEq, Repr

/-- The digit loop of `strconv.ParseUint(s, 10, 64)`: `n` is the value read so
far. A byte that is no decimal digit is a syntax error; a value of 2^64 or
more is a range error, found at the digit that reaches it. -/
def parseUintLoop : List Char → Nat → Except NumError Nat
  | [], n => .ok n
  | c :: cs, n =>
    if c.isDigit then
      if n ≥ (2 ^ 64 - 1) / 10 + 1 then .error .outOfRange
      else if n * 10 + (c.toNat - 48) > 2 ^ 64 - 1 then .error .outOfRange
      else parseUintLoop cs (n * 10 + (c.toNat - 48))
    else .error .invalidText

/-- `strconv.ParseUint(s, 10, 64)` on the runes of `s`. A range error leaves
the value `1<<64 - 1` to the caller. -/
def ParseUint (s : List Char) : Except NumError Nat :=
  if s = [] then .error .invalidText else parseUintLoop s 0

/-- The second half of `strconv.ParseInt(s, 10, 64)`: `ParseUint` on what
follows the sign, then the check of the signed 64-bit range. -/
def parseIntDigits (neg : Bool) (digits : List Char) : Except NumError Int :=
  match ParseUint digits with
  | .error .invalidText => .error .invalidText
  | .error .outOfRange => .error .outOfRange
  | .ok un =>
    if neg = false ∧ un ≥ 2 ^ 63 then .error .outOfRange
    else if neg = true ∧ un > 2 ^ 63 then .error .outOfRange
    else .ok (if neg = true then -(un : Int) else (un : Int))

/-- `strconv.ParseInt(s, 10, 64)`: the empty string is a syntax error; a
leading `+` or `-` is the sign. -/
def ParseInt (s : String) : Except NumError Int :=
  match s.toList with
  | [] => .error .invalidText
  | c :: rest =>
    if c = '+' then parseIntDigits false rest
    else if c = '-' then parseIntDigits true rest
    else parseIntDigits false (c :: rest)

/-- `strconv.Atoi` on a 64-bit platform: the same results as
`ParseInt(s, 10, 64)`. -/
def Atoi (s : String) : Except NumError Int := ParseInt s

/-- `json.Number.Int64`, which is `strconv.ParseInt(string(n), 10, 64)`. -/
def jsonNumberInt64 (text : String) : Except NumError Int := ParseInt text

/-- The conversion `int(x)` of a finite `float64`: the fraction is discarded
(truncation toward zero). Outside the 64-bit range Go leaves the result to the
implementation; the value here is the one of amd64, the smallest `int64`. -/
def intOfFloat64 (x : ℚ) : Int :=
  let t := Int.tdiv x.num x.den
  if -(2 : Int) ^ 63 ≤ t ∧ t < 2 ^ 63 then t else -(2 : Int) ^ 63

/-- The conversion `float64(n)` of an integer: the nearest `float64`, ties to
the even mantissa; exact when `|n| ≤ 2^53`. -/
def float64OfInt (n : Int) : ℚ :=
  let a := n.natAbs
  let e := Nat.size a - 53
  let q := a / 2 ^ e
  let r := a % 2 ^ e
  let q' := if 2 * r > 2 ^ e ∨ (2 * r = 2 ^ e ∧ q % 2 = 1) then q + 1 else q
  if n < 0 then -((q' * 2 ^ e : Nat) : ℚ) else ((q' * 2 ^ e : Nat) : ℚ)

/-! ## `internal/printer/types.go`: status codes -/

/-- `PrintStatus`, an `int`. -/
abbrev PrintStatus := Int

/-- `PrintStatusIdle`. -/
def PrintStatusIdle : PrintStatus := 255

/-- The table `printStatusNames`, keyed by the constants `PrintStatusPrinting`
(0) to `PrintStatusPausedNozzleClog` (35). -/
def printStatusNames : List (PrintStatus × String) :=
  [ (0, "PRINTING"),
    (1, "AUTO_BED_LEVELING"),
    (2, "HEATBED_PREHEATING"),
    (3, "SWEEPING_XY_MECH_MODE"),
    (4, "CHANGING_FILAMENT"),
    (5, "M400_PAUSE"),
    (6, "PAUSED_FILAMENT_RUNOUT"),
    (7, "HEATING_HOTEND"),
    (8, "CALIBRATING_EXTRUSION"),
    (9, "SCANNING_BED_SURFACE"),
    (10, "INSPECTING_FIRST_LAYER"),
    (11, "IDENTIFYING_BUILD_PLATE_TYPE"),
    (12, "CALIBRATING_MICRO_LIDAR"),
    (13, "HOMING_TOOLHEAD"),
    (14, "CLEANING_NOZZLE_TIP"),
    (15, "CHECKING_EXTRUDER_TEMPERATURE"),
    (16, "PAUSED_USER"),
    (17, "PAUSED_FRONT_COVER_FALLING"),
    (18, "CALIBRATING_LIDAR"),
    (19, "CALIBRATING_EXTRUSION_FLOW"),
    (20, "PAUSED_NOZZLE_TEMPERATURE_MALFUNCTION"),
    (21, "PAUSED_HEAT_BED_TEMPERATURE_MALFUNCTION"),
    (22, "FILAMENT_UNLOADING"),
    (23, "PAUSED_SKIPPED_STEP"),
    (24, "FILAMENT_LOADING"),
    (25, "CALIBRATING_MOTOR_NOISE"),
    (26, "PAUSED_AMS_LOST"),
    (27, "PAUSED_LOW_FAN_SPEED_HEAT_BREAK"),
    (28, "PAUSED_CHAMBER_TEMPERATURE_CONTROL_ERROR"),
    (29, "COOLING_CHAMBER"),
    (30, "PAUSED_USER_GCODE"),
    (31, "MOTOR_NOISE_SHOWOFF"),
    (32, "PAUSED_NOZZLE_FILAMENT_COVERED_DETECTED"),
    (33, "PAUSED_CUTTER_ERROR"),
    (34, "PAUSED_FIRST_LAYER_ERROR"),
    (35, "PAUSED_NOZZLE_CLOG") ]

/-- The lookup `name, ok := printStatusNames[s]`. -/
def printStatusName : List (PrintStatus × String) → PrintStatus → Option String
  | [], _ => none
  | (c, name) :: rest, s => if c = s then some name else printStatusName rest s

/-- `PrintStatus.String`. -/
def PrintStatus.String (s : PrintStatus) : String :=
  if s = PrintStatusIdle then "IDLE"
  else
    match printStatusName printStatusNames s with
    | none => "UNKNOWN"
    | some name => name

/-- `GcodeState`, a `string`. -/
abbrev GcodeState := String

/-- `ParseGcodeState`. -/
def ParseGcodeState (v : Any) : GcodeState :=
  match v.asString with
  | none => "UNKNOWN"
  | some s =>
    if s = "IDLE" then "IDLE"
    else if s = "PREPARE" then "PREPARE"
    else if s = "RUNNING" then "RUNNING"
    else if s = "PAUSE" then "PAUSE"
    else if s = "FINISH" then "FINISH"
    else if s = "FAILED" then "FAILED"
    else "UNKNOWN"

/-- The errors of `ParsePrintStatus`: the one `Int64` returned, or
`fmt.Errorf("unsupported status type")`. -/
inductive StatusError where
  | number (e : NumError)
  | unsupportedStatusType
  deriving DecidableEq, Repr

/-- `ParsePrintStatus`: the type switch on `v`. -/
def ParsePrintStatus (v : Any) : Except StatusError PrintStatus :=
  match v with
  | .float64 val => .ok (intOfFloat64 val)
  | .int val => .ok val
  | .int64 val => .ok val
  | .jsonNumber val =>
    match jsonNumberInt64 val with
    | .error err => .error (.number err)
    | .ok i => .ok i
  | _ => .error .unsupportedStatusType

/-! ## `internal/printer/status.go`: the status view -/

/-- `Status`; a nil `RemainingMinutes` is `none`. -/
structure Status where
  GcodeState : GcodeState
  PrintStatus : String
  Percent : Int
  LayerCurrent : Int
  LayerTotal : Int
  BedTemp : ℚ
  NozzleTemp : ℚ
  ChamberTemp : ℚ
  RemainingMinutes : Option Int
  File : String
  Light : String
  WifiSignal : String
  ErrorCode : Int

/-- `asInt`: `some i` is `(i, true)`, `none` is `(0, false)`. -/
def asInt (v : Any) : Option Int :=
  match v with
  | .int t => some t
  | .int64 t => some t
  | .float64 t => some (intOfFloat64 t)
  | .jsonNumber t =>
    match jsonNumberInt64 t with
    | .error _ => none
    | .ok i => some i
  | _ => none

/-- `asFloat`: `some f` is `(f, true)`, `none` is `(0, false)`. The case of a
`jsonNumber` calls `Int64`, as the source does. -/
def asFloat (v : Any) : Option ℚ :=
  match v with
  | .float64 t => some t
  | .int t => some (float64OfInt t)
  | .int64 t => some (float64OfInt t)
  | .jsonNumber t =>
    match jsonNumberInt64 t with
    | .error _ => none
    | .ok f => some (float64OfInt f)
  | _ => none

/-- `intValue`, applied to the two results of `Get`. -/
def intValue (r : Option Any) : Int :=
  match r with
  | none => 0
  | some v =>
    match asInt v with
    | some i => i
    | none => 0

/-- `floatValue`, applied to the two results of `Get`. -/
def floatValue (r : Option Any) : ℚ :=
  match r with
  | none => 0
  | some v =>
    match asFloat v with
    | some f => f
    | none => 0

/-- `stringValue`, applied to the two results of `Get`; `sprintV v` is
`fmt.Sprintf("%v", v)`. -/
def stringValue (sprintV : Any → String) (r : Option Any) : String :=
  match r with
  | none => ""
  | some v =>
    match v.asString with
    | some s => s
    | none => sprintV v

/-- `lightState`. -/
def lightState (c : MQTTClient) : String :=
  match c.Get ["print", "lights_report"] with
  | none => "unknown"
  | some v =>
    match v.asSlice with
    | none => "unknown"
    | some [] => "unknown"
    | some (arr0 :: _) =>
      match arr0.asMap with
      | none => "unknown"
      | some first =>
        match ((mapGet first "mode").getD .nil).asString with
        | none => "unknown"
        | some mode => mode

/-- The fallback of `chamberTemp`: the field `print.device.ctc.info.temp`. -/
def chamberTempFallback (c : MQTTClient) : Option ℚ :=
  match c.Get ["print", "device"] with
  | none => none
  | some v =>
    match v.asMap with
    | none => none
    | some m =>
      match ((mapGet m "ctc").getD .nil).asMap with
      | none => none
      | some ctc =>
        match ((mapGet ctc "info").getD .nil).asMap with
        | none => none
        | some info => asFloat ((mapGet info "temp").getD .nil)

/-- `chamberTemp`. -/
def chamberTemp (c : MQTTClient) : ℚ :=
  match (c.Get ["print", "chamber_temper"]).bind asFloat with
  | some f => f
  | none =>
    match chamberTempFallback c with
    | some f => f
    | none => 0

/-- `GetStatus`; `sprintV v` is `fmt.Sprintf("%v", v)`. The fields that the
source assigns under a condition keep the zero value of `Status{}`
otherwise. -/
def GetStatus (sprintV : Any → String) (c : MQTTClient) : Status :=
  { GcodeState :=
      match c.Get ["print", "gcode_state"] with
      | some v => ParseGcodeState v
      | none => ""
    PrintStatus :=
      match c.Get ["print", "stg_cur"] with
      | some v =>
        match ParsePrintStatus v with
        | .ok ps => PrintStatus.String ps
        | .error _ => "UNKNOWN"
      | none => ""
    Percent := intValue (c.Get ["print", "mc_percent"])
    LayerCurrent := intValue (c.Get ["print", "layer_num"])
    LayerTotal := intValue (c.Get ["print", "total_layer_num"])
    BedTemp := floatValue (c.Get ["print", "bed_temper"])
    NozzleTemp := floatValue (c.Get ["print", "nozzle_temper"])
    ChamberTemp := chamberTemp c
    File := stringValue sprintV (c.Get ["print", "gcode_file"])
    Light := lightState c
    WifiSignal := stringValue sprintV (c.Get ["print", "wifi_signal"])
    ErrorCode := intValue (c.Get ["print", "print_error"])
    RemainingMinutes :=
      match c.Get ["print", "mc_remaining_time"] with
      | some v => asInt v
      | none => none }

/-! ## `internal/printer/payloads.go`: command payloads -/

/-- `len(s)` of a `[]int`; the nil slice has length 0. -/
def sliceLen (s : Option (List Int)) : Nat :=
  match s with
  | none => 0
  | some xs => xs.length

/-- `PayloadStartPrint`. The map literal binds `skip_objects` to `nil`; the
assignment under the `if` replaces that binding in the map under `"print"`. -/
def PayloadStartPrint (filename plateLocation : String) (useAMS : Bool)
    (amsMapping skipObjects : Option (List Int)) (flowCalibration : Bool) : GoMap :=
  let print : GoMap :=
    [ ("command", .str "project_file"),
      ("param", .str plateLocation),
      ("file", .str filename),
      ("bed_leveling", .bool true),
      ("bed_type", .str "textured_plate"),
      ("flow_cali", .bool flowCalibration),
      ("vibration_cali", .bool true),
      ("url", .str ("ftp:///" ++ filename)),
      ("layer_inspect", .bool false),
      ("sequence_id", .str "10000000"),
      ("use_ams", .bool useAMS),
      ("ams_mapping", .intSlice amsMapping),
      ("skip_objects", .nil) ]
  if skipObjects ≠ none ∧ sliceLen skipObjects > 0 then
    [("print", .map (mapSet print "skip_objects" (.intSlice skipObjects)))]
  else
    [("print", .map print)]

/-- `PayloadCalibration`; `bitmask` is never negative. -/
def PayloadCalibration (bedLevel motorNoise vibration : Bool) : GoMap :=
  let bitmask : Nat := 0
  let bitmask := if bedLevel then bitmask ||| (1 <<< 1) else bitmask
  let bitmask := if vibration then bitmask ||| (1 <<< 2) else bitmask
  let bitmask := if motorNoise then bitmask ||| (1 <<< 3) else bitmask
  [("print", .map [("command", .str "calibration"), ("option", .int (bitmask : Nat))])]

/-! ## `internal/printer/gcode.go`: the line validator

The runes of a line are a `List Char`. The two patterns are regular
expressions over runes; `regexp.MatchString` is membership of the text (for
`^…$`) or of one of its prefixes (for `^…`) in the language of the pattern. -/

/-- A character class: one rune out of `cs`. -/
def oneOf (cs : List Char) : RegularExpression Char :=
  cs.foldr (fun c r => .plus (.char c) r) .zero

/-- The pattern `r?`. -/
def opt (r : RegularExpression Char) : RegularExpression Char := .plus .epsilon r

/-- The pattern `r+`. -/
def many1 (r : RegularExpression Char) : RegularExpression Char := .comp r (.star r)

/-- The class `[A-Z]`. -/
def classUpper : RegularExpression Char := oneOf "ABCDEFGHIJKLMNOPQRSTUVWXYZ".toList

/-- The class `\d`, which in Go is `[0-9]`. -/
def classDigit : RegularExpression Char := oneOf "0123456789".toList

/-- The body of `gcodeHead`, the pattern `^[GM]\d+`. -/
def gcodeHead : RegularExpression Char :=
  .comp (oneOf ['G', 'M']) (many1 classDigit)

/-- The body of `gcodeParam`, the pattern `^[A-Z]-?\d+(\.\d+)?$`. -/
def gcodeParam : RegularExpression Char :=
  .comp (.comp (.comp classUpper (opt (.char '-'))) (many1 classDigit))
    (opt (.comp (.char '.') (many1 classDigit)))

/-- `MatchString` for a pattern `^body`: a prefix of `s` matches `body`. -/
def matchStart (body : RegularExpression Char) (s : List Char) : Bool :=
  s.inits.any body.rmatch

/-- `MatchString` for a pattern `^body$`: `s` matches `body`; without the flag
`m` the `$` is the end of the text. -/
def matchWhole (body : RegularExpression Char) (s : List Char) : Bool :=
  body.rmatch s

/-- The bytes that `trimSpace` removes: space, tab, LF, CR. -/
def isTrimmed (c : Char) : Bool :=
  c = ' ' || c = '\t' || c = '\n' || c = '\r'

/-- `trimSpace`: `start` moves right over the four bytes, then `end` moves
left over them down to `start`. The four bytes are ASCII, so the bytes of a
UTF-8 text and its runes are cut at the same places. -/
def trimSpace (s : List Char) : List Char :=
  (s.dropWhile isTrimmed).rdropWhile isTrimmed

/-- `stripComment`: the line up to the first `;`, or the whole line when it has
none, trimmed. -/
def stripComment (line : List Char) : List Char :=
  trimSpace (line.takeWhile (fun r => r ≠ ';'))

/-- The loop of `splitFields`. `cur` is `line[start:i]` when `start >= 0` and
`none` when `start < 0`; `fields` is the slice built so far. -/
def splitFieldsLoop : List Char → Option (List Char) → List (List Char) → List (List Char)
  | [], none, fields => fields
  | [], some cur, fields => fields ++ [cur]
  | r :: rest, cur, fields =>
    if r = ' ' ∨ r = '\t' then
      match cur with
      | some f => splitFieldsLoop rest none (fields ++ [f])
      | none => splitFieldsLoop rest none fields
    else
      match cur with
      | some f => splitFieldsLoop rest (some (f ++ [r])) fields
      | none => splitFieldsLoop rest (some [r]) fields

/-- `splitFields`. -/
def splitFields (line : List Char) : List (List Char) :=
  splitFieldsLoop line none []

/-- `ValidateGcodeLine`. `parts[1:]` is the tail of `parts`, which is not
empty when `gcodeHead` matches. -/
def ValidateGcodeLine (line : String) : Bool :=
  let line := stripComment line.toList
  if line = [] then false
  else if !matchStart gcodeHead line then false
  else (splitFields line).tail.all (matchWhole gcodeParam)

/-! ## `internal/printer/camera.go`: the camera client

A Go `[]byte` is a `List UInt8`, and a Go string that is converted with
`[]byte(...)` is given by its bytes. -/

/-- `bytes.HasPrefix(s, prefix)`. -/
def bytesHasPrefix (s pre : List UInt8) : Bool :=
  decide (s.length ≥ pre.length) && decide (s.take pre.length = pre)

/-- `bytes.HasSuffix(s, suffix)`. -/
def bytesHasSuffix (s suf : List UInt8) : Bool :=
  decide (s.length ≥ suf.length) && decide (s.drop (s.length - suf.length) = suf)

/-- The errors of `conn.Read` as the capture loop tells them apart. -/
inductive ReadError where
  /-- an error with `errors.Is(err, net.ErrClosed)`: the connection has been
  closed on this side -/
  | errClosed
  /-- a `net.Error` whose `Timeout()` is true: the deadline of the connection
  has passed -/
  | timeout
  /-- `io.EOF`, the error of `Read` at the end of a stream that the peer has
  closed; it is not `net.ErrClosed` and is no `net.Error` -/
  | eof
  /-- any other error -/
  | other (msg : String)
  deriving DecidableEq, Repr

/-- The two results `n, err` of one `conn.Read(buf)`: the `n` bytes read, or
the error. -/
inductive ReadResult where
  | data (chunk : List UInt8)
  | err (e : ReadError)
  deriving DecidableEq, Repr

/-- The errors that `CameraClient.Snapshot` returns. -/
inductive SnapshotError where
  /-- the error of `tls.DialWithDialer` -/
  | dial (msg : String)
  /-- the error of `conn.Write(auth)` -/
  | write (msg : String)
  /-- a read error, returned as it is -/
  | read (e : ReadError)
  /-- `errors.New("no camera frame received")` -/
  | noFrame
  deriving DecidableEq, Repr

/-- `jpegStart`. -/
def jpegStart : List UInt8 := [0xff, 0xd8, 0xff, 0xe0]

/-- `jpegEnd`. -/
def jpegEnd : List UInt8 := [0xff, 0xd9]

/-- The length in a 16-byte header:
`int(chunk[0]) | int(chunk[1])<<8 | int(chunk[2])<<16`. -/
def headerLength (chunk : List UInt8) : Nat :=
  (chunk.getD 0 0).toNat ||| ((chunk.getD 1 0).toNat <<< 8) ||| ((chunk.getD 2 0).toNat <<< 16)

/-- The loop of `CameraClient.Snapshot` from the state `img`, `payloadSize`
(`none` is the nil slice). The list holds the results of the calls of
`conn.Read` that happen while `time.Now().Before(deadline)` holds; at its end
the deadline has passed and the loop is left. -/
def captureLoop (img : Option (List UInt8)) (payloadSize : Nat) :
    List ReadResult → Except SnapshotError (List UInt8)
  | [] => .error .noFrame
  | .err e :: _ =>
    match e with
    | .errClosed => .error .noFrame
    | .timeout => .error .noFrame
    | .eof => .error (.read .eof)
    | .other msg => .error (.read (.other msg))
  | .data chunk :: rest =>
    if chunk.length = 0 then captureLoop img payloadSize rest
    else
      match img with
      | some buf =>
        if payloadSize > 0 then
          if (buf ++ chunk).length ≥ payloadSize then
            if bytesHasPrefix ((buf ++ chunk).take payloadSize) jpegStart = true ∧
                bytesHasSuffix ((buf ++ chunk).take payloadSize) jpegEnd = true then
              .ok ((buf ++ chunk).take payloadSize)
            else captureLoop none 0 rest
          else captureLoop (some (buf ++ chunk)) payloadSize rest
        else if chunk.length = 16 then
          if headerLength chunk > 0 then captureLoop (some []) (headerLength chunk) rest
          else captureLoop (some buf) (headerLength chunk) rest
        else captureLoop (some buf) payloadSize rest
      | none =>
        if chunk.length = 16 then
          if headerLength chunk > 0 then captureLoop (some []) (headerLength chunk) rest
          else captureLoop none (headerLength chunk) rest
        else captureLoop none payloadSize rest

/-- What the network does during one call of `CameraClient.Snapshot`: the
error of the dial and of the write of the authentication block, if any, and
the results of the reads before the deadline. -/
structure CameraSession where
  dialErr : Option String
  writeErr : Option String
  reads : List ReadResult

/-- `CameraClient.Snapshot`. -/
def CameraClient.Snapshot (s : CameraSession) : Except SnapshotError (List UInt8) :=
  match s.dialErr with
  | some msg => .error (.dial msg)
  | none =>
    match s.writeErr with
    | some msg => .error (.write msg)
    | none => captureLoop none 0 s.reads

/-- `binary.Write(buf, binary.LittleEndian, uint32(v))`: the four bytes of `v`,
the least significant first. -/
def putUint32 (v : Nat) : List UInt8 :=
  [UInt8.ofNat v, UInt8.ofNat (v >>> 8), UInt8.ofNat (v >>> 16), UInt8.ofNat (v >>> 24)]

/-- `writePadded`: the contents of the buffer after the call. -/
def writePadded (buf b : List UInt8) (size : Nat) : List UInt8 :=
  if b.length > size then buf ++ b.take size
  else buf ++ b ++ List.replicate (size - b.length) 0

/-- `buildCameraAuth`, on the bytes of `username` and `access`. -/
def buildCameraAuth (username access : List UInt8) : List UInt8 :=
  let buf := putUint32 0x40 ++ putUint32 0x3000 ++ putUint32 0 ++ putUint32 0
  let buf := writePadded buf username 32
  writePadded buf access 32

/-! ## `cmd/bambu-cli/main.go` -/

/-- `plateToLocation`; `fmt.Sprintf("Metadata/plate_%s.gcode", plate)` puts the
text of `plate` between the two literals. -/
def plateToLocation (plate : String) : String :=
  if plate = "" then "Metadata/plate_1.gcode"
  else
    match Atoi plate with
    | .ok _ => "Metadata/plate_" ++ plate ++ ".gcode"
    | .error _ => plate

/-! ## `internal/ui/confirm.go`: the confirmation of a destructive action -/

/-- `unicode.IsSpace`: the white space of Latin-1 and the runes with the
property `White_Space` beyond it. -/
def unicodeIsSpace (r : Char) : Bool :=
  r = '\t' || r = '\n' || r = '\x0b' || r = '\x0c' || r = '\r' || r = ' ' ||
  r.toNat = 0x85 || r.toNat = 0xA0 || r.toNat = 0x1680 ||
  (decide (0x2000 ≤ r.toNat) && decide (r.toNat ≤ 0x200A)) ||
  r.toNat = 0x2028 || r.toNat = 0x2029 || r.toNat = 0x202F || r.toNat = 0x205F ||
  r.toNat = 0x3000

/-- `strings.TrimSpace`: the string without its leading and trailing white
space. -/
def TrimSpace (s : String) : String :=
  String.mk ((s.toList.dropWhile unicodeIsSpace).rdropWhile unicodeIsSpace)

/-- `ConfirmOptions`, without the files `Out` and `In`, whose behaviour during
a call is a `ConfirmFiles`. -/
structure ConfirmOptions where
  Action : String
  Force : Bool
  Confirm : String
  NoInput : Bool
  UseTTY : Bool

/-- What the files `out` and `in` do during one call: the error of
`fmt.Fprintf(out, ...)`, if any, and the result of `reader.ReadString('\n')`,
a line with its delimiter or an error. -/
structure ConfirmFiles where
  writeErr : Option String
  readLine : Except String String

/-- The errors of `RequireConfirmation`. -/
inductive ConfirmError where
  /-- `fmt.Errorf("--confirm must equal %q", opts.Action)` -/
  | mustEqual (action : String)
  /-- `fmt.Errorf("confirmation required: pass --force or --confirm=%s", opts.Action)` -/
  | required (action : String)
  /-- the error of `Fprintf` or of `ReadString`, returned as it is -/
  | file (msg : String)
  /-- `fmt.Errorf("confirmation did not match")` -/
  | didNotMatch
  deriving DecidableEq, Repr

/-- The outcome of a call of `RequireConfirmation`: the error returned (`none`
is `nil`), whether the prompt was written to `out`, and whether input was read
from `in`. -/
structure ConfirmRun where
  err : Option ConfirmError
  prompted : Bool
  readInput : Bool
  deriving DecidableEq, Repr

/-- `RequireConfirmation`. -/
def RequireConfirmation (opts : ConfirmOptions) (files : ConfirmFiles) : ConfirmRun :=
  if opts.Force = true then { err := none, prompted := false, readInput := false }
  else if opts.Confirm ≠ "" then
    if opts.Confirm = opts.Action then { err := none, prompted := false, readInput := false }
    else { err := some (.mustEqual opts.Action), prompted := false, readInput := false }
  else if opts.NoInput = true ∨ opts.UseTTY = false then
    { err := some (.required opts.Action), prompted := false, readInput := false }
  else
    match files.writeErr with
    | some msg => { err := some (.file msg), prompted := true, readInput := false }
    | none =>
      match files.readLine with
      | .error msg => { err := some (.file msg), prompted := true, readInput := true }
      | .ok line =>
        if TrimSpace line ≠ opts.Action then
          { err := some .didNotMatch, prompted := true, readInput := true }
        else { err := none, prompted := true, readInput := true }

/-! ## Auxiliary definitions used in statements -/

/-- The value that one iteration of the outer loop leaves at the key it
handles, given the value `old` found there before. -/
def mergedValue (old : Option Any) (v : Any) : Any :=
  match old, v.asMap with
  | some existing, some vMap =>
    match existing.asMap with
    | some existingMap => .map (mergeInto existingMap vMap)
    | none => v
  | _, _ => v

/-- The address a slot refers to. -/
def Slot.addr? : Slot → Option Nat
  | .ref a => some a
  | .val _ => none

/-- The states of the aggregator with a heap that `onMessage` produces: every
reference is an address of the heap, no two bindings hold the same map object,
and every map is held by reference. -/
def RefWF (heap : Heap) (data : List (String × Slot)) : Prop :=
  (∀ kv ∈ data, ∀ a, kv.2 = .ref a → a < heap.length) ∧
  (data.filterMap (fun kv => kv.2.addr?)).Nodup ∧
  (∀ kv ∈ data, ∀ v, kv.2 = .val v → v.asMap = none)

/-- The number that the decimal digits `ds` denote after the digits that gave
`n`. -/
def decimalFold (ds : List Char) (n : Nat) : Nat :=
  ds.foldl (fun a c => a * 10 + (c.toNat - 48)) n

/-- The number that a list of decimal digits denotes. -/
def decimalValue (ds : List Char) : Nat := decimalFold ds 0

/-- The text `t` is a decimal integer literal of the signed 64-bit range with
value `z`: an optional sign `+` or `-`, then one or more decimal digits. -/
def IsInt64Text (t : String) (z : Int) : Prop :=
  ∃ ds : List Char, ds ≠ [] ∧ (∀ c ∈ ds, c.isDigit = true) ∧
    (((t.toList = ds ∨ t.toList = '+' :: ds) ∧
        z = (decimalValue ds : Int) ∧ decimalValue ds < 2 ^ 63) ∨
      (t.toList = '-' :: ds ∧ z = -(decimalValue ds : Int) ∧ decimalValue ds ≤ 2 ^ 63))

/-- The dynamic types that hold a number: `int`, `int64`, `float64` and
`json.Number`. -/
def Any.isNumeric : Any → Bool
  | .int _ => true
  | .int64 _ => true
  | .float64 _ => true
  | .jsonNumber _ => true
  | _ => false

/-- The literal of a JSON number (RFC 8259: an optional `-`, an integer part
without a superfluous leading zero, an optional fraction, an optional
exponent) as a pair `(m, e)` that stands for the number `m * 10 ^ e`. -/
def jsonNumberParts (text : String) : Option (Int × Int) :=
  let cs := text.toList
  let neg := decide (cs.head? = some '-')
  let cs := if neg then cs.tail else cs
  let ip := cs.takeWhile Char.isDigit
  let cs := cs.dropWhile Char.isDigit
  if ip = [] ∨ (ip.head? = some '0' ∧ ip.length > 1) then none
  else
    let hasFrac := decide (cs.head? = some '.')
    let fp := if hasFrac then cs.tail.takeWhile Char.isDigit else []
    let cs := if hasFrac then cs.tail.dropWhile Char.isDigit else cs
    if hasFrac ∧ fp = [] then none
    else
      let m : Int := if neg then -(decimalValue (ip ++ fp) : Int) else decimalValue (ip ++ fp)
      match cs with
      | [] => some (m, -(fp.length : Int))
      | e :: rest =>
        if e = 'e' ∨ e = 'E' then
          let eneg := decide (rest.head? = some '-')
          let ds := if rest.head? = some '-' ∨ rest.head? = some '+' then rest.tail else rest
          if ds = [] ∨ ds.all Char.isDigit = false then none
          else
            some (m, (if eneg then -(decimalValue ds : Int) else decimalValue ds) -
              (fp.length : Int))
        else none

/-- The number that the literal of a JSON number denotes. -/
def jsonNumberValue (text : String) : Option ℚ :=
  (jsonNumberParts text).map (fun me => (me.1 : ℚ) * (10 : ℚ) ^ me.2)

/-- Space or tab, the two runes at which `splitFields` cuts. -/
def isSpaceOrTab (c : Char) : Bool := c = ' ' || c = '\t'

/-- The tokens of `s` for the separators `sep`: the maximal runs of runes that
are no separators. -/
def tokens (sep : Char → Bool) (s : List Char) : List (List Char) :=
  (s.splitOnP sep).filter (fun t => t ≠ [])

/-- The shape of a parameter token: one upper-case letter `A`–`Z`, an optional
`-`, one or more digits `0`–`9`, and optionally `.` with one or more digits. -/
def IsParamToken (tok : List Char) : Prop :=
  ∃ (u : Char) (sgn ds fr : List Char), tok = u :: (sgn ++ ds ++ fr) ∧ u.isUpper = true ∧
    (sgn = [] ∨ sgn = ['-']) ∧ ds ≠ [] ∧ (∀ c ∈ ds, c.isDigit = true) ∧
    (fr = [] ∨ ∃ fs, fr = '.' :: fs ∧ fs ≠ [] ∧ ∀ c ∈ fs, c.isDigit = true)

/-- The text begins with `G` or `M` and a digit right after it. -/
def HasGcodeHead (s : List Char) : Prop :=
  ∃ (c d : Char) (rest : List Char), s = c :: d :: rest ∧ (c = 'G' ∨ c = 'M') ∧ d.isDigit = true

/-- The value `v` is reached from `cur` along `path`: each key of the path, in
order, is present in the mapping reached by the keys before it. -/
inductive Reaches : Any → List String → Any → Prop where
  | here (v : Any) : Reaches v [] v
  | step (m : GoMap) (p : String) (next : Any) (rest : List String) (v : Any) :
      mapGet m p = some next → Reaches next rest v → Reaches (.map m) (p :: rest) v

/-- The call is a message that decodes: a successful ingest. -/
def Call.isIngest : Call → Bool
  | .onMessage (some _) => true
  | _ => false

/-- The frame `frame` is framed in the reads: after a read of 16 bytes that
declares the length `L > 0` come the reads `chunks`, and `frame` is the first
`L` bytes of these, with the start and the end marker of a JPEG image. -/
def FramedIn (reads : List ReadResult) (frame : List UInt8) : Prop :=
  ∃ (pre : List ReadResult) (hdr : List UInt8) (chunks : List (List UInt8))
    (rest : List ReadResult),
    reads = pre ++ .data hdr :: (chunks.map ReadResult.data ++ rest) ∧
    hdr.length = 16 ∧ headerLength hdr > 0 ∧
    frame = chunks.flatten.take (headerLength hdr) ∧
    frame.length = headerLength hdr ∧
    frame.take 4 = [0xff, 0xd8, 0xff, 0xe0] ∧
    frame.drop (frame.length - 2) = [0xff, 0xd9]

/-- The six known values of `GcodeState`. -/
def knownGcodeStates : List String :=
  ["IDLE", "PREPARE", "RUNNING", "PAUSE", "FINISH", "FAILED"]

/-- The codes of the known print statuses: 0 to 35, and 255. -/
def knownPrintStatusCodes : List Int := (List.range 36).map Int.ofNat ++ [255]

/-- How an integer field of the status view follows from the result `r` of
`Get` on its source field: 0 when the field is missing or of a non-numeric
type; the value of an `int` or `int64`; the integer part of a `float64`
(`int(x)`, truncation toward zero); the value of a `json.Number` whose text is
a decimal integer literal of the signed 64-bit range, and 0 for every other
`json.Number`. -/
def IntFieldOf (r : Option Any) (x : Int) : Prop :=
  (r = none → x = 0) ∧
  (∀ v, r = some v → v.isNumeric = false → x = 0) ∧
  (∀ n, r = some (.int n) ∨ r = some (.int64 n) → x = n) ∧
  (∀ q, r = some (.float64 q) → x = intOfFloat64 q) ∧
  (∀ t z, r = some (.jsonNumber t) → IsInt64Text t z → x = z) ∧
  (∀ t, r = some (.jsonNumber t) → (¬ ∃ z, IsInt64Text t z) → x = 0)

/-- How the optional field `RemainingMinutes` follows from the result `r` of
`Get`: as `IntFieldOf`, with "omitted" (`none`) in the place of 0. -/
def OptIntFieldOf (r : Option Any) (x : Option Int) : Prop :=
  (r = none → x = none) ∧
  (∀ v, r = some v → v.isNumeric = false → x = none) ∧
  (∀ n, r = some (.int n) ∨ r = some (.int64 n) → x = some n) ∧
  (∀ q, r = some (.float64 q) → x = some (intOfFloat64 q)) ∧
  (∀ t z, r = some (.jsonNumber t) → IsInt64Text t z → x = some z) ∧
  (∀ t, r = some (.jsonNumber t) → (¬ ∃ z, IsInt64Text t z) → x = none)

/-- The values that `onMessage` decodes from a payload: `dec.UseNumber()` is
set, so a value of a JSON document is `nil`, a `bool`, a `string`, a
`json.Number`, a `[]any` of such values or a `map[string]any` of such values,
and never an `int`, an `int64` or a `float64`. -/
inductive Decoded : Any → Prop where
  | nil : Decoded .nil
  | bool (b : Bool) : Decoded (.bool b)
  | str (s : String) : Decoded (.str s)
  | jsonNumber (text : String) : Decoded (.jsonNumber text)
  | slice (xs : List Any) : (∀ x ∈ xs, Decoded x) → Decoded (.slice xs)
  | map (kvs : List (String × Any)) : (∀ kv ∈ kvs, Decoded kv.2) → Decoded (.map kvs)

/-- The call delivers a payload as `onMessage` decodes it, or is no
message. -/
def Call.IsDecoded : Call → Prop
  | .onMessage (some doc) => Decoded (.map doc)
  | _ => True

/-! # Theorems -/

/-! ### Lemmas on maps -/

theorem mapGet_mapSet (m : GoMap) (k k' : String) (v : Any) :
    mapGet (mapSet m k v) k' = if k = k' then some v else mapGet m k' := by
  induction m with
  | nil =>
    by_cases h : k = k' <;> simp [mapSet, mapGet, h]
  | cons hd tl ih =>
    obtain ⟨a, b⟩ := hd
    by_cases h1 : a = k
    · subst h1
      by_cases h2 : a = k' <;> simp [mapSet, mapGet, h2]
    · by_cases h2 : k = k'
      · subst h2
        simp [mapSet, mapGet, h1, ih]
      · by_cases h3 : a = k'
        · subst h3
          simp [mapSet, mapGet, h1, h2]
        · simp [mapSet, mapGet, h1, h2, h3, ih]

theorem mapGet_eq_none_of_not_mem (m : GoMap) (k : String)
    (h : k ∉ m.map Prod.fst) : mapGet m k = none := by
  induction m with
  | nil => rfl
  | cons hd tl ih =>
    obtain ⟨a, b⟩ := hd
    simp only [List.map_cons, List.mem_cons, not_or] at h
    have h1 : ¬ a = k := fun e => h.1 e.symm
    simp [mapGet, h1, ih h.2]

theorem mapGet_mergeInto (vMap : GoMap) (hv : KeysNodup vMap) (existingMap : GoMap)
    (kk : String) :
    mapGet (mergeInto existingMap vMap) kk =
      (mapGet vMap kk).orElse (fun _ => mapGet existingMap kk) := by
  induction vMap generalizing existingMap with
  | nil => simp [mergeInto, mapGet]
  | cons hd tl ih =>
    obtain ⟨a, b⟩ := hd
    have hnd : KeysNodup tl := (List.nodup_cons.mp hv).2
    have hna : a ∉ tl.map Prod.fst := (List.nodup_cons.mp hv).1
    have step : mergeInto existingMap ((a, b) :: tl) = mergeInto (mapSet existingMap a b) tl := rfl
    rw [step, ih hnd]
    by_cases h : a = kk
    · subst h
      simp [mapGet, mapGet_eq_none_of_not_mem tl a hna, mapGet_mapSet]
    · simp [mapGet, h, mapGet_mapSet]

theorem mapGet_ingestEntry_ne (data : GoMap) (k k' : String) (v : Any) (h : k ≠ k') :
    mapGet (ingestEntry data k v) k' = mapGet data k' := by
  unfold ingestEntry
  split
  · split <;> simp [mapGet_mapSet, h]
  · simp [mapGet_mapSet, h]

theorem mapGet_ingestEntry_self (data : GoMap) (k : String) (v : Any) :
    mapGet (ingestEntry data k v) k = some (mergedValue (mapGet data k) v) := by
  unfold ingestEntry mergedValue
  split
  · split <;> simp [mapGet_mapSet]
  · simp [mapGet_mapSet]

theorem mapGet_ingest_not_mem (doc : GoMap) (data : GoMap) (k : String)
    (h : k ∉ doc.map Prod.fst) :
    mapGet (doc.foldl (fun d kv => ingestEntry d kv.1 kv.2) data) k = mapGet data k := by
  induction doc generalizing data with
  | nil => rfl
  | cons hd tl ih =>
    obtain ⟨a, b⟩ := hd
    simp only [List.map_cons, List.mem_cons, not_or] at h
    simp only [List.foldl_cons]
    rw [ih _ h.2, mapGet_ingestEntry_ne _ _ _ _ (fun e => h.1 e.symm)]

theorem mapGet_ingest_mem (doc : GoMap) (hd : KeysNodup doc) (data : GoMap) (k : String)
    (v : Any) (h : mapGet doc k = some v) :
    mapGet (doc.foldl (fun d kv => ingestEntry d kv.1 kv.2) data) k =
      mapGet (ingestEntry data k v) k := by
  induction doc generalizing data with
  | nil => simp [mapGet] at h
  | cons hd' tl ih =>
    obtain ⟨a, b⟩ := hd'
    have hnd : KeysNodup tl := (List.nodup_cons.mp hd).2
    have hna : a ∉ tl.map Prod.fst := (List.nodup_cons.mp hd).1
    simp only [List.foldl_cons]
    by_cases e : a = k
    · subst e
      simp only [mapGet, if_true] at h
      cases h
      exact mapGet_ingest_not_mem tl _ a hna
    · simp only [mapGet, e, if_false] at h
      rw [ih hnd _ h, mapGet_ingestEntry_self, mapGet_ingestEntry_self,
        mapGet_ingestEntry_ne data a k b e]

theorem not_mem_keys_of_mapGet_none (m : GoMap) (k : String) (h : mapGet m k = none) :
    k ∉ m.map Prod.fst := by
  induction m with
  | nil => simp
  | cons hd tl ih =>
    obtain ⟨a, b⟩ := hd
    by_cases e : a = k
    · simp [mapGet, e] at h
    · simp only [mapGet, e, if_false] at h
      simp only [List.map_cons, List.mem_cons, not_or]
      exact ⟨fun e' => e e'.symm, ih h⟩

/-! ### `strconv.ParseInt` -/

theorem le_decimalFold (ds : List Char) (n : Nat) : n ≤ decimalFold ds n := by
  induction ds generalizing n with
  | nil => exact Nat.le_refl n
  | cons c cs ih =>
    have h := ih (n * 10 + (c.toNat - 48))
    have e : decimalFold (c :: cs) n = decimalFold cs (n * 10 + (c.toNat - 48)) := rfl
    rw [e]
    omega

theorem parseUintLoop_ok_iff (ds : List Char) (n v : Nat) (hn : n < 2 ^ 64) :
    parseUintLoop ds n = .ok v ↔
      (∀ c ∈ ds, c.isDigit = true) ∧ decimalFold ds n = v ∧ v < 2 ^ 64 := by
  induction ds generalizing n with
  | nil =>
    simp only [parseUintLoop, decimalFold, List.foldl_nil, List.not_mem_nil, false_imp_iff,
      implies_true, true_and, Except.ok.injEq]
    constructor
    · intro h; subst h; exact ⟨rfl, hn⟩
    · intro h; exact h.1
  | cons c cs ih =>
    have e : decimalFold (c :: cs) n = decimalFold cs (n * 10 + (c.toNat - 48)) := rfl
    have hmono := le_decimalFold cs (n * 10 + (c.toNat - 48))
    rw [e]
    unfold parseUintLoop
    by_cases hc : c.isDigit = true
    · rw [if_pos hc]
      by_cases h1 : n ≥ (2 ^ 64 - 1) / 10 + 1
      · rw [if_pos h1]
        constructor
        · intro h; cases h
        · rintro ⟨_, h2, h3⟩
          omega
      · rw [if_neg h1]
        by_cases h2 : n * 10 + (c.toNat - 48) > 2 ^ 64 - 1
        · rw [if_pos h2]
          constructor
          · intro h; cases h
          · rintro ⟨_, h3, h4⟩
            omega
        · rw [if_neg h2, ih (n * 10 + (c.toNat - 48)) (by omega)]
          constructor
          · rintro ⟨ha, hb⟩
            refine ⟨?_, hb⟩
            intro x hx
            rcases List.mem_cons.mp hx with rfl | hx
            · exact hc
            · exact ha x hx
          · rintro ⟨ha, hb⟩
            exact ⟨fun x hx => ha x (List.mem_cons_of_mem _ hx), hb⟩
    · rw [if_neg hc]
      constructor
      · intro h; cases h
      · rintro ⟨ha, _⟩
        exact absurd (ha c (List.mem_cons_self _ _)) hc

theorem ParseUint_ok_iff (ds : List Char) (v : Nat) :
    ParseUint ds = .ok v ↔
      ds ≠ [] ∧ (∀ c ∈ ds, c.isDigit = true) ∧ decimalValue ds = v ∧ v < 2 ^ 64 := by
  unfold ParseUint
  by_cases h : ds = []
  · subst h
    simp
  · rw [if_neg h, parseUintLoop_ok_iff ds 0 v (by norm_num)]
    simp [h, decimalValue]

theorem parseIntDigits_ok_iff (neg : Bool) (ds : List Char) (z : Int) :
    parseIntDigits neg ds = .ok z ↔
      ds ≠ [] ∧ (∀ c ∈ ds, c.isDigit = true) ∧
        (if neg = true then z = -(decimalValue ds : Int) ∧ decimalValue ds ≤ 2 ^ 63
          else z = (decimalValue ds : Int) ∧ decimalValue ds < 2 ^ 63) := by
  unfold parseIntDigits
  cases hU : ParseUint ds with
  | error e =>
    have hno : ¬ (ds ≠ [] ∧ (∀ c ∈ ds, c.isDigit = true) ∧ decimalValue ds < 2 ^ 64) := by
      intro h
      have := (ParseUint_ok_iff ds (decimalValue ds)).mpr ⟨h.1, h.2.1, rfl, h.2.2⟩
      rw [hU] at this
      cases this
    cases e
    · simp only [reduceCtorEq, false_iff]
      rintro ⟨h1, h2, h3⟩
      apply hno
      refine ⟨h1, h2, ?_⟩
      cases neg
      · simp only [Bool.false_eq_true, if_false] at h3; omega
      · simp only [if_true] at h3; omega
    · simp only [reduceCtorEq, false_iff]
      rintro ⟨h1, h2, h3⟩
      apply hno
      refine ⟨h1, h2, ?_⟩
      cases neg
      · simp only [Bool.false_eq_true, if_false] at h3; omega
      · simp only [if_true] at h3; omega
  | ok un =>
    obtain ⟨h1, h2, h3, h4⟩ := (ParseUint_ok_iff ds un).mp hU
    subst h3
    cases neg
    · simp only [Bool.false_eq_true, if_false, true_and, false_and]
      by_cases hr : decimalValue ds ≥ 2 ^ 63
      · rw [if_pos hr]
        simp only [reduceCtorEq, false_iff]
        rintro ⟨_, _, _, h⟩
        omega
      · rw [if_neg hr]
        simp only [Except.ok.injEq]
        constructor
        · intro h; exact ⟨h1, h2, h.symm, by omega⟩
        · rintro ⟨_, _, h, _⟩; exact h.symm
    · simp only [if_true, true_and, Bool.true_eq_false, false_and, if_false]
      by_cases hr : decimalValue ds > 2 ^ 63
      · rw [if_pos hr]
        simp only [reduceCtorEq, false_iff]
        rintro ⟨_, _, _, h⟩
        omega
      · rw [if_neg hr]
        simp only [Except.ok.injEq]
        constructor
        · intro h; exact ⟨h1, h2, h.symm, by omega⟩
        · rintro ⟨_, _, h, _⟩; exact h.symm

theorem ParseInt_ok_iff (t : String) (z : Int) :
    ParseInt t = .ok z ↔ IsInt64Text t z := by
  unfold ParseInt IsInt64Text
  cases ht : t.toList with
  | nil =>
    simp only [reduceCtorEq, false_iff]
    rintro ⟨ds, hne, _, (⟨h | h, _⟩ | ⟨h, _⟩)⟩
    · exact hne h.symm
    · cases h
    · cases h
  | cons c rest =>
    simp only
    by_cases hp : c = '+'
    · subst hp
      rw [if_pos rfl, parseIntDigits_ok_iff]
      simp only [Bool.false_eq_true, if_false]
      constructor
      · rintro ⟨h1, h2, h3, h4⟩
        exact ⟨rest, h1, h2, Or.inl ⟨Or.inr rfl, h3, h4⟩⟩
      · rintro ⟨ds, hne, hd, (⟨h | h, h3, h4⟩ | ⟨h, _⟩)⟩
        · subst h
          exact absurd (hd '+' (List.mem_cons_self _ _)) (by decide)
        · cases h
          exact ⟨hne, hd, h3, h4⟩
        · cases h
    · rw [if_neg hp]
      by_cases hm : c = '-'
      · subst hm
        rw [if_pos rfl, parseIntDigits_ok_iff]
        simp only [if_true]
        constructor
        · rintro ⟨h1, h2, h3, h4⟩
          exact ⟨rest, h1, h2, Or.inr ⟨rfl, h3, h4⟩⟩
        · rintro ⟨ds, hne, hd, (⟨h | h, _⟩ | ⟨h, h3, h4⟩)⟩
          · subst h
            exact absurd (hd '-' (List.mem_cons_self _ _)) (by decide)
          · cases h
          · cases h
            exact ⟨hne, hd, h3, h4⟩
      · rw [if_neg hm, parseIntDigits_ok_iff]
        simp only [Bool.false_eq_true, if_false]
        constructor
        · rintro ⟨h1, h2, h3, h4⟩
          exact ⟨c :: rest, h1, h2, Or.inl ⟨Or.inl rfl, h3, h4⟩⟩
        · rintro ⟨ds, hne, hd, (⟨h | h, h3, h4⟩ | ⟨h, _⟩)⟩
          · subst h
            exact ⟨hne, hd, h3, h4⟩
          · cases h
            exact absurd rfl hp
          · cases h
            exact absurd rfl hm

/-! ### The two readings of the aggregator agree

On the states that `onMessage` produces from a new aggregator no map object is
shared between two keys, and reading the state with a heap gives the state
without one. -/

theorem readMap_mapSet (heap : Heap) (data : List (String × Slot)) (k : String) (s : Slot) :
    readMap heap (mapSet data k s) = mapSet (readMap heap data) k (s.read heap) := by
  induction data with
  | nil => rfl
  | cons hd tl ih =>
    obtain ⟨a, b⟩ := hd
    by_cases h : a = k
    · simp [mapSet, readMap, h]
    · have ih' : List.map (fun kv => (kv.1, Slot.read heap kv.2)) (mapSet tl k s) =
          mapSet (List.map (fun kv => (kv.1, Slot.read heap kv.2)) tl) k (s.read heap) := ih
      simp [mapSet, readMap, h, ih']

theorem mapGet_readMap (heap : Heap) (data : List (String × Slot)) (k : String) :
    mapGet (readMap heap data) k = (mapGet data k).map (Slot.read heap) := by
  induction data with
  | nil => rfl
  | cons hd tl ih =>
    obtain ⟨a, b⟩ := hd
    have ih' : mapGet (List.map (fun kv => (kv.1, Slot.read heap kv.2)) tl) k =
        (mapGet tl k).map (Slot.read heap) := ih
    by_cases h : a = k
    · simp [mapGet, readMap, h]
    · simp [mapGet, readMap, h, ih']

theorem mapSet_eq_self {β : Type} (data : List (String × β)) (k : String) (s : β)
    (h : mapGet data k = some s) : mapSet data k s = data := by
  induction data with
  | nil => simp [mapGet] at h
  | cons hd tl ih =>
    obtain ⟨a, b⟩ := hd
    by_cases e : a = k
    · subst e
      simp only [mapGet, if_true, Option.some.injEq] at h
      subst h
      simp [mapSet]
    · simp only [mapGet, e, if_false] at h
      simp [mapSet, e, ih h]

theorem mem_mapSet {β : Type} (data : List (String × β)) (k : String) (s : β)
    (kv : String × β) (h : kv ∈ mapSet data k s) : kv ∈ data ∨ kv = (k, s) := by
  induction data with
  | nil =>
    simp only [mapSet, List.mem_singleton] at h
    exact Or.inr h
  | cons hd tl ih =>
    obtain ⟨a, b⟩ := hd
    by_cases e : a = k
    · simp only [mapSet, e, if_true, List.mem_cons] at h
      rcases h with h | h
      · exact Or.inr h
      · exact Or.inl (List.mem_cons_of_mem _ h)
    · simp only [mapSet, e, if_false, List.mem_cons] at h
      rcases h with h | h
      · exact Or.inl (h ▸ List.mem_cons_self _ _)
      · rcases ih h with h' | h'
        · exact Or.inl (List.mem_cons_of_mem _ h')
        · exact Or.inr h'

theorem mem_addrs_mapSet (data : List (String × Slot)) (k : String) (s : Slot) (x : Nat)
    (h : x ∈ (mapSet data k s).filterMap (fun kv => kv.2.addr?)) :
    x ∈ data.filterMap (fun kv => kv.2.addr?) ∨ s.addr? = some x := by
  obtain ⟨kv, hkv, hx⟩ := List.mem_filterMap.mp h
  rcases mem_mapSet data k s kv hkv with h' | h'
  · exact Or.inl (List.mem_filterMap.mpr ⟨kv, h', hx⟩)
  · subst h'
    exact Or.inr hx

theorem nodup_addrs_mapSet (data : List (String × Slot)) (k : String) (s : Slot)
    (hnd : (data.filterMap (fun kv => kv.2.addr?)).Nodup)
    (hs : ∀ x, s.addr? = some x → x ∉ data.filterMap (fun kv => kv.2.addr?)) :
    ((mapSet data k s).filterMap (fun kv => kv.2.addr?)).Nodup := by
  induction data with
  | nil =>
    cases hx : s.addr? with
    | none => simp [mapSet, List.filterMap, hx]
    | some x => simp [mapSet, List.filterMap, hx]
  | cons hd tl ih =>
    obtain ⟨a, b⟩ := hd
    have hs' : ∀ x, s.addr? = some x → x ∉ tl.filterMap (fun kv => kv.2.addr?) := by
      intro x hx hmem
      apply hs x hx
      cases hb : b.addr? with
      | none => simpa [List.filterMap_cons, hb] using hmem
      | some y => simp only [List.filterMap_cons, hb, List.mem_cons]; exact Or.inr hmem
    by_cases e : a = k
    · simp only [mapSet, e, if_true]
      cases hx : s.addr? with
      | none =>
        cases hb : b.addr? with
        | none => simpa [List.filterMap_cons, hx, hb] using hnd
        | some y =>
          simp only [List.filterMap_cons, hb, List.nodup_cons] at hnd
          simpa [List.filterMap_cons, hx] using hnd.2
      | some x =>
        cases hb : b.addr? with
        | none =>
          simp only [List.filterMap_cons, hb] at hnd
          simp only [List.filterMap_cons, hx, List.nodup_cons]
          exact ⟨hs' x hx, hnd⟩
        | some y =>
          simp only [List.filterMap_cons, hb, List.nodup_cons] at hnd
          simp only [List.filterMap_cons, hx, List.nodup_cons]
          exact ⟨hs' x hx, hnd.2⟩
    · simp only [mapSet, e, if_false]
      cases hb : b.addr? with
      | none =>
        simp only [List.filterMap_cons, hb] at hnd ⊢
        exact ih hnd hs'
      | some y =>
        simp only [List.filterMap_cons, hb, List.nodup_cons] at hnd ⊢
        refine ⟨?_, ih hnd.2 hs'⟩
        intro hmem
        rcases mem_addrs_mapSet tl k s y hmem with h' | h'
        · exact hnd.1 h'
        · apply hs y h'
          simp [List.filterMap_cons, hb]

theorem readMap_append (heap : Heap) (x : GoMap) (data : List (String × Slot))
    (h : ∀ kv ∈ data, ∀ a, kv.2 = .ref a → a < heap.length) :
    readMap (heap ++ [x]) data = readMap heap data := by
  induction data with
  | nil => rfl
  | cons hd tl ih =>
    obtain ⟨k, s⟩ := hd
    have htl : readMap (heap ++ [x]) tl = readMap heap tl :=
      ih (fun kv hkv => h kv (List.mem_cons_of_mem _ hkv))
    have hs : s.read (heap ++ [x]) = s.read heap := by
      cases s with
      | val v => rfl
      | ref a =>
        have ha : a < heap.length := h (k, .ref a) (List.mem_cons_self _ _) a rfl
        simp [Slot.read, List.getD_eq_getElem?_getD, List.getElem?_append_left ha]
    show (k, s.read (heap ++ [x])) :: readMap (heap ++ [x]) tl = (k, s.read heap) :: readMap heap tl
    rw [hs, htl]

theorem readMap_set (heap : Heap) (a : Nat) (x : GoMap) (data : List (String × Slot))
    (h : a ∉ data.filterMap (fun kv => kv.2.addr?)) :
    readMap (heap.set a x) data = readMap heap data := by
  induction data with
  | nil => rfl
  | cons hd tl ih =>
    obtain ⟨k, s⟩ := hd
    cases s with
    | val v =>
      have htl : readMap (heap.set a x) tl = readMap heap tl :=
        ih (by simpa [List.filterMap_cons, Slot.addr?] using h)
      show (k, v) :: readMap (heap.set a x) tl = (k, v) :: readMap heap tl
      rw [htl]
    | ref b =>
      simp only [List.filterMap_cons, Slot.addr?, List.mem_cons, not_or] at h
      have htl : readMap (heap.set a x) tl = readMap heap tl := ih h.2
      have hb : (heap.set a x).getD b [] = heap.getD b [] := by
        simp [List.getD_eq_getElem?_getD, List.getElem?_set_ne (Ne.symm (fun e => h.1 e.symm))]
      show (k, Any.map ((heap.set a x).getD b [])) :: readMap (heap.set a x) tl =
        (k, Any.map (heap.getD b [])) :: readMap heap tl
      rw [hb, htl]

theorem mem_addrs_of_mapGet (data : List (String × Slot)) (k : String) (a : Nat)
    (h : mapGet data k = some (.ref a)) : a ∈ data.filterMap (fun kv => kv.2.addr?) := by
  induction data with
  | nil => simp [mapGet] at h
  | cons hd tl ih =>
    obtain ⟨k', s⟩ := hd
    by_cases e : k' = k
    · simp only [mapGet, e, if_true, Option.some.injEq] at h
      subst h
      simp [List.filterMap_cons, Slot.addr?]
    · simp only [mapGet, e, if_false] at h
      have := ih h
      cases hs : s.addr? with
      | none => simpa [List.filterMap_cons, hs] using this
      | some y => simp only [List.filterMap_cons, hs, List.mem_cons]; exact Or.inr this

theorem mem_of_mapGet {β : Type} (data : List (String × β)) (k : String) (s : β)
    (h : mapGet data k = some s) : (k, s) ∈ data := by
  induction data with
  | nil => simp [mapGet] at h
  | cons hd tl ih =>
    obtain ⟨k', s'⟩ := hd
    by_cases e : k' = k
    · simp only [mapGet, e, if_true, Option.some.injEq] at h
      subst h; subst e
      exact List.mem_cons_self _ _
    · simp only [mapGet, e, if_false] at h
      exact List.mem_cons_of_mem _ (ih h)

theorem readMap_set_of_mapGet (heap : Heap) (a : Nat) (x : GoMap) (data : List (String × Slot))
    (k : String) (ha : a < heap.length) (hk : mapGet data k = some (.ref a))
    (hnd : (data.filterMap (fun kv => kv.2.addr?)).Nodup) :
    readMap (heap.set a x) data = mapSet (readMap heap data) k (.map x) := by
  induction data with
  | nil => simp [mapGet] at hk
  | cons hd tl ih =>
    obtain ⟨k', s⟩ := hd
    by_cases e : k' = k
    · simp only [mapGet, e, if_true, Option.some.injEq] at hk
      subst hk
      simp only [List.filterMap_cons, Slot.addr?, List.nodup_cons] at hnd
      have htl : readMap (heap.set a x) tl = readMap heap tl := readMap_set heap a x tl hnd.1
      have hget : (heap.set a x).getD a [] = x := by
        simp [List.getD_eq_getElem?_getD, List.getElem?_set_self ha]
      show (k', Any.map ((heap.set a x).getD a [])) :: readMap (heap.set a x) tl =
        mapSet ((k', Any.map (heap.getD a [])) :: readMap heap tl) k (.map x)
      rw [hget, htl]
      simp [mapSet, e]
    · simp only [mapGet, e, if_false] at hk
      have hmem := mem_addrs_of_mapGet tl k a hk
      have hnd' : (tl.filterMap (fun kv => kv.2.addr?)).Nodup := by
        cases hs : s.addr? with
        | none => simpa [List.filterMap_cons, hs] using hnd
        | some y =>
          simp only [List.filterMap_cons, hs, List.nodup_cons] at hnd
          exact hnd.2
      have hs : s.read (heap.set a x) = s.read heap := by
        cases s with
        | val v => rfl
        | ref b =>
          simp only [List.filterMap_cons, Slot.addr?, List.nodup_cons] at hnd
          have hne : a ≠ b := fun e' => hnd.1 (e' ▸ hmem)
          simp [Slot.read, List.getD_eq_getElem?_getD, List.getElem?_set_ne hne]
      show (k', s.read (heap.set a x)) :: readMap (heap.set a x) tl =
        mapSet ((k', s.read heap) :: readMap heap tl) k (.map x)
      rw [hs, ih hk hnd']
      simp [mapSet, e]

theorem store_simulates (heap : Heap) (data : List (String × Slot)) (k : String) (v : Any)
    (h : RefWF heap data) :
    readMap (RefClient.store heap data k v).1 (RefClient.store heap data k v).2 =
      mapSet (readMap heap data) k v ∧
    RefWF (RefClient.store heap data k v).1 (RefClient.store heap data k v).2 := by
  obtain ⟨h1, h2, h3⟩ := h
  unfold RefClient.store
  cases hv : v.asMap with
  | some vMap =>
    have hv' : v = .map vMap := by
      cases v <;> simp [Any.asMap] at hv
      rw [hv]
    subst hv'
    simp only
    refine ⟨?_, ?_, ?_, ?_⟩
    · rw [readMap_mapSet, readMap_append heap vMap data h1]
      simp [Slot.read, List.getD_eq_getElem?_getD]
    · intro kv hkv a hka
      rcases mem_mapSet data k _ kv hkv with hm | hm
      · have := h1 kv hm a hka
        simp only [List.length_append, List.length_singleton]
        omega
      · subst hm
        simp only [Slot.ref.injEq] at hka
        subst hka
        simp
    · apply nodup_addrs_mapSet data k _ h2
      intro x hx hmem
      simp only [Slot.addr?, Option.some.injEq] at hx
      subst hx
      obtain ⟨kv, hkv, hkx⟩ := List.mem_filterMap.mp hmem
      obtain ⟨k', s⟩ := kv
      cases s with
      | val w => simp [Slot.addr?] at hkx
      | ref b =>
        simp only [Slot.addr?, Option.some.injEq] at hkx
        have hb := h1 (k', .ref b) hkv b rfl
        omega
    · intro kv hkv w hw
      rcases mem_mapSet data k _ kv hkv with hm | hm
      · exact h3 kv hm w hw
      · subst hm
        cases hw
  | none =>
    simp only
    refine ⟨?_, ?_, ?_, ?_⟩
    · rw [readMap_mapSet]
      rfl
    · intro kv hkv a hka
      rcases mem_mapSet data k _ kv hkv with hm | hm
      · exact h1 kv hm a hka
      · subst hm
        cases hka
    · apply nodup_addrs_mapSet data k _ h2
      intro x hx
      simp [Slot.addr?] at hx
    · intro kv hkv w hw
      rcases mem_mapSet data k _ kv hkv with hm | hm
      · exact h3 kv hm w hw
      · subst hm
        simp only [Slot.val.injEq] at hw
        subst hw
        exact hv

theorem ingestEntry_simulates (heap : Heap) (data : List (String × Slot)) (k : String) (v : Any)
    (h : RefWF heap data) :
    readMap (RefClient.ingestEntry (heap, data) k v).1 (RefClient.ingestEntry (heap, data) k v).2 =
      ingestEntry (readMap heap data) k v ∧
    RefWF (RefClient.ingestEntry (heap, data) k v).1
      (RefClient.ingestEntry (heap, data) k v).2 := by
  have hstore := store_simulates heap data k v h
  obtain ⟨h1, h2, h3⟩ := h
  unfold RefClient.ingestEntry ingestEntry
  rw [mapGet_readMap]
  cases hk : mapGet data k with
  | none => simpa using hstore
  | some existing =>
    cases hv : v.asMap with
    | none => simpa using hstore
    | some vMap =>
      cases existing with
      | val w =>
        have hw : w.asMap = none := h3 (k, .val w) (mem_of_mapGet data k _ hk) w rfl
        simpa [Slot.read, hw] using hstore
      | ref a =>
        have ha : a < heap.length := h1 (k, .ref a) (mem_of_mapGet data k _ hk) a rfl
        simp only [Option.map_some', Slot.read, Any.asMap]
        rw [mapSet_eq_self data k (.ref a) hk]
        refine ⟨readMap_set_of_mapGet heap a _ data k ha hk h2, ?_, h2, h3⟩
        intro kv hkv b hb
        rw [List.length_set]
        exact h1 kv hkv b hb

theorem ingest_simulates (doc : GoMap) (heap : Heap) (data : List (String × Slot))
    (h : RefWF heap data) :
    readMap (doc.foldl (fun st kv => RefClient.ingestEntry st kv.1 kv.2) (heap, data)).1
        (doc.foldl (fun st kv => RefClient.ingestEntry st kv.1 kv.2) (heap, data)).2 =
      doc.foldl (fun d kv => ingestEntry d kv.1 kv.2) (readMap heap data) ∧
    RefWF (doc.foldl (fun st kv => RefClient.ingestEntry st kv.1 kv.2) (heap, data)).1
      (doc.foldl (fun st kv => RefClient.ingestEntry st kv.1 kv.2) (heap, data)).2 := by
  induction doc generalizing heap data with
  | nil => exact ⟨rfl, h⟩
  | cons hd tl ih =>
    obtain ⟨k, v⟩ := hd
    obtain ⟨hs, hwf⟩ := ingestEntry_simulates heap data k v h
    simp only [List.foldl_cons]
    have := ih (RefClient.ingestEntry (heap, data) k v).1 (RefClient.ingestEntry (heap, data) k v).2 hwf
    rw [hs] at this
    exact this

/-- On a state in which no map object is shared, `onMessage` with a heap reads
as `onMessage` without one, and leaves such a state again. -/
theorem RefClient.onMessage_simulates (c : RefClient) (payload : Option GoMap)
    (h : RefWF c.heap c.data) :
    RefWF (c.onMessage payload).heap (c.onMessage payload).data ∧
    readMap (c.onMessage payload).heap (c.onMessage payload).data =
      ((MQTTClient.mk (readMap c.heap c.data) c.ready).onMessage payload).data ∧
    (c.onMessage payload).ready =
      ((MQTTClient.mk (readMap c.heap c.data) c.ready).onMessage payload).ready := by
  cases payload with
  | none => exact ⟨h, rfl, rfl⟩
  | some doc =>
    obtain ⟨hs, hwf⟩ := ingest_simulates doc c.heap c.data h
    exact ⟨hwf, hs, rfl⟩

theorem RefWF_new : RefWF RefClient.new.heap RefClient.new.data := by
  refine ⟨?_, ?_, ?_⟩
  · intro kv hkv; cases hkv
  · exact List.nodup_nil
  · intro kv hkv; cases hkv

/-! ### The aggregator -/

/-- C1: `onMessage` merges an incoming document `doc` into the device-state
document one level deep. For each key `k` of `doc` with value `v`: when the
existing value and `v` are both mappings the new value is a mapping in which
every key of `v` has the value `v` gives it and every other key keeps its
value; otherwise the new value is `v`. Keys absent from `doc` are unchanged.
On a fresh aggregator `{print:{a:1}}` then `{print:{b:2}}` gives
`Get("print") = {a:1, b:2}`, and `{print:{a:1}}` then `{print:{a:2}}` gives
`{a:2}`. -/
theorem onMessage_merge (m : MQTTClient) (doc : GoMap) (hdoc : KeysNodup doc)
    (hin : ∀ k vMap, mapGet doc k = some (.map vMap) → KeysNodup vMap) :
    (∀ k v, mapGet doc k = some v →
      (∀ existingMap vMap, mapGet m.data k = some (.map existingMap) → v = .map vMap →
        ∃ merged, mapGet (m.onMessage (some doc)).data k = some (.map merged) ∧
          ∀ kk, (∀ vv, mapGet vMap kk = some vv → mapGet merged kk = some vv) ∧
            (mapGet vMap kk = none → mapGet merged kk = mapGet existingMap kk)) ∧
      ((mapGet m.data k).bind Any.asMap = none ∨ v.asMap = none →
        mapGet (m.onMessage (some doc)).data k = some v)) ∧
    (∀ k, mapGet doc k = none →
      mapGet (m.onMessage (some doc)).data k = mapGet m.data k) ∧
    ((NewMQTTClient.onMessage (some [("print", .map [("a", .jsonNumber "1")])])).onMessage
        (some [("print", .map [("b", .jsonNumber "2")])])).Get ["print"] =
      some (.map [("a", .jsonNumber "1"), ("b", .jsonNumber "2")]) ∧
    ((NewMQTTClient.onMessage (some [("print", .map [("a", .jsonNumber "1")])])).onMessage
        (some [("print", .map [("a", .jsonNumber "2")])])).Get ["print"] =
      some (.map [("a", .jsonNumber "2")]) := by
  refine ⟨?_, ?_, ?_, ?_⟩
  · intro k v hk
    have key : mapGet (m.onMessage (some doc)).data k =
        some (mergedValue (mapGet m.data k) v) := by
      show mapGet (doc.foldl (fun d kv => ingestEntry d kv.1 kv.2) m.data) k = _
      rw [mapGet_ingest_mem doc hdoc m.data k v hk, mapGet_ingestEntry_self]
    refine ⟨?_, ?_⟩
    · intro existingMap vMap he hv
      subst hv
      refine ⟨mergeInto existingMap vMap, ?_, ?_⟩
      · rw [key, he]; rfl
      · intro kk
        have hm := mapGet_mergeInto vMap (hin k vMap hk) existingMap kk
        refine ⟨?_, ?_⟩
        · intro vv hvv
          rw [hm, hvv]; rfl
        · intro hnone
          rw [hm, hnone]; rfl
    · intro h
      rw [key]
      congr 1
      unfold mergedValue
      rcases h with h | h
      · cases hd : mapGet m.data k with
        | none => rfl
        | some existing =>
          rw [hd] at h
          simp only [Option.bind] at h
          cases hv : v.asMap with
          | none => rfl
          | some vMap => simp [h]
      · cases hd : mapGet m.data k with
        | none => rfl
        | some existing => simp [h]
  · intro k hk
    exact mapGet_ingest_not_mem doc m.data k (not_mem_keys_of_mapGet_none doc k hk)
  · rfl
  · rfl

/-- The merge property at a concrete state and document. -/
theorem onMessage_merge_witness :
    mapGet ((MQTTClient.mk [("print", .map [("a", .jsonNumber "1")]), ("x", .nil)] true).onMessage
      (some [("print", .map [("b", .jsonNumber "2")])])).data "x" = some .nil :=
  (onMessage_merge (MQTTClient.mk [("print", .map [("a", .jsonNumber "1")]), ("x", .nil)] true)
    [("print", .map [("b", .jsonNumber "2")])] (by decide)
    (by
      intro k vMap h
      have : vMap = [("b", .jsonNumber "2")] := by
        by_cases e : "print" = k
        · simp [mapGet, e] at h; exact h.symm
        · simp [mapGet, e] at h
      subst this
      decide)).2.1 "x" rfl

/-- C2: the map `Snapshot` returns shares the nested map objects with the
aggregator. A snapshot taken after ingesting `{print:{a:1}}` reads
`{print:{a:1}}`; after a later ingest of `{print:{b:2}}` the same snapshot
reads `{print:{a:1, b:2}}`, the document as it is now and not as it was when
the snapshot was taken. -/
theorem Snapshot_shares_nested_maps :
    readMap (RefClient.new.onMessage (some [("print", .map [("a", .jsonNumber "1")])])).heap
        (RefClient.new.onMessage (some [("print", .map [("a", .jsonNumber "1")])])).Snapshot =
      [("print", .map [("a", .jsonNumber "1")])] ∧
    readMap
        ((RefClient.new.onMessage (some [("print", .map [("a", .jsonNumber "1")])])).onMessage
          (some [("print", .map [("b", .jsonNumber "2")])])).heap
        (RefClient.new.onMessage (some [("print", .map [("a", .jsonNumber "1")])])).Snapshot =
      [("print", .map [("a", .jsonNumber "1"), ("b", .jsonNumber "2")])] := by
  constructor <;> rfl

/-! ### Command payloads -/

/-- C3, the claim as stated fails: with a nil skip-objects list, and with an
empty one, the `"print"` envelope of `PayloadStartPrint` has the key
`skip_objects`, bound to `nil` (JSON `null`). -/
theorem PayloadStartPrint_skip_objects_present :
    getFrom (.map (PayloadStartPrint "a.3mf" "Metadata/plate_1.gcode" false none none false))
        ["print", "skip_objects"] = some .nil ∧
    getFrom (.map (PayloadStartPrint "a.3mf" "Metadata/plate_1.gcode" false none (some []) false))
        ["print", "skip_objects"] = some .nil := by
  constructor <;> rfl

/-- C3, amended: for every call of `PayloadStartPrint` the key `skip_objects`
is present in the `"print"` envelope; it holds the skip-objects list when the
list is non-empty, and `nil` (JSON `null`), never an empty list, when the list
is empty or nil. -/
theorem PayloadStartPrint_skip_objects (filename plateLocation : String) (useAMS : Bool)
    (amsMapping skipObjects : Option (List Int)) (flowCalibration : Bool) :
    getFrom (.map (PayloadStartPrint filename plateLocation useAMS amsMapping skipObjects
        flowCalibration)) ["print", "skip_objects"] =
      match skipObjects with
      | some (x :: xs) => some (.intSlice (some (x :: xs)))
      | some [] => some .nil
      | none => some .nil := by
  match skipObjects with
  | some (x :: xs) =>
    simp [PayloadStartPrint, sliceLen, getFrom, mapGet, mapSet, Any.asMap]
  | some [] =>
    simp [PayloadStartPrint, sliceLen, getFrom, mapGet, Any.asMap]
  | none =>
    simp [PayloadStartPrint, sliceLen, getFrom, mapGet, Any.asMap]

/-- C8: the `"option"` field of `PayloadCalibration(bedLevel, motorNoise,
vibration)` is `2*[bedLevel] + 4*[vibration] + 8*[motorNoise]`, an even
number (bit 0 is never set): bed and vibration give 6, all three give 14,
none gives 0. -/
theorem PayloadCalibration_option (bedLevel motorNoise vibration : Bool) :
    getFrom (.map (PayloadCalibration bedLevel motorNoise vibration)) ["print", "option"] =
      some (.int ((2 * bedLevel.toNat + 4 * vibration.toNat + 8 * motorNoise.toNat : Nat))) ∧
    (2 * bedLevel.toNat + 4 * vibration.toNat + 8 * motorNoise.toNat) % 2 = 0 ∧
    getFrom (.map (PayloadCalibration true false true)) ["print", "option"] = some (.int 6) ∧
    getFrom (.map (PayloadCalibration true true true)) ["print", "option"] = some (.int 14) ∧
    getFrom (.map (PayloadCalibration false false false)) ["print", "option"] = some (.int 0) := by
  refine ⟨?_, ?_, rfl, rfl, rfl⟩
  · cases bedLevel <;> cases motorNoise <;> cases vibration <;> rfl
  · omega

/-! ### Status codes -/

theorem printStatusName_eq_none (l : List (Int × String)) (c : Int)
    (h : c ∉ l.map Prod.fst) : printStatusName l c = none := by
  induction l with
  | nil => rfl
  | cons hd tl ih =>
    obtain ⟨a, b⟩ := hd
    simp only [List.map_cons, List.mem_cons, not_or] at h
    have h1 : ¬ a = c := fun e => h.1 e.symm
    simp [printStatusName, h1, ih h.2]

theorem printStatusName_none (c : Int) (h : c < 0 ∨ 35 < c) :
    printStatusName printStatusNames c = none := by
  apply printStatusName_eq_none
  simp only [printStatusNames, List.map_cons, List.map_nil, List.mem_cons, List.mem_singleton,
    List.not_mem_nil, or_false]
  omega

/-- C5: for every integer code `c`, delivered as an `int` or an `int64`,
`ParsePrintStatus` succeeds with the code `c`, and `PrintStatus.String` of it
is the name at position `c` of the table when `0 ≤ c ≤ 35`, `"IDLE"` when
`c = 255` and `"UNKNOWN"` for every other integer; 16 gives `"PAUSED_USER"`
and 9999 gives `"UNKNOWN"`. -/
theorem ParsePrintStatus_String (c : Int) :
    ParsePrintStatus (.int c) = .ok c ∧ ParsePrintStatus (.int64 c) = .ok c ∧
    PrintStatus.String c =
      (if 0 ≤ c ∧ c ≤ 35 then
        [ "PRINTING", "AUTO_BED_LEVELING", "HEATBED_PREHEATING", "SWEEPING_XY_MECH_MODE",
          "CHANGING_FILAMENT", "M400_PAUSE", "PAUSED_FILAMENT_RUNOUT", "HEATING_HOTEND",
          "CALIBRATING_EXTRUSION", "SCANNING_BED_SURFACE", "INSPECTING_FIRST_LAYER",
          "IDENTIFYING_BUILD_PLATE_TYPE", "CALIBRATING_MICRO_LIDAR", "HOMING_TOOLHEAD",
          "CLEANING_NOZZLE_TIP", "CHECKING_EXTRUDER_TEMPERATURE", "PAUSED_USER",
          "PAUSED_FRONT_COVER_FALLING", "CALIBRATING_LIDAR", "CALIBRATING_EXTRUSION_FLOW",
          "PAUSED_NOZZLE_TEMPERATURE_MALFUNCTION", "PAUSED_HEAT_BED_TEMPERATURE_MALFUNCTION",
          "FILAMENT_UNLOADING", "PAUSED_SKIPPED_STEP", "FILAMENT_LOADING",
          "CALIBRATING_MOTOR_NOISE", "PAUSED_AMS_LOST", "PAUSED_LOW_FAN_SPEED_HEAT_BREAK",
          "PAUSED_CHAMBER_TEMPERATURE_CONTROL_ERROR", "COOLING_CHAMBER", "PAUSED_USER_GCODE",
          "MOTOR_NOISE_SHOWOFF", "PAUSED_NOZZLE_FILAMENT_COVERED_DETECTED",
          "PAUSED_CUTTER_ERROR", "PAUSED_FIRST_LAYER_ERROR", "PAUSED_NOZZLE_CLOG" ].getD
          c.toNat ""
      else if c = 255 then "IDLE"
      else "UNKNOWN") ∧
    (ParsePrintStatus (.int 16)).map PrintStatus.String = .ok "PAUSED_USER" ∧
    (ParsePrintStatus (.int 255)).map PrintStatus.String = .ok "IDLE" ∧
    (ParsePrintStatus (.int 9999)).map PrintStatus.String = .ok "UNKNOWN" := by
  refine ⟨rfl, rfl, ?_, rfl, rfl, rfl⟩
  by_cases h : 0 ≤ c ∧ c ≤ 35
  · rw [if_pos h]
    obtain ⟨h0, h1⟩ := h
    interval_cases c <;> rfl
  · rw [if_neg h]
    by_cases h255 : c = 255
    · subst h255; rfl
    · rw [if_neg h255]
      have hn : printStatusName printStatusNames c = none :=
        printStatusName_none c (by omega)
      simp [PrintStatus.String, PrintStatusIdle, h255, hn]

theorem intOfFloat64_intCast (n : Int) (h0 : -(2 : Int) ^ 63 ≤ n) (h1 : n < 2 ^ 63) :
    intOfFloat64 (n : ℚ) = n := by
  simp only [intOfFloat64, Rat.num_intCast, Rat.den_intCast, Nat.cast_one, Int.tdiv_one]
  rw [if_pos ⟨h0, h1⟩]

/-- C6, the claim as stated fails: the literal `16.0` denotes the integer 16,
which `ParsePrintStatus` decodes to the status 16 from an `int` and from a
`float64`, but the `json.Number` with the text `16.0` is an error. -/
theorem ParsePrintStatus_jsonNumber_fraction :
    jsonNumberValue "16.0" = some 16 ∧
    ParsePrintStatus (.jsonNumber "16.0") = .error (.number .invalidText) ∧
    ParsePrintStatus (.int 16) = .ok 16 ∧
    ParsePrintStatus (.float64 16) = .ok 16 := by
  refine ⟨?_, rfl, rfl, ?_⟩
  · have h : jsonNumberParts "16.0" = some (160, -1) := by decide
    simp only [jsonNumberValue, h, Option.map_some', Option.some.injEq]
    norm_num
  · have h := intOfFloat64_intCast 16 (by norm_num) (by norm_num)
    simp only [Int.cast_ofNat] at h
    simp only [ParsePrintStatus, h]

/-- C6, amended: for every integer `n` with `0 ≤ n ≤ 255`, `ParsePrintStatus`
returns the status `n` without error when `n` is delivered as an `int`, as an
`int64`, as a `float64` equal to `n`, or as a `json.Number` whose text is a
decimal integer literal (one or more decimal digits, no fraction and no
exponent) with value `n`. -/
theorem ParsePrintStatus_representations (n : Int) (h0 : 0 ≤ n) (h1 : n ≤ 255)
    (ds : List Char) (hne : ds ≠ []) (hd : ∀ c ∈ ds, c.isDigit = true)
    (hv : (decimalValue ds : Int) = n) :
    ParsePrintStatus (.int n) = .ok n ∧
    ParsePrintStatus (.int64 n) = .ok n ∧
    ParsePrintStatus (.float64 (n : ℚ)) = .ok n ∧
    ParsePrintStatus (.jsonNumber (String.mk ds)) = .ok n := by
  refine ⟨rfl, rfl, ?_, ?_⟩
  · simp only [ParsePrintStatus]
    rw [intOfFloat64_intCast n (by omega) (by omega)]
  · have h : ParseInt (String.mk ds) = .ok n :=
      (ParseInt_ok_iff (String.mk ds) n).mpr
        ⟨ds, hne, hd, Or.inl ⟨Or.inl rfl, hv.symm, by omega⟩⟩
    simp only [ParsePrintStatus, jsonNumberInt64, h]

/-- The three representations of the status 16 decode to 16. -/
theorem ParsePrintStatus_representations_witness :
    ParsePrintStatus (.int 16) = .ok 16 ∧
    ParsePrintStatus (.int64 16) = .ok 16 ∧
    ParsePrintStatus (.float64 ((16 : Int) : ℚ)) = .ok 16 ∧
    ParsePrintStatus (.jsonNumber "16") = .ok 16 :=
  ParsePrintStatus_representations 16 (by decide) (by decide) ['1', '6'] (by decide)
    (by decide) (by decide)

/-- C7, the claim as stated fails: a `json.Number` is a numeric input, and
`ParsePrintStatus` returns an error for the texts `16.5` and `1e2` (no
integer literals) and for `9223372036854775808` (outside the 64-bit range). -/
theorem ParsePrintStatus_numeric_error :
    (Any.jsonNumber "16.5").isNumeric = true ∧
    ParsePrintStatus (.jsonNumber "16.5") = .error (.number .invalidText) ∧
    ParsePrintStatus (.jsonNumber "1e2") = .error (.number .invalidText) ∧
    ParsePrintStatus (.jsonNumber "9223372036854775808") = .error (.number .outOfRange) := by
  refine ⟨rfl, rfl, rfl, rfl⟩

/-- C7, amended: `ParsePrintStatus` returns an error if and only if its input
is of a non-numeric type, or is a `json.Number` whose text is not a decimal
integer literal of the signed 64-bit range (optional sign, decimal digits);
for every `int`, `int64` and `float64` it returns a status and no error. -/
theorem ParsePrintStatus_error_iff (v : Any) :
    (∃ e, ParsePrintStatus v = .error e) ↔
      (v.isNumeric = false ∨ ∃ t, v = .jsonNumber t ∧ ¬ ∃ z, IsInt64Text t z) := by
  cases v with
  | jsonNumber t =>
    simp only [ParsePrintStatus, jsonNumberInt64, Any.isNumeric, Bool.true_eq_false, false_or,
      Any.jsonNumber.injEq, exists_eq_left']
    cases h : ParseInt t with
    | error e =>
      simp only [Except.error.injEq, exists_eq', true_iff]
      rintro ⟨z, hz⟩
      rw [(ParseInt_ok_iff t z).mpr hz] at h
      cases h
    | ok z =>
      simp only [reduceCtorEq, exists_false, false_iff, not_not]
      exact ⟨z, (ParseInt_ok_iff t z).mp h⟩
  | nil => simp [ParsePrintStatus, Any.isNumeric]
  | bool b => simp [ParsePrintStatus, Any.isNumeric]
  | str s => simp [ParsePrintStatus, Any.isNumeric]
  | int n => simp [ParsePrintStatus, Any.isNumeric]
  | int64 n => simp [ParsePrintStatus, Any.isNumeric]
  | float64 x => simp [ParsePrintStatus, Any.isNumeric]
  | intSlice xs => simp [ParsePrintStatus, Any.isNumeric]
  | slice xs => simp [ParsePrintStatus, Any.isNumeric]
  | map kvs => simp [ParsePrintStatus, Any.isNumeric]

/-! ### The status view -/

/-- C4, at the failing input: the literal `21.5` denotes 21.5; delivered as a
`float64`, `print.bed_temper` and `print.nozzle_temper` give `BedTemp` and
`NozzleTemp` 21.5, but delivered as the `json.Number` with the text `21.5`
they give 0, because `asFloat` reads a `json.Number` through `Int64`. -/
theorem GetStatus_temperature_jsonNumber (sprintV : Any → String) :
    jsonNumberValue "21.5" = some (43 / 2) ∧
    (GetStatus sprintV
      { data := [("print", .map [("bed_temper", .float64 (43 / 2)),
          ("nozzle_temper", .float64 (43 / 2))])], ready := true }).BedTemp = 43 / 2 ∧
    (GetStatus sprintV
      { data := [("print", .map [("bed_temper", .float64 (43 / 2)),
          ("nozzle_temper", .float64 (43 / 2))])], ready := true }).NozzleTemp = 43 / 2 ∧
    (GetStatus sprintV
      { data := [("print", .map [("bed_temper", .jsonNumber "21.5"),
          ("nozzle_temper", .jsonNumber "21.5")])], ready := true }).BedTemp = 0 ∧
    (GetStatus sprintV
      { data := [("print", .map [("bed_temper", .jsonNumber "21.5"),
          ("nozzle_temper", .jsonNumber "21.5")])], ready := true }).NozzleTemp = 0 := by
  refine ⟨?_, rfl, rfl, rfl, rfl⟩
  have h : jsonNumberParts "21.5" = some (215, -1) := by decide
  simp only [jsonNumberValue, h, Option.map_some', Option.some.injEq]
  norm_num

/-! ### Plate resolution -/

/-- C9, the claim as stated fails: `-3` does not parse as a non-negative
integer (`Atoi` gives -3), yet `plateToLocation` does not return it unchanged
but builds the path `Metadata/plate_-3.gcode`. -/
theorem plateToLocation_negative :
    Atoi "-3" = .ok (-3) ∧
    plateToLocation "-3" = "Metadata/plate_-3.gcode" ∧
    plateToLocation "-3" ≠ "-3" := by
  refine ⟨rfl, rfl, ?_⟩
  decide

/-- C9, amended: `plateToLocation` returns `Metadata/plate_1.gcode` when `p` is
empty; `Metadata/plate_` followed by the text of `p` and `.gcode` when `p` is a
decimal integer literal of the signed 64-bit range (an optional sign `+` or
`-`, then decimal digits), a negative one included; and `p` itself for every
other string. So `1` gives `Metadata/plate_1.gcode` and
`Metadata/custom.gcode` is returned unchanged. -/
theorem plateToLocation_spec (p : String) :
    (p = "" → plateToLocation p = "Metadata/plate_1.gcode") ∧
    ((∃ z, IsInt64Text p z) → plateToLocation p = "Metadata/plate_" ++ p ++ ".gcode") ∧
    (p ≠ "" → (¬ ∃ z, IsInt64Text p z) → plateToLocation p = p) ∧
    plateToLocation "1" = "Metadata/plate_1.gcode" ∧
    plateToLocation "Metadata/custom.gcode" = "Metadata/custom.gcode" := by
  refine ⟨?_, ?_, ?_, rfl, rfl⟩
  · intro h
    simp [plateToLocation, h]
  · rintro ⟨z, hz⟩
    have hne : p ≠ "" := by
      rintro rfl
      obtain ⟨ds, hne, _, (⟨h | h, _⟩ | ⟨h, _⟩)⟩ := hz
      · exact hne h.symm
      · cases h
      · cases h
    have h := (ParseInt_ok_iff p z).mpr hz
    simp [plateToLocation, hne, Atoi, h]
  · intro hne hno
    cases h : ParseInt p with
    | error e => simp [plateToLocation, hne, Atoi, h]
    | ok z => exact absurd ⟨z, (ParseInt_ok_iff p z).mp h⟩ hno

/-- Plate resolution at the inputs `""`, `"+2"` and `"plate.gcode"`. -/
theorem plateToLocation_spec_witness :
    plateToLocation "" = "Metadata/plate_1.gcode" ∧
    plateToLocation "+2" = "Metadata/plate_" ++ "+2" ++ ".gcode" ∧
    plateToLocation "plate.gcode" = "plate.gcode" :=
  ⟨(plateToLocation_spec "").1 rfl,
    (plateToLocation_spec "+2").2.1
      ⟨2, ['2'], by decide, by decide, Or.inl ⟨Or.inr rfl, by decide, by decide⟩⟩,
    (plateToLocation_spec "plate.gcode").2.2.1 (by decide) (by
      rintro ⟨z, hz⟩
      have h := (ParseInt_ok_iff "plate.gcode" z).mpr hz
      have h2 : ParseInt "plate.gcode" = .error .invalidText := rfl
      rw [h2] at h
      cases h)⟩

/-! ### The gcode line validator -/

theorem mem_oneOf (cs : List Char) (x : List Char) :
    x ∈ (oneOf cs).matches' ↔ ∃ c ∈ cs, x = [c] := by
  induction cs with
  | nil =>
    simp only [oneOf, List.foldr_nil, List.not_mem_nil, false_and, exists_false, iff_false]
    intro h
    exact h
  | cons a as ih =>
    have e : oneOf (a :: as) = .plus (.char a) (oneOf as) := rfl
    rw [e]
    simp only [RegularExpression.matches', Language.mem_add, ih, List.mem_cons]
    constructor
    · rintro (h | ⟨c, hc, rfl⟩)
      · exact ⟨a, Or.inl rfl, h⟩
      · exact ⟨c, Or.inr hc, rfl⟩
    · rintro ⟨c, (rfl | hc), rfl⟩
      · exact Or.inl rfl
      · exact Or.inr ⟨c, hc, rfl⟩

theorem mem_range_of_le (c : Char) (lo hi : Nat) (h1 : lo ≤ c.toNat) (h2 : c.toNat ≤ hi) :
    c ∈ (List.range (hi + 1 - lo)).map (fun i => Char.ofNat (lo + i)) := by
  rw [List.mem_map]
  refine ⟨c.toNat - lo, List.mem_range.mpr (by omega), ?_⟩
  have : lo + (c.toNat - lo) = c.toNat := by omega
  rw [this]
  exact Char.ofNat_toNat c

theorem isDigit_iff_mem (c : Char) : c.isDigit = true ↔ c ∈ "0123456789".toList := by
  constructor
  · intro h
    have h' : 48 ≤ c.toNat ∧ c.toNat ≤ 57 := by
      simp [Char.isDigit] at h
      exact h
    have := mem_range_of_le c 48 57 h'.1 h'.2
    have e : (List.range (57 + 1 - 48)).map (fun i => Char.ofNat (48 + i)) = "0123456789".toList := by
      decide
    rwa [e] at this
  · intro h
    have : ∀ d ∈ "0123456789".toList, d.isDigit = true := by decide
    exact this c h

theorem isUpper_iff_mem (c : Char) :
    c.isUpper = true ↔ c ∈ "ABCDEFGHIJKLMNOPQRSTUVWXYZ".toList := by
  constructor
  · intro h
    have h' : 65 ≤ c.toNat ∧ c.toNat ≤ 90 := by
      simp [Char.isUpper] at h
      exact h
    have := mem_range_of_le c 65 90 h'.1 h'.2
    have e : (List.range (90 + 1 - 65)).map (fun i => Char.ofNat (65 + i)) =
        "ABCDEFGHIJKLMNOPQRSTUVWXYZ".toList := by
      decide
    rwa [e] at this
  · intro h
    have : ∀ d ∈ "ABCDEFGHIJKLMNOPQRSTUVWXYZ".toList, d.isUpper = true := by decide
    exact this c h

theorem flatten_map_singleton (l : List Char) : (l.map (fun d => [d])).flatten = l := by
  induction l with
  | nil => rfl
  | cons d ds ih => simp [ih]

theorem mem_many1_digit (x : List Char) :
    x ∈ (many1 classDigit).matches' ↔ x ≠ [] ∧ ∀ c ∈ x, c.isDigit = true := by
  have hd : ∀ y : List Char, y ∈ classDigit.matches' ↔ ∃ c, c.isDigit = true ∧ y = [c] := by
    intro y
    rw [classDigit, mem_oneOf]
    constructor
    · rintro ⟨c, hc, rfl⟩; exact ⟨c, (isDigit_iff_mem c).mpr hc, rfl⟩
    · rintro ⟨c, hc, rfl⟩; exact ⟨c, (isDigit_iff_mem c).mp hc, rfl⟩
  simp only [many1, RegularExpression.matches', Language.mem_mul, Language.mem_kstar]
  constructor
  · rintro ⟨a, ha, b, ⟨L, rfl, hL⟩, rfl⟩
    obtain ⟨c, hc, rfl⟩ := (hd a).mp ha
    refine ⟨by simp, ?_⟩
    intro d hdm
    simp only [List.singleton_append, List.mem_cons, List.mem_flatten] at hdm
    rcases hdm with rfl | ⟨l, hl, hdl⟩
    · exact hc
    · obtain ⟨c', hc', rfl⟩ := (hd l).mp (hL l hl)
      simp only [List.mem_singleton] at hdl
      subst hdl
      exact hc'
  · rintro ⟨hne, hall⟩
    cases x with
    | nil => exact absurd rfl hne
    | cons c cs =>
      refine ⟨[c], (hd [c]).mpr ⟨c, hall c (List.mem_cons_self _ _), rfl⟩, cs,
        ⟨cs.map (fun d => [d]), ?_, ?_⟩, rfl⟩
      · exact (flatten_map_singleton cs).symm
      · intro y hy
        obtain ⟨d, hdm, rfl⟩ := List.mem_map.mp hy
        exact (hd [d]).mpr ⟨d, hall d (List.mem_cons_of_mem _ hdm), rfl⟩

theorem matchWhole_gcodeParam_iff (tok : List Char) :
    matchWhole gcodeParam tok = true ↔ IsParamToken tok := by
  rw [matchWhole, RegularExpression.rmatch_iff_matches']
  have hU : ∀ y : List Char, y ∈ classUpper.matches' ↔ ∃ c, c.isUpper = true ∧ y = [c] := by
    intro y
    rw [classUpper, mem_oneOf]
    constructor
    · rintro ⟨c, hc, rfl⟩; exact ⟨c, (isUpper_iff_mem c).mpr hc, rfl⟩
    · rintro ⟨c, hc, rfl⟩; exact ⟨c, (isUpper_iff_mem c).mp hc, rfl⟩
  have hS : ∀ y : List Char, y ∈ (opt (.char '-')).matches' ↔ (y = [] ∨ y = ['-']) := by
    intro y
    simp only [opt, RegularExpression.matches', Language.mem_add, Language.mem_one]
    rfl
  have hF : ∀ y : List Char,
      y ∈ (opt (.comp (.char '.') (many1 classDigit))).matches' ↔
        (y = [] ∨ ∃ fs, y = '.' :: fs ∧ fs ≠ [] ∧ ∀ c ∈ fs, c.isDigit = true) := by
    intro y
    have h1 : ∀ z : List Char,
        z ∈ (RegularExpression.comp (.char '.') (many1 classDigit)).matches' ↔
          ∃ fs, z = '.' :: fs ∧ fs ≠ [] ∧ ∀ c ∈ fs, c.isDigit = true := by
      intro z
      have e : (RegularExpression.comp (.char '.') (many1 classDigit)).matches' =
          (RegularExpression.char '.').matches' * (many1 classDigit).matches' := rfl
      rw [e, Language.mem_mul]
      constructor
      · rintro ⟨a, ha, b, hb, rfl⟩
        have ha' : a = ['.'] := ha
        subst ha'
        exact ⟨b, rfl, (mem_many1_digit b).mp hb⟩
      · rintro ⟨fs, rfl, hfs⟩
        exact ⟨['.'], rfl, fs, (mem_many1_digit fs).mpr hfs, rfl⟩
    have e : (opt (.comp (.char '.') (many1 classDigit))).matches' =
        (1 : Language Char) + (RegularExpression.comp (.char '.') (many1 classDigit)).matches' := rfl
    rw [e, Language.mem_add, Language.mem_one, h1]
  have e : gcodeParam.matches' =
      ((classUpper.matches' * (opt (.char '-')).matches') * (many1 classDigit).matches') *
        (opt (.comp (.char '.') (many1 classDigit))).matches' := rfl
  rw [e]
  simp only [Language.mem_mul]
  constructor
  · rintro ⟨abc, ⟨ab, ⟨a, ha, b, hb, rfl⟩, c, hc, rfl⟩, d, hd, rfl⟩
    obtain ⟨u, hu, rfl⟩ := (hU a).mp ha
    obtain ⟨hc1, hc2⟩ := (mem_many1_digit c).mp hc
    exact ⟨u, b, c, d, by simp, hu, (hS b).mp hb, hc1, hc2, (hF d).mp hd⟩
  · rintro ⟨u, sgn, ds, fr, rfl, hu, hs, hd1, hd2, hf⟩
    exact ⟨[u] ++ sgn ++ ds, ⟨[u] ++ sgn, ⟨[u], (hU [u]).mpr ⟨u, hu, rfl⟩, sgn, (hS sgn).mpr hs, rfl⟩,
      ds, (mem_many1_digit ds).mpr ⟨hd1, hd2⟩, rfl⟩, fr, (hF fr).mpr hf, by simp⟩

theorem matchStart_gcodeHead_iff (s : List Char) :
    matchStart gcodeHead s = true ↔ HasGcodeHead s := by
  rw [matchStart, List.any_eq_true]
  have e : gcodeHead.matches' = (oneOf ['G', 'M']).matches' * (many1 classDigit).matches' := rfl
  constructor
  · rintro ⟨p, hp, hm⟩
    rw [RegularExpression.rmatch_iff_matches', e, Language.mem_mul] at hm
    obtain ⟨a, ha, b, hb, rfl⟩ := hm
    obtain ⟨c, hc, rfl⟩ := (mem_oneOf _ a).mp ha
    obtain ⟨hb1, hb2⟩ := (mem_many1_digit b).mp hb
    obtain ⟨t, ht⟩ := (List.mem_inits _ _).mp hp
    cases b with
    | nil => exact absurd rfl hb1
    | cons d ds =>
      refine ⟨c, d, ds ++ t, by rw [← ht]; simp, ?_, hb2 d (List.mem_cons_self _ _)⟩
      simpa using hc
  · rintro ⟨c, d, rest, rfl, hc, hd⟩
    refine ⟨[c, d], (List.mem_inits _ _).mpr ⟨rest, rfl⟩, ?_⟩
    rw [RegularExpression.rmatch_iff_matches', e, Language.mem_mul]
    refine ⟨[c], (mem_oneOf _ _).mpr ⟨c, by simpa using hc, rfl⟩, [d],
      (mem_many1_digit [d]).mpr ⟨by simp, ?_⟩, rfl⟩
    intro x hx
    simp only [List.mem_singleton] at hx
    subst hx
    exact hd

theorem modifyHead_modifyHead {α : Type} (f g : α → α) (l : List α) :
    (l.modifyHead f).modifyHead g = l.modifyHead (g ∘ f) := by
  cases l <;> rfl

theorem splitFieldsLoop_eq (s : List Char) (cur : Option (List Char)) (fields : List (List Char))
    (hcur : ∀ f, cur = some f → f ≠ []) :
    splitFieldsLoop s cur fields =
      fields ++ (((s.splitOnP isSpaceOrTab).modifyHead (fun t => cur.getD [] ++ t)).filter
        (fun t => t ≠ [])) := by
  induction s generalizing cur fields with
  | nil =>
    cases cur with
    | none => simp [splitFieldsLoop, List.modifyHead]
    | some f =>
      have := hcur f rfl
      simp [splitFieldsLoop, List.modifyHead, this]
  | cons r rs ih =>
    rw [List.splitOnP_cons]
    by_cases hr : r = ' ' ∨ r = '\t'
    · have hr' : isSpaceOrTab r = true := by
        simpa [isSpaceOrTab] using hr
      rw [if_pos hr']
      cases cur with
      | none =>
        simp only [splitFieldsLoop, if_pos hr]
        rw [ih none fields (by simp)]
        simp [List.modifyHead]
        congr 1
        cases List.splitOnP isSpaceOrTab rs <;> simp [List.modifyHead]
      | some f =>
        have := hcur f rfl
        simp only [splitFieldsLoop, if_pos hr]
        rw [ih none (fields ++ [f]) (by simp)]
        simp [List.modifyHead, this]
        congr 1
        cases List.splitOnP isSpaceOrTab rs <;> simp [List.modifyHead]
    · have hr' : ¬ isSpaceOrTab r = true := by
        simpa [isSpaceOrTab] using hr
      rw [if_neg hr', modifyHead_modifyHead]
      cases cur with
      | none =>
        simp only [splitFieldsLoop, if_neg hr]
        rw [ih (some [r]) fields (by simp)]
        rfl
      | some f =>
        simp only [splitFieldsLoop, if_neg hr]
        rw [ih (some (f ++ [r])) fields (by simp)]
        congr 2
        cases List.splitOnP isSpaceOrTab rs <;> simp [List.modifyHead]

theorem splitFields_eq_tokens (s : List Char) : splitFields s = tokens isSpaceOrTab s := by
  rw [splitFields, splitFieldsLoop_eq s none [] (by simp)]
  simp only [Option.getD_none, List.nil_append, tokens]
  congr 1
  cases List.splitOnP isSpaceOrTab s <;> simp [List.modifyHead]

/-- C10, the claim as stated fails: the remainder of `G1 X1\nY2` begins with
`G1`, and each of its whitespace-separated tokens after the first (`X1` and
`Y2`) has the shape of a parameter, but `ValidateGcodeLine` rejects the line:
`splitFields` does not cut at the line feed, and `X1\nY2` is no parameter. -/
theorem ValidateGcodeLine_newline_between_tokens :
    HasGcodeHead (stripComment "G1 X1\nY2".toList) ∧
    (∀ tok ∈ (tokens Char.isWhitespace (stripComment "G1 X1\nY2".toList)).tail,
      IsParamToken tok) ∧
    ValidateGcodeLine "G1 X1\nY2" = false := by
  refine ⟨⟨'G', '1', " X1\nY2".toList, by decide, Or.inl rfl, by decide⟩, ?_, by decide⟩
  have e : (tokens Char.isWhitespace (stripComment "G1 X1\nY2".toList)).tail =
      ["X1".toList, "Y2".toList] := by decide
  rw [e]
  intro tok htok
  simp only [List.mem_cons, List.mem_singleton, List.not_mem_nil, or_false] at htok
  rcases htok with rfl | rfl
  · exact (matchWhole_gcodeParam_iff _).mp (by decide)
  · exact (matchWhole_gcodeParam_iff _).mp (by decide)

/-- C10, amended: for every line whose comment-stripped, trimmed remainder
begins with `G` or `M` followed by a digit, `ValidateGcodeLine` accepts the
line if and only if every token after the first, the tokens being separated by
spaces and tabs only, consists of one upper-case letter `A`–`Z`, optionally a
single `-`, one or more digits `0`–`9`, and optionally `.` followed by one or
more digits; `G1 X10 Y-5.5` is accepted and `G1 X10 Y` is rejected. -/
theorem ValidateGcodeLine_iff (line : String) (h : HasGcodeHead (stripComment line.toList)) :
    (ValidateGcodeLine line = true ↔
      ∀ tok ∈ (tokens isSpaceOrTab (stripComment line.toList)).tail, IsParamToken tok) ∧
    ValidateGcodeLine "G1 X10 Y-5.5" = true ∧
    ValidateGcodeLine "G1 X10 Y" = false := by
  refine ⟨?_, by decide, by decide⟩
  have hne : stripComment line.toList ≠ [] := by
    obtain ⟨c, d, rest, e, _⟩ := h
    rw [e]
    exact List.cons_ne_nil _ _
  have hhead : matchStart gcodeHead (stripComment line.toList) = true :=
    (matchStart_gcodeHead_iff _).mpr h
  simp only [ValidateGcodeLine, hne, if_false, hhead, Bool.not_true, Bool.false_eq_true,
    List.all_eq_true, splitFields_eq_tokens, matchWhole_gcodeParam_iff]

/-- The equivalence at the line `G1 X10 Y-5.5`. -/
theorem ValidateGcodeLine_iff_witness :
    HasGcodeHead (stripComment "G1 X10 Y-5.5".toList) ∧
    (ValidateGcodeLine "G1 X10 Y-5.5" = true ↔
      ∀ tok ∈ (tokens isSpaceOrTab (stripComment "G1 X10 Y-5.5".toList)).tail,
        IsParamToken tok) :=
  ⟨⟨'G', '1', " X10 Y-5.5".toList, by decide, Or.inl rfl, by decide⟩,
    (ValidateGcodeLine_iff "G1 X10 Y-5.5"
      ⟨'G', '1', " X10 Y-5.5".toList, by decide, Or.inl rfl, by decide⟩).1⟩

theorem takeWhile_append_all {α : Type} (p : α → Bool) (w l : List α)
    (hw : ∀ x ∈ w, p x = true) : (w ++ l).takeWhile p = w ++ l.takeWhile p := by
  induction w with
  | nil => rfl
  | cons a t ih =>
    have ha : p a = true := hw a (List.mem_cons_self _ _)
    simp [List.takeWhile, ha, ih (fun x hx => hw x (List.mem_cons_of_mem _ hx))]

theorem dropWhile_append_all {α : Type} (p : α → Bool) (w l : List α)
    (hw : ∀ x ∈ w, p x = true) : (w ++ l).dropWhile p = l.dropWhile p := by
  induction w with
  | nil => rfl
  | cons a t ih =>
    have ha : p a = true := hw a (List.mem_cons_self _ _)
    simp [List.dropWhile, ha, ih (fun x hx => hw x (List.mem_cons_of_mem _ hx))]

theorem rdropWhile_append_all {α : Type} (p : α → Bool) (l w : List α)
    (hw : ∀ x ∈ w, p x = true) : (l ++ w).rdropWhile p = l.rdropWhile p := by
  unfold List.rdropWhile
  rw [List.reverse_append, dropWhile_append_all p w.reverse l.reverse
    (fun x hx => hw x (List.mem_reverse.mp hx))]

theorem trimSpace_append_right (x w : List Char) (hw : ∀ c ∈ w, isTrimmed c = true) :
    trimSpace (x ++ w) = trimSpace x := by
  unfold trimSpace
  induction x with
  | nil =>
    have h1 : List.dropWhile isTrimmed w = [] := List.dropWhile_eq_nil_iff.mpr hw
    simp [h1]
  | cons a t ih =>
    by_cases ha : isTrimmed a = true
    · simpa [List.dropWhile, ha] using ih
    · have e1 : List.dropWhile isTrimmed (a :: t ++ w) = (a :: t) ++ w := by
        simp [List.dropWhile, ha]
      have e2 : List.dropWhile isTrimmed (a :: t) = a :: t := by
        simp [List.dropWhile, ha]
      rw [e1, e2, rdropWhile_append_all isTrimmed (a :: t) w hw]

theorem trimSpace_append_left (w x : List Char) (hw : ∀ c ∈ w, isTrimmed c = true) :
    trimSpace (w ++ x) = trimSpace x := by
  unfold trimSpace
  rw [dropWhile_append_all isTrimmed w x hw]

theorem takeWhile_append_right {α : Type} (p : α → Bool) (l w : List α)
    (hw : ∀ x ∈ w, p x = true) :
    ∃ w', (∀ x ∈ w', p x = true) ∧ (∀ x ∈ w', x ∈ w) ∧
      (l ++ w).takeWhile p = l.takeWhile p ++ w' := by
  induction l with
  | nil =>
    exact ⟨w, hw, fun x hx => hx, by simp [List.takeWhile_eq_self_iff.mpr hw]⟩
  | cons a t ih =>
    by_cases ha : p a = true
    · obtain ⟨w', h1, h2, h3⟩ := ih
      exact ⟨w', h1, h2, by simp [List.takeWhile, ha, h3]⟩
    · exact ⟨[], by simp, by simp, by simp [List.takeWhile, ha]⟩

theorem isTrimmed_ne_semicolon (c : Char) (h : isTrimmed c = true) :
    (decide (c ≠ ';')) = true := by
  simp only [isTrimmed, Bool.or_eq_true, decide_eq_true_eq] at h
  rcases h with ((h | h) | h) | h <;> subst h <;> decide

theorem stripComment_surround (w1 line w2 : List Char)
    (h1 : ∀ c ∈ w1, isTrimmed c = true) (h2 : ∀ c ∈ w2, isTrimmed c = true) :
    stripComment (w1 ++ line ++ w2) = stripComment line := by
  unfold stripComment
  have hs1 : ∀ c ∈ w1, (fun r => decide (r ≠ ';')) c = true :=
    fun c hc => isTrimmed_ne_semicolon c (h1 c hc)
  have hs2 : ∀ c ∈ w2, (fun r => decide (r ≠ ';')) c = true :=
    fun c hc => isTrimmed_ne_semicolon c (h2 c hc)
  obtain ⟨w', _, hsub, he⟩ := takeWhile_append_right (fun r => decide (r ≠ ';')) line w2 hs2
  rw [List.append_assoc, takeWhile_append_all _ w1 _ hs1, he,
    trimSpace_append_left w1 _ h1, trimSpace_append_right _ w' (fun c hc => h2 c (hsub c hc))]

theorem stripComment_comment (a c : List Char) (ha : ';' ∉ a) :
    stripComment (a ++ ';' :: c) = stripComment a := by
  unfold stripComment
  have hp : ∀ x ∈ a, (fun r => decide (r ≠ ';')) x = true := by
    intro x hx
    simp only [ne_eq, decide_not, Bool.not_eq_true', decide_eq_false_iff_not]
    rintro rfl
    exact ha hx
  rw [takeWhile_append_all _ a _ hp, List.takeWhile_eq_self_iff.mpr hp]
  simp [List.takeWhile]

theorem ValidateGcodeLine_eq_of_stripComment (l1 l2 : String)
    (h : stripComment l1.toList = stripComment l2.toList) :
    ValidateGcodeLine l1 = ValidateGcodeLine l2 := by
  unfold ValidateGcodeLine
  rw [h]

/-- C11: `ValidateGcodeLine` rejects every line whose remainder, after the
comment is removed and the remainder is trimmed, does not begin with `G` or
`M` immediately followed by a decimal digit; `N10`, a lower-case head, a head
without a digit and a head with a space before the digit are rejected. -/
theorem ValidateGcodeLine_rejects_without_head (line : String)
    (h : ¬ HasGcodeHead (stripComment line.toList)) :
    ValidateGcodeLine line = false ∧
    ValidateGcodeLine "N10" = false ∧
    ValidateGcodeLine "g1 X10" = false ∧
    ValidateGcodeLine "m104 S200" = false ∧
    ValidateGcodeLine "G" = false ∧
    ValidateGcodeLine "G 1" = false := by
  refine ⟨?_, by decide, by decide, by decide, by decide, by decide⟩
  have hhead : matchStart gcodeHead (stripComment line.toList) = false := by
    cases hm : matchStart gcodeHead (stripComment line.toList) with
    | false => rfl
    | true => exact absurd ((matchStart_gcodeHead_iff _).mp hm) h
  unfold ValidateGcodeLine
  simp only [hhead]
  split_ifs <;> first | rfl | simp_all

/-- The rejection at the line `N10 G1`, whose remainder begins with `N`. -/
theorem ValidateGcodeLine_rejects_without_head_witness :
    ¬ HasGcodeHead (stripComment "N10 G1".toList) ∧ ValidateGcodeLine "N10 G1" = false :=
  ⟨fun h => absurd ((matchStart_gcodeHead_iff _).mpr h) (by decide),
    (ValidateGcodeLine_rejects_without_head "N10 G1"
      (fun h => absurd ((matchStart_gcodeHead_iff _).mpr h) (by decide))).1⟩

/-- C12: `ValidateGcodeLine` decides on the comment-stripped, trimmed
remainder only. A comment does not matter: for `a` without `;`,
`ValidateGcodeLine(a ++ ";" ++ c) = ValidateGcodeLine(a)`. Spaces, tabs, CR
and LF around a line do not change the result. A line whose remainder is empty
is rejected, as `; just a comment` is. -/
theorem ValidateGcodeLine_remainder (a c w1 line w2 : String)
    (ha : ';' ∉ a.toList)
    (h1 : ∀ x ∈ w1.toList, x = ' ' ∨ x = '\t' ∨ x = '\r' ∨ x = '\n')
    (h2 : ∀ x ∈ w2.toList, x = ' ' ∨ x = '\t' ∨ x = '\r' ∨ x = '\n') :
    ValidateGcodeLine (a ++ ";" ++ c) = ValidateGcodeLine a ∧
    ValidateGcodeLine (w1 ++ line ++ w2) = ValidateGcodeLine line ∧
    (stripComment line.toList = [] → ValidateGcodeLine line = false) ∧
    ValidateGcodeLine "; just a comment" = false ∧
    ValidateGcodeLine " \t\r\n" = false := by
  refine ⟨?_, ?_, ?_, by decide, by decide⟩
  · apply ValidateGcodeLine_eq_of_stripComment
    have e : (a ++ ";" ++ c).toList = a.toList ++ ';' :: c.toList := by
      simp [String.toList]
    rw [e]
    exact stripComment_comment _ _ ha
  · apply ValidateGcodeLine_eq_of_stripComment
    have e : (w1 ++ line ++ w2).toList = w1.toList ++ line.toList ++ w2.toList := by
      simp [String.toList]
    have t1 : ∀ x ∈ w1.toList, isTrimmed x = true := by
      intro x hx
      rcases h1 x hx with h | h | h | h <;> subst h <;> decide
    have t2 : ∀ x ∈ w2.toList, isTrimmed x = true := by
      intro x hx
      rcases h2 x hx with h | h | h | h <;> subst h <;> decide
    rw [e]
    exact stripComment_surround _ _ _ t1 t2
  · intro h
    unfold ValidateGcodeLine
    simp only [h, if_true]

/-- The three parts at `G28`, with the comment ` home`, between a tab and CR
LF, and at a blank line. -/
theorem ValidateGcodeLine_remainder_witness :
    ValidateGcodeLine ("G28 " ++ ";" ++ " home") = ValidateGcodeLine "G28 " ∧
    ValidateGcodeLine ("\t" ++ "G28 X0" ++ "\r\n") = ValidateGcodeLine "G28 X0" ∧
    ValidateGcodeLine "  " = false :=
  ⟨(ValidateGcodeLine_remainder "G28 " " home" "\t" "G28 X0" "\r\n" (by decide) (by decide)
      (by decide)).1,
    (ValidateGcodeLine_remainder "G28 " " home" "\t" "G28 X0" "\r\n" (by decide) (by decide)
      (by decide)).2.1,
    (ValidateGcodeLine_remainder "G28 " " home" "\t" "  " "\r\n" (by decide) (by decide)
      (by decide)).2.2.1 (by decide)⟩

/-! ### Start-print payload, `Get`, idempotence, readiness -/

/-- C17: for all inputs the `"print"` envelope of `PayloadStartPrint` has
`command = "project_file"`, `bed_leveling = true`, `bed_type =
"textured_plate"`, `vibration_cali = true`, `layer_inspect = false`,
`sequence_id = "10000000"` and `url = "ftp:///"` followed by the filename, and
passes the inputs through: `file`, `param`, `use_ams`, `ams_mapping` (the list
as given) and `flow_cali`. -/
theorem PayloadStartPrint_fields (filename plateLocation : String) (useAMS : Bool)
    (amsMapping skipObjects : Option (List Int)) (flowCalibration : Bool) :
    getFrom (.map (PayloadStartPrint filename plateLocation useAMS amsMapping skipObjects
        flowCalibration)) ["print", "command"] = some (.str "project_file") ∧
    getFrom (.map (PayloadStartPrint filename plateLocation useAMS amsMapping skipObjects
        flowCalibration)) ["print", "bed_leveling"] = some (.bool true) ∧
    getFrom (.map (PayloadStartPrint filename plateLocation useAMS amsMapping skipObjects
        flowCalibration)) ["print", "bed_type"] = some (.str "textured_plate") ∧
    getFrom (.map (PayloadStartPrint filename plateLocation useAMS amsMapping skipObjects
        flowCalibration)) ["print", "vibration_cali"] = some (.bool true) ∧
    getFrom (.map (PayloadStartPrint filename plateLocation useAMS amsMapping skipObjects
        flowCalibration)) ["print", "layer_inspect"] = some (.bool false) ∧
    getFrom (.map (PayloadStartPrint filename plateLocation useAMS amsMapping skipObjects
        flowCalibration)) ["print", "sequence_id"] = some (.str "10000000") ∧
    getFrom (.map (PayloadStartPrint filename plateLocation useAMS amsMapping skipObjects
        flowCalibration)) ["print", "url"] = some (.str ("ftp:///" ++ filename)) ∧
    getFrom (.map (PayloadStartPrint filename plateLocation useAMS amsMapping skipObjects
        flowCalibration)) ["print", "file"] = some (.str filename) ∧
    getFrom (.map (PayloadStartPrint filename plateLocation useAMS amsMapping skipObjects
        flowCalibration)) ["print", "param"] = some (.str plateLocation) ∧
    getFrom (.map (PayloadStartPrint filename plateLocation useAMS amsMapping skipObjects
        flowCalibration)) ["print", "use_ams"] = some (.bool useAMS) ∧
    getFrom (.map (PayloadStartPrint filename plateLocation useAMS amsMapping skipObjects
        flowCalibration)) ["print", "ams_mapping"] = some (.intSlice amsMapping) ∧
    getFrom (.map (PayloadStartPrint filename plateLocation useAMS amsMapping skipObjects
        flowCalibration)) ["print", "flow_cali"] = some (.bool flowCalibration) := by
  by_cases h : skipObjects ≠ none ∧ sliceLen skipObjects > 0
  · simp [PayloadStartPrint, h, getFrom, mapGet, mapSet, Any.asMap]
  · simp [PayloadStartPrint, h, getFrom, mapGet, Any.asMap]

theorem getFrom_of_reaches (cur : Any) (path : List String) (v : Any)
    (h : Reaches cur path v) : getFrom cur path = some v := by
  induction h with
  | here v => rfl
  | step m p next rest v hget _ ih => simp [getFrom, Any.asMap, hget, ih]

theorem reaches_of_getFrom (cur : Any) (path : List String) (v : Any)
    (h : getFrom cur path = some v) : Reaches cur path v := by
  induction path generalizing cur with
  | nil =>
    simp only [getFrom, Option.some.injEq] at h
    subst h
    exact Reaches.here cur
  | cons p rest ih =>
    unfold getFrom at h
    cases hm : cur.asMap with
    | none => simp [hm] at h
    | some mMap =>
      have hc : cur = .map mMap := by
        cases cur <;> simp [Any.asMap] at hm
        rw [hm]
      cases hg : mapGet mMap p with
      | none => simp [hm, hg] at h
      | some next =>
        simp only [hm, hg] at h
        rw [hc]
        exact Reaches.step mMap p next rest v hg (ih next h)

theorem getFrom_append (cur : Any) (pre rest : List String) (x : Any)
    (h : Reaches cur pre x) : getFrom cur (pre ++ rest) = getFrom x rest := by
  induction h with
  | here v => rfl
  | step m p next rest' v hget _ ih => simp [getFrom, Any.asMap, hget, ih]

/-- C18: for every document and every path, `Get` returns found with the value
`v` exactly when `v` is reached from the document along the path, each key in
order being present in the mapping reached by the keys before it; and it
returns not-found for every path that continues, with a key `p`, from a reached
value that is no mapping or is a mapping without the key `p`. -/
theorem Get_reaches (m : MQTTClient) (path : List String) :
    (∀ v, m.Get path = some v ↔ Reaches (.map m.data) path v) ∧
    (∀ pre p post cur, path = pre ++ p :: post → Reaches (.map m.data) pre cur →
      (cur.asMap = none ∨ ∃ mMap, cur = .map mMap ∧ mapGet mMap p = none) →
      m.Get path = none) := by
  refine ⟨fun v => ⟨reaches_of_getFrom _ _ _, getFrom_of_reaches _ _ _⟩, ?_⟩
  intro pre p post cur hp hr hc
  subst hp
  show getFrom (.map m.data) (pre ++ p :: post) = none
  rw [getFrom_append _ pre (p :: post) cur hr]
  rcases hc with hc | ⟨mMap, rfl, hc⟩
  · simp [getFrom, hc]
  · simp [getFrom, Any.asMap, hc]

/-- `Get` on `{print:{stg_cur:16}}`: the path `print.stg_cur` reaches 16, and
the path `print.stg_cur.x` goes on from a value that is no mapping. -/
theorem Get_reaches_witness :
    (MQTTClient.mk [("print", .map [("stg_cur", .jsonNumber "16")])] true).Get
      ["print", "stg_cur"] = some (.jsonNumber "16") ∧
    (MQTTClient.mk [("print", .map [("stg_cur", .jsonNumber "16")])] true).Get
      ["print", "stg_cur", "x"] = none :=
  ⟨((Get_reaches (MQTTClient.mk [("print", .map [("stg_cur", .jsonNumber "16")])] true)
      ["print", "stg_cur"]).1 (.jsonNumber "16")).mpr
      (Reaches.step _ "print" (.map [("stg_cur", .jsonNumber "16")]) _ _ rfl
        (Reaches.step _ "stg_cur" (.jsonNumber "16") _ _ rfl (Reaches.here _))),
    (Get_reaches (MQTTClient.mk [("print", .map [("stg_cur", .jsonNumber "16")])] true)
      ["print", "stg_cur", "x"]).2 ["print", "stg_cur"] "x" [] (.jsonNumber "16") rfl
      (Reaches.step _ "print" (.map [("stg_cur", .jsonNumber "16")]) _ _ rfl
        (Reaches.step _ "stg_cur" (.jsonNumber "16") _ _ rfl (Reaches.here _)))
      (Or.inl rfl)⟩

theorem mapGet_of_mem_nodup (m : GoMap) (h : KeysNodup m) (k : String) (v : Any)
    (hm : (k, v) ∈ m) : mapGet m k = some v := by
  induction m with
  | nil => cases hm
  | cons hd tl ih =>
    obtain ⟨a, b⟩ := hd
    have hnd : KeysNodup tl := (List.nodup_cons.mp h).2
    have hna : a ∉ tl.map Prod.fst := (List.nodup_cons.mp h).1
    rcases List.mem_cons.mp hm with e | e
    · cases e
      simp [mapGet]
    · have hne : ¬ a = k := by
        rintro rfl
        exact hna (List.mem_map.mpr ⟨(a, v), e, rfl⟩)
      simp [mapGet, hne, ih hnd e]

theorem mergeInto_eq_self (vMap existingMap : GoMap)
    (h : ∀ kv ∈ vMap, mapGet existingMap kv.1 = some kv.2) :
    mergeInto existingMap vMap = existingMap := by
  induction vMap with
  | nil => rfl
  | cons hd tl ih =>
    have step : mergeInto existingMap (hd :: tl) = mergeInto (mapSet existingMap hd.1 hd.2) tl :=
      rfl
    rw [step, mapSet_eq_self existingMap hd.1 hd.2 (h hd (List.mem_cons_self _ _))]
    exact ih (fun kv hkv => h kv (List.mem_cons_of_mem _ hkv))

theorem mergeInto_mergeInto (vMap : GoMap) (hv : KeysNodup vMap) (existingMap : GoMap) :
    mergeInto (mergeInto existingMap vMap) vMap = mergeInto existingMap vMap := by
  apply mergeInto_eq_self
  intro kv hkv
  rw [mapGet_mergeInto vMap hv existingMap kv.1, mapGet_of_mem_nodup vMap hv kv.1 kv.2 hkv]
  rfl

theorem mergeInto_self (vMap : GoMap) (hv : KeysNodup vMap) : mergeInto vMap vMap = vMap :=
  mergeInto_eq_self vMap vMap (fun kv hkv => mapGet_of_mem_nodup vMap hv kv.1 kv.2 hkv)

theorem ingestEntry_eq_self (data : GoMap) (k : String) (v : Any) (old : Option Any)
    (hv : ∀ vMap, v = .map vMap → KeysNodup vMap)
    (h : mapGet data k = some (mergedValue old v)) : ingestEntry data k v = data := by
  unfold ingestEntry
  rw [h]
  cases hva : v.asMap with
  | none =>
    have e : mergedValue old v = v := by
      unfold mergedValue
      rw [hva]
      cases old <;> rfl
    rw [e] at h
    exact mapSet_eq_self data k v h
  | some vMap =>
    have hvm : v = .map vMap := by
      cases v <;> simp [Any.asMap] at hva
      rw [hva]
    subst hvm
    have hnd := hv vMap rfl
    have hcases : mergedValue old (.map vMap) = .map vMap ∨
        ∃ e, mergedValue old (.map vMap) = .map (mergeInto e vMap) := by
      unfold mergedValue
      cases old with
      | none => exact Or.inl rfl
      | some existing =>
        cases he : existing.asMap with
        | none =>
          left
          show (match existing.asMap with
            | some existingMap => Any.map (mergeInto existingMap vMap)
            | none => Any.map vMap) = _
          rw [he]
        | some e =>
          right
          refine ⟨e, ?_⟩
          show (match existing.asMap with
            | some existingMap => Any.map (mergeInto existingMap vMap)
            | none => Any.map vMap) = _
          rw [he]
    rcases hcases with e | ⟨e, he⟩
    · rw [e] at h ⊢
      simp only [Any.asMap]
      rw [mergeInto_self vMap hnd]
      exact mapSet_eq_self data k _ h
    · rw [he] at h ⊢
      simp only [Any.asMap]
      rw [mergeInto_mergeInto vMap hnd e]
      exact mapSet_eq_self data k _ h

theorem foldl_ingestEntry_eq_self (doc : GoMap) (data : GoMap)
    (h : ∀ kv ∈ doc, ingestEntry data kv.1 kv.2 = data) :
    doc.foldl (fun d kv => ingestEntry d kv.1 kv.2) data = data := by
  induction doc with
  | nil => rfl
  | cons hd tl ih =>
    simp only [List.foldl_cons]
    rw [h hd (List.mem_cons_self _ _)]
    exact ih (fun kv hkv => h kv (List.mem_cons_of_mem _ hkv))

/-- C19: ingesting a document twice in a row gives the same state as
ingesting it once, for every state and every incoming document whose maps
bind each key once. -/
theorem onMessage_idempotent (m : MQTTClient) (doc : GoMap) (hdoc : KeysNodup doc)
    (hin : ∀ k vMap, mapGet doc k = some (.map vMap) → KeysNodup vMap) :
    (m.onMessage (some doc)).onMessage (some doc) = m.onMessage (some doc) := by
  have key : (doc.foldl (fun d kv => ingestEntry d kv.1 kv.2)
      (doc.foldl (fun d kv => ingestEntry d kv.1 kv.2) m.data)) =
      doc.foldl (fun d kv => ingestEntry d kv.1 kv.2) m.data := by
    apply foldl_ingestEntry_eq_self
    intro kv hkv
    have hget : mapGet doc kv.1 = some kv.2 := mapGet_of_mem_nodup doc hdoc kv.1 kv.2 hkv
    apply ingestEntry_eq_self _ kv.1 kv.2 (mapGet m.data kv.1)
    · intro vMap hv
      exact hin kv.1 vMap (hv ▸ hget)
    · rw [mapGet_ingest_mem doc hdoc m.data kv.1 kv.2 hget, mapGet_ingestEntry_self]
  show MQTTClient.mk (doc.foldl (fun d kv => ingestEntry d kv.1 kv.2)
      (doc.foldl (fun d kv => ingestEntry d kv.1 kv.2) m.data)) true = MQTTClient.mk _ true
  rw [key]

/-- Idempotence at the state `{print:{a:1}, x:null}` and the document
`{print:{b:2}, y:3}`. -/
theorem onMessage_idempotent_witness :
    ((MQTTClient.mk [("print", .map [("a", .jsonNumber "1")]), ("x", .nil)] true).onMessage
        (some [("print", .map [("b", .jsonNumber "2")]), ("y", .jsonNumber "3")])).onMessage
        (some [("print", .map [("b", .jsonNumber "2")]), ("y", .jsonNumber "3")]) =
      (MQTTClient.mk [("print", .map [("a", .jsonNumber "1")]), ("x", .nil)] true).onMessage
        (some [("print", .map [("b", .jsonNumber "2")]), ("y", .jsonNumber "3")]) :=
  onMessage_idempotent (MQTTClient.mk [("print", .map [("a", .jsonNumber "1")]), ("x", .nil)] true)
    [("print", .map [("b", .jsonNumber "2")]), ("y", .jsonNumber "3")] (by decide)
    (by
      intro k vMap h
      have : vMap = [("b", .jsonNumber "2")] := by
        by_cases e : "print" = k
        · simp [mapGet, e] at h; exact h.symm
        · by_cases e2 : "y" = k
          · simp [mapGet, e, e2] at h
          · simp [mapGet, e, e2] at h
      subst this
      decide)

theorem ready_afterAll_of_ready (m : MQTTClient) (calls : List Call) (h : m.ready = true) :
    (m.afterAll calls).ready = true := by
  induction calls generalizing m with
  | nil => exact h
  | cons c cs ih =>
    show ((m.after c).afterAll cs).ready = true
    apply ih
    cases c with
    | onMessage payload =>
      cases payload with
      | none => exact h
      | some doc => rfl
    | get path => exact h
    | snapshot => exact h

theorem ready_afterAll (m : MQTTClient) (calls : List Call) :
    (m.afterAll calls).ready = (m.ready || calls.any Call.isIngest) := by
  induction calls generalizing m with
  | nil => simp [MQTTClient.afterAll]
  | cons c cs ih =>
    show ((m.after c).afterAll cs).ready = _
    rw [ih]
    cases c with
    | onMessage payload =>
      cases payload with
      | none => simp [MQTTClient.after, MQTTClient.onMessage, Call.isIngest]
      | some doc => simp [MQTTClient.after, MQTTClient.onMessage, Call.isIngest]
    | get path => simp [MQTTClient.after, Call.isIngest]
    | snapshot => simp [MQTTClient.after, Call.isIngest]

/-- C20, the claim as stated fails: after a first message the gate is true,
and a `WaitForData` with a timeout of one nanosecond whose timer has fired
when the `select` examines its cases, and whose `select` takes the timer case,
returns the timeout error. -/
theorem WaitForData_timeout_when_ready :
    (NewMQTTClient.onMessage (some [])).ready = true ∧
    (NewMQTTClient.onMessage (some [])).WaitForData 1 ⟨1, true, false⟩ =
      .error "timeout waiting for printer data" :=
  ⟨rfl, rfl⟩

/-- C20, amended: the readiness gate is one-shot. It is false on a new
aggregator; after any sequence of calls (`onMessage`, `Get`, `Snapshot`) on a
new aggregator it is true exactly when one of the calls was a message that
decoded; a message that decodes makes it true; once true it is true after
every further sequence of calls; and whenever it is true and the timer of the
timeout (5 seconds for a timeout that is not positive) has not fired when the
`select` examines its cases, `WaitForData` returns `nil`, not the timeout
error. -/
theorem ready_one_shot :
    NewMQTTClient.ready = false ∧
    (∀ calls : List Call,
      (NewMQTTClient.afterAll calls).ready = calls.any Call.isIngest) ∧
    (∀ (m : MQTTClient) (doc : GoMap), (m.onMessage (some doc)).ready = true) ∧
    (∀ (m : MQTTClient) (calls : List Call), m.ready = true →
      (m.afterAll calls).ready = true) ∧
    (∀ (m : MQTTClient) (timeout : Int) (env : SelectEnv), m.ready = true →
      env.elapsed < (if timeout ≤ 0 then 5 * 1000000000 else timeout) →
      m.WaitForData timeout env = .ok ()) := by
  refine ⟨rfl, ?_, fun _ _ => rfl, ready_afterAll_of_ready, ?_⟩
  · intro calls
    rw [ready_afterAll]
    rfl
  · intro m timeout env h hlt
    have hf : decide ((if timeout ≤ 0 then 5 * 1000000000 else timeout) ≤ env.elapsed) =
        false := decide_eq_false (not_le.mpr hlt)
    simp only [MQTTClient.WaitForData, h, hf]

/-- The gate after a first message, a `Get`, a `Snapshot`, a payload that
does not decode and a second message: true, and a `WaitForData` of one second
whose `select` runs a microsecond after the timer was set returns `nil`,
whichever case the `select` would take of two. -/
theorem ready_one_shot_witness :
    ((NewMQTTClient.onMessage (some [])).afterAll
      [.get ["print"], .snapshot, .onMessage none, .onMessage (some [("x", .nil)])]).ready =
        true ∧
    ((NewMQTTClient.onMessage (some [])).afterAll
      [.get ["print"], .snapshot, .onMessage none,
        .onMessage (some [("x", .nil)])]).WaitForData 1000000000 ⟨1000, true, false⟩ =
          .ok () :=
  ⟨ready_one_shot.2.2.2.1 (NewMQTTClient.onMessage (some []))
      [.get ["print"], .snapshot, .onMessage none, .onMessage (some [("x", .nil)])] rfl,
    ready_one_shot.2.2.2.2 _ 1000000000 ⟨1000, true, false⟩
      (ready_one_shot.2.2.2.1 (NewMQTTClient.onMessage (some []))
        [.get ["print"], .snapshot, .onMessage none, .onMessage (some [("x", .nil)])] rfl)
      (by decide)⟩

/-! ### The camera client -/

theorem bytesHasPrefix_jpegStart (s : List UInt8) :
    bytesHasPrefix s jpegStart = true ↔ 4 ≤ s.length ∧ s.take 4 = [0xff, 0xd8, 0xff, 0xe0] := by
  simp [bytesHasPrefix, jpegStart]

theorem bytesHasSuffix_jpegEnd (s : List UInt8) :
    bytesHasSuffix s jpegEnd = true ↔ 2 ≤ s.length ∧ s.drop (s.length - 2) = [0xff, 0xd9] := by
  simp [bytesHasSuffix, jpegEnd]

theorem FramedIn_cons (r : ReadResult) (reads : List ReadResult) (frame : List UInt8)
    (h : FramedIn reads frame) : FramedIn (r :: reads) frame := by
  obtain ⟨pre, hdr, chunks, rest, h1, h2⟩ := h
  exact ⟨r :: pre, hdr, chunks, rest, by rw [h1]; rfl, h2⟩

theorem captureLoop_ok (reads : List ReadResult) :
    ∀ (img : Option (List UInt8)) (L : Nat) (frame : List UInt8),
      captureLoop img L reads = .ok frame →
      (∃ (buf : List UInt8) (chunks : List (List UInt8)) (rest : List ReadResult),
          img = some buf ∧ L > 0 ∧ reads = chunks.map ReadResult.data ++ rest ∧
          frame = (buf ++ chunks.flatten).take L ∧ frame.length = L ∧
          frame.take 4 = [0xff, 0xd8, 0xff, 0xe0] ∧
          frame.drop (frame.length - 2) = [0xff, 0xd9]) ∨
        FramedIn reads frame := by
  induction reads with
  | nil =>
    intro img L frame h
    simp [captureLoop] at h
  | cons r rest ih =>
    intro img L frame h
    cases r with
    | err e =>
      cases e <;> simp [captureLoop] at h
    | data chunk =>
      -- what a header read leads to
      have header : ∀ (st : Option (List UInt8)),
          captureLoop (some []) (headerLength chunk) rest = .ok frame →
          chunk.length = 16 → headerLength chunk > 0 →
          FramedIn (ReadResult.data chunk :: rest) frame := by
        intro st h' h16 hp
        rcases ih (some []) (headerLength chunk) frame h' with
          ⟨buf, chunks, rest', hb, _, hr, hf, hl, hs, he⟩ | hfr
        · cases hb
          refine ⟨[], chunk, chunks, rest', ?_, h16, hp, ?_, hl, hs, he⟩
          · rw [hr]; rfl
          · simpa using hf
        · exact FramedIn_cons _ _ _ hfr
      -- what a state that does not accumulate leads to
      have idle : ∀ (st : Option (List UInt8)) (n : Nat), (∀ buf, st = some buf → ¬ n > 0) →
          captureLoop st n rest = .ok frame →
          FramedIn (ReadResult.data chunk :: rest) frame := by
        intro st n hst h'
        rcases ih st n frame h' with ⟨buf, _, _, hb, hn, _⟩ | hfr
        · exact absurd hn (hst buf hb)
        · exact FramedIn_cons _ _ _ hfr
      by_cases hz : chunk.length = 0
      · have hnil : chunk = [] := List.length_eq_zero.mp hz
        simp only [captureLoop, hz, if_true] at h
        rcases ih img L frame h with ⟨buf, chunks, rest', hb, hL, hr, hf, hl, hs, he⟩ | hfr
        · left
          refine ⟨buf, chunk :: chunks, rest', hb, hL, ?_, ?_, hl, hs, he⟩
          · rw [hr]; rfl
          · rw [hf, hnil]; simp
        · exact Or.inr (FramedIn_cons _ _ _ hfr)
      · cases img with
        | none =>
          simp only [captureLoop, hz, if_false] at h
          by_cases h16 : chunk.length = 16
          · rw [if_pos h16] at h
            by_cases hp : headerLength chunk > 0
            · rw [if_pos hp] at h
              exact Or.inr (header none h h16 hp)
            · rw [if_neg hp] at h
              exact Or.inr (idle none _ (fun _ hb => by cases hb) h)
          · rw [if_neg h16] at h
            exact Or.inr (idle none _ (fun _ hb => by cases hb) h)
        | some buf =>
          simp only [captureLoop, hz, if_false] at h
          by_cases hL : L > 0
          · rw [if_pos hL] at h
            by_cases hlen : (buf ++ chunk).length ≥ L
            · rw [if_pos hlen] at h
              by_cases hm : bytesHasPrefix ((buf ++ chunk).take L) jpegStart = true ∧
                  bytesHasSuffix ((buf ++ chunk).take L) jpegEnd = true
              · rw [if_pos hm] at h
                simp only [Except.ok.injEq] at h
                subst h
                left
                refine ⟨buf, [chunk], rest, rfl, hL, rfl, by simp, ?_,
                  ((bytesHasPrefix_jpegStart _).mp hm.1).2,
                  ((bytesHasSuffix_jpegEnd _).mp hm.2).2⟩
                rw [List.length_take]
                exact Nat.min_eq_left hlen
              · rw [if_neg hm] at h
                exact Or.inr (idle none 0 (fun _ hb => by cases hb) h)
            · rw [if_neg hlen] at h
              rcases ih (some (buf ++ chunk)) L frame h with
                ⟨buf', chunks, rest', hb, _, hr, hf, hl, hs, he⟩ | hfr
              · cases hb
                left
                refine ⟨buf, chunk :: chunks, rest', rfl, hL, ?_, ?_, hl, hs, he⟩
                · rw [hr]; rfl
                · rw [hf]; simp
              · exact Or.inr (FramedIn_cons _ _ _ hfr)
          · rw [if_neg hL] at h
            by_cases h16 : chunk.length = 16
            · rw [if_pos h16] at h
              by_cases hp : headerLength chunk > 0
              · rw [if_pos hp] at h
                exact Or.inr (header none h h16 hp)
              · rw [if_neg hp] at h
                exact Or.inr (idle (some buf) _ (fun _ _ => hp) h)
            · rw [if_neg h16] at h
              exact Or.inr (idle (some buf) L (fun _ _ => hL) h)

theorem captureLoop_header (hdr : List UInt8) (rest : List ReadResult)
    (h16 : hdr.length = 16) (hp : headerLength hdr > 0) :
    captureLoop none 0 (.data hdr :: rest) = captureLoop (some []) (headerLength hdr) rest := by
  have hz : ¬ hdr.length = 0 := by omega
  simp only [captureLoop]
  rw [if_neg hz, if_pos h16, if_pos hp]

theorem captureLoop_complete (buf chunk : List UInt8) (L : Nat) (rest : List ReadResult)
    (hL : L > 0) (hz : chunk.length ≠ 0) (hlen : (buf ++ chunk).length ≥ L)
    (hm : bytesHasPrefix ((buf ++ chunk).take L) jpegStart = true ∧
      bytesHasSuffix ((buf ++ chunk).take L) jpegEnd = true) :
    captureLoop (some buf) L (.data chunk :: rest) = .ok ((buf ++ chunk).take L) := by
  simp only [captureLoop]
  rw [if_neg hz, if_pos hL, if_pos hlen, if_pos hm]

theorem captureLoop_discard (buf chunk : List UInt8) (L : Nat) (rest : List ReadResult)
    (hL : L > 0) (hz : chunk.length ≠ 0) (hlen : (buf ++ chunk).length ≥ L)
    (hm : ¬ (bytesHasPrefix ((buf ++ chunk).take L) jpegStart = true ∧
      bytesHasSuffix ((buf ++ chunk).take L) jpegEnd = true)) :
    captureLoop (some buf) L (.data chunk :: rest) = captureLoop none 0 rest := by
  simp only [captureLoop]
  rw [if_neg hz, if_pos hL, if_pos hlen, if_neg hm]

theorem captureLoop_header_frame (hdr frame : List UInt8) (rest : List ReadResult)
    (h16 : hdr.length = 16) (hp : headerLength hdr > 0)
    (hl : frame.length = headerLength hdr)
    (hs : frame.take 4 = [0xff, 0xd8, 0xff, 0xe0])
    (he : frame.drop (frame.length - 2) = [0xff, 0xd9]) :
    captureLoop none 0 (.data hdr :: .data frame :: rest) = .ok frame := by
  have hfz : frame.length ≠ 0 := by omega
  have h4 : 4 ≤ frame.length := by
    by_contra hc
    have : (frame.take 4).length = 4 := by rw [hs]; rfl
    rw [List.length_take] at this
    omega
  have htake : ([] ++ frame).take (headerLength hdr) = frame := by
    rw [List.nil_append, ← hl, List.take_length]
  have hm : bytesHasPrefix frame jpegStart = true ∧ bytesHasSuffix frame jpegEnd = true :=
    ⟨(bytesHasPrefix_jpegStart frame).mpr ⟨h4, hs⟩,
      (bytesHasSuffix_jpegEnd frame).mpr ⟨by omega, he⟩⟩
  have hlen : ([] ++ frame).length ≥ headerLength hdr := by
    rw [List.nil_append, hl]
  rw [captureLoop_header hdr _ h16 hp,
    captureLoop_complete [] frame (headerLength hdr) rest hp hfz hlen (by rw [htake]; exact hm),
    htake]

theorem captureLoop_no_header (reads : List ReadResult)
    (h : ∀ r ∈ reads, ∃ c, r = ReadResult.data c ∧ c.length ≠ 16) :
    captureLoop none 0 reads = .error .noFrame := by
  induction reads with
  | nil => rfl
  | cons r rest ih =>
    obtain ⟨c, hr, hc⟩ := h r (List.mem_cons_self _ _)
    subst hr
    have ih' := ih (fun r hr => h r (List.mem_cons_of_mem _ hr))
    simp only [captureLoop]
    by_cases hz : c.length = 0
    · rw [if_pos hz]; exact ih'
    · rw [if_neg hz, if_neg hc]; exact ih'

theorem captureLoop_read_error (reads : List ReadResult) :
    ∀ (img : Option (List UInt8)) (L : Nat) (e : ReadError),
      captureLoop img L reads = .error (.read e) →
      e ≠ .errClosed ∧ e ≠ .timeout ∧ ReadResult.err e ∈ reads := by
  induction reads with
  | nil =>
    intro img L e h
    simp [captureLoop] at h
  | cons r rest ih =>
    intro img L e h
    cases r with
    | err e' =>
      cases e' with
      | errClosed => simp [captureLoop] at h
      | timeout => simp [captureLoop] at h
      | eof =>
        simp only [captureLoop, Except.error.injEq, SnapshotError.read.injEq] at h
        subst h
        exact ⟨by decide, by decide, List.mem_cons_self _ _⟩
      | other msg =>
        simp only [captureLoop, Except.error.injEq, SnapshotError.read.injEq] at h
        subst h
        exact ⟨by simp, by simp, List.mem_cons_self _ _⟩
    | data chunk =>
      have next : ∀ st n, captureLoop st n rest = .error (.read e) →
          e ≠ .errClosed ∧ e ≠ .timeout ∧ ReadResult.err e ∈ ReadResult.data chunk :: rest := by
        intro st n h'
        obtain ⟨h1, h2, h3⟩ := ih st n e h'
        exact ⟨h1, h2, List.mem_cons_of_mem _ h3⟩
      cases img with
      | none =>
        simp only [captureLoop] at h
        split_ifs at h <;> exact next _ _ h
      | some buf =>
        simp only [captureLoop] at h
        split_ifs at h <;> exact next _ _ h

theorem writePadded_eq (buf b : List UInt8) :
    writePadded buf b 32 = buf ++ (b.take 32 ++ List.replicate (32 - b.length) 0) := by
  unfold writePadded
  by_cases h : b.length > 32
  · rw [if_pos h]
    have e : 32 - b.length = 0 := by omega
    rw [e]
    simp
  · rw [if_neg h]
    have e : b.take 32 = b := List.take_of_length_le (by omega)
    rw [e, List.append_assoc]

theorem padded_length (b : List UInt8) :
    (b.take 32 ++ List.replicate (32 - b.length) (0 : UInt8)).length = 32 := by
  rw [List.length_append, List.length_take, List.length_replicate]
  omega

/-- C16: for every username and access code, given by their bytes,
`buildCameraAuth` returns exactly 80 bytes: the four little-endian 32-bit
words `0x40`, `0x3000`, 0, 0 in the bytes 0 to 15, then in the bytes 16 to 47
the first 32 bytes of the username with zero bytes after them up to 32, then
in the bytes 48 to 79 the same for the access code. -/
theorem buildCameraAuth_layout (username access : List UInt8) :
    (buildCameraAuth username access).length = 80 ∧
    (buildCameraAuth username access).take 16 =
      [0x40, 0, 0, 0, 0, 0x30, 0, 0, 0, 0, 0, 0, 0, 0, 0, 0] ∧
    ((buildCameraAuth username access).drop 16).take 32 =
      username.take 32 ++ List.replicate (32 - username.length) 0 ∧
    (buildCameraAuth username access).drop 48 =
      access.take 32 ++ List.replicate (32 - access.length) 0 := by
  have hw : putUint32 0x40 ++ putUint32 0x3000 ++ putUint32 0 ++ putUint32 0 =
      [0x40, 0, 0, 0, 0, 0x30, 0, 0, 0, 0, 0, 0, 0, 0, 0, 0] := by decide
  have e : buildCameraAuth username access =
      [0x40, 0, 0, 0, 0, 0x30, 0, 0, 0, 0, 0, 0, 0, 0, 0, 0] ++
        ((username.take 32 ++ List.replicate (32 - username.length) 0) ++
          (access.take 32 ++ List.replicate (32 - access.length) 0)) := by
    show writePadded (writePadded
      (putUint32 0x40 ++ putUint32 0x3000 ++ putUint32 0 ++ putUint32 0) username 32)
      access 32 = _
    rw [hw, writePadded_eq, writePadded_eq, List.append_assoc]
  have hu := padded_length username
  have ha := padded_length access
  rw [e]
  generalize username.take 32 ++ List.replicate (32 - username.length) (0 : UInt8) = U at hu ⊢
  generalize access.take 32 ++ List.replicate (32 - access.length) (0 : UInt8) = A at ha ⊢
  have hd : List.drop 16 ([0x40, 0, 0, 0, 0, 0x30, 0, 0, 0, 0, 0, 0, 0, 0, 0, 0] ++ (U ++ A)) =
      U ++ A := List.drop_left' rfl
  refine ⟨?_, ?_, ?_, ?_⟩
  · rw [List.length_append, List.length_append, hu, ha]
    rfl
  · exact List.take_left' rfl
  · rw [hd]
    exact List.take_left' hu
  · rw [← List.append_assoc]
    exact List.drop_left' (by rw [List.length_append, hu]; rfl)

/-- C13: every frame that `CameraClient.Snapshot` returns is framed in the
reads: it is the first `L` bytes of the reads that follow a read of 16 bytes
declaring the length `L > 0`, it has `L` bytes, begins with `FF D8 FF E0` and
ends with `FF D9`. And when the first read is a 16-byte header that declares
the length 10 and the second read is 10 bytes with these markers, the result
is that 10-byte frame. -/
theorem Snapshot_frame (s : CameraSession) :
    (∀ frame, CameraClient.Snapshot s = .ok frame → FramedIn s.reads frame) ∧
    (∀ (hdr frame : List UInt8) (rest : List ReadResult),
      hdr.length = 16 → headerLength hdr = 10 → frame.length = 10 →
      frame.take 4 = [0xff, 0xd8, 0xff, 0xe0] → frame.drop 8 = [0xff, 0xd9] →
      CameraClient.Snapshot
        { dialErr := none, writeErr := none, reads := .data hdr :: .data frame :: rest } =
          .ok frame) := by
  constructor
  · intro frame h
    unfold CameraClient.Snapshot at h
    cases hd : s.dialErr with
    | some msg => simp [hd] at h
    | none =>
      cases hw : s.writeErr with
      | some msg => simp [hd, hw] at h
      | none =>
        simp only [hd, hw] at h
        rcases captureLoop_ok s.reads none 0 frame h with ⟨buf, _, _, hb, _⟩ | hfr
        · cases hb
        · exact hfr
  · intro hdr frame rest h16 h10 hl hs he
    show captureLoop none 0 (.data hdr :: .data frame :: rest) = .ok frame
    exact captureLoop_header_frame hdr frame rest h16 (by omega) (by omega) hs
      (by rw [hl]; exact he)

/-- The frame of the session in which a header declaring 10 bytes is followed
by a 10-byte JPEG frame. -/
theorem Snapshot_frame_witness :
    CameraClient.Snapshot
      { dialErr := none, writeErr := none,
        reads := [.data [10, 0, 0, 0, 0, 0, 0, 0, 0, 0, 0, 0, 0, 0, 0, 0],
          .data [0xff, 0xd8, 0xff, 0xe0, 1, 2, 3, 4, 0xff, 0xd9]] } =
      .ok [0xff, 0xd8, 0xff, 0xe0, 1, 2, 3, 4, 0xff, 0xd9] ∧
    FramedIn [.data [10, 0, 0, 0, 0, 0, 0, 0, 0, 0, 0, 0, 0, 0, 0, 0],
        .data [0xff, 0xd8, 0xff, 0xe0, 1, 2, 3, 4, 0xff, 0xd9]]
      [0xff, 0xd8, 0xff, 0xe0, 1, 2, 3, 4, 0xff, 0xd9] :=
  ⟨(Snapshot_frame ⟨none, none, []⟩).2 [10, 0, 0, 0, 0, 0, 0, 0, 0, 0, 0, 0, 0, 0, 0, 0]
      [0xff, 0xd8, 0xff, 0xe0, 1, 2, 3, 4, 0xff, 0xd9] [] (by decide) (by decide) (by decide)
      (by decide) (by decide),
    (Snapshot_frame
      { dialErr := none, writeErr := none,
        reads := [.data [10, 0, 0, 0, 0, 0, 0, 0, 0, 0, 0, 0, 0, 0, 0, 0],
          .data [0xff, 0xd8, 0xff, 0xe0, 1, 2, 3, 4, 0xff, 0xd9]] }).1 _ rfl⟩

/-- C14, at the failing input: when the peer closes the stream the read
returns `io.EOF`, which is neither `net.ErrClosed` nor a timeout, and
`CameraClient.Snapshot` returns that error, not "no camera frame received";
the closure that the loop tests for, `net.ErrClosed`, does end it with "no
camera frame received". -/
theorem Snapshot_peer_closure :
    CameraClient.Snapshot { dialErr := none, writeErr := none, reads := [.err .eof] } =
      .error (.read .eof) ∧
    CameraClient.Snapshot { dialErr := none, writeErr := none, reads := [.err .eof] } ≠
      .error .noFrame ∧
    CameraClient.Snapshot { dialErr := none, writeErr := none, reads := [.err .errClosed] } =
      .error .noFrame := by
  refine ⟨rfl, ?_, rfl⟩
  intro h
  have e : CameraClient.Snapshot { dialErr := none, writeErr := none, reads := [.err .eof] } =
      .error (.read .eof) := rfl
  rw [e] at h
  cases h

/-- The read errors of the capture loop, case by case: in every state of the
loop a read error that is a timeout (the deadline has passed) or is
`net.ErrClosed` ends the loop with the "no camera frame received" error, as
does the end of the reads at the deadline; a read error that is neither takes
the `return nil, err` of the loop; and an error that `CameraClient.Snapshot`
returns as a read error is one of the reads and is neither of the two. -/
theorem captureLoop_read_errors (img : Option (List UInt8)) (payloadSize : Nat)
    (rest : List ReadResult) :
    captureLoop img payloadSize (.err .timeout :: rest) = .error .noFrame ∧
    captureLoop img payloadSize (.err .errClosed :: rest) = .error .noFrame ∧
    captureLoop img payloadSize [] = .error .noFrame ∧
    (∀ e, e ≠ .timeout → e ≠ .errClosed →
      captureLoop img payloadSize (.err e :: rest) = .error (.read e)) ∧
    (∀ (s : CameraSession) (e : ReadError), CameraClient.Snapshot s = .error (.read e) →
      e ≠ .errClosed ∧ e ≠ .timeout ∧ ReadResult.err e ∈ s.reads) := by
  refine ⟨rfl, rfl, rfl, ?_, ?_⟩
  · intro e h1 h2
    cases e with
    | errClosed => exact absurd rfl h2
    | timeout => exact absurd rfl h1
    | eof => rfl
    | other msg => rfl
  · intro s e h
    unfold CameraClient.Snapshot at h
    cases hd : s.dialErr with
    | some msg => simp [hd] at h
    | none =>
      cases hw : s.writeErr with
      | some msg => simp [hd, hw] at h
      | none =>
        simp only [hd, hw] at h
        exact captureLoop_read_error s.reads none 0 e h

/-- A connection reset after a header: the error is returned unchanged. -/
theorem captureLoop_read_errors_witness :
    captureLoop (some []) 10 [.err (.other "connection reset by peer")] =
      .error (.read (.other "connection reset by peer")) ∧
    (.other "connection reset by peer" : ReadError) ≠ .errClosed :=
  ⟨(captureLoop_read_errors (some []) 10 []).2.2.2.1 (.other "connection reset by peer")
      (by decide) (by decide),
    ((captureLoop_read_errors none 0 []).2.2.2.2
      { dialErr := none, writeErr := none,
        reads := [.err (.other "connection reset by peer")] }
      (.other "connection reset by peer") rfl).1⟩

/-- C15: when the bytes accumulated for a declared length `L` fail the marker
check, the capture loop goes on from the state that awaits a header, with no
buffer and no length: the failed bytes are not returned; a valid header and
frame that follow are returned; and when the reads end, or hold no read of 16
bytes, the result is the "no camera frame received" error. A header declaring
10 bytes and 10 bytes with a corrupted start marker give that error. -/
theorem captureLoop_discards (buf chunk : List UInt8) (L : Nat) (rest : List ReadResult)
    (hL : L > 0) (hz : chunk ≠ []) (hlen : (buf ++ chunk).length ≥ L)
    (hbad : ((buf ++ chunk).take L).take 4 ≠ [0xff, 0xd8, 0xff, 0xe0] ∨
      ((buf ++ chunk).take L).drop (((buf ++ chunk).take L).length - 2) ≠ [0xff, 0xd9]) :
    captureLoop (some buf) L (.data chunk :: rest) = captureLoop none 0 rest ∧
    captureLoop (some buf) L (.data chunk :: rest) ≠ .ok ((buf ++ chunk).take L) ∧
    (∀ (hdr frame : List UInt8) (rest' : List ReadResult),
      hdr.length = 16 → headerLength hdr > 0 → frame.length = headerLength hdr →
      frame.take 4 = [0xff, 0xd8, 0xff, 0xe0] →
      frame.drop (frame.length - 2) = [0xff, 0xd9] →
      captureLoop (some buf) L (.data chunk :: .data hdr :: .data frame :: rest') =
        .ok frame) ∧
    captureLoop (some buf) L [.data chunk] = .error .noFrame ∧
    ((∀ r ∈ rest, ∃ c, r = ReadResult.data c ∧ c.length ≠ 16) →
      captureLoop (some buf) L (.data chunk :: rest) = .error .noFrame) ∧
    captureLoop none 0 [.data [10, 0, 0, 0, 0, 0, 0, 0, 0, 0, 0, 0, 0, 0, 0, 0],
      .data [0x00, 0xd8, 0xff, 0xe0, 1, 2, 3, 4, 0xff, 0xd9]] = .error .noFrame := by
  have hz' : chunk.length ≠ 0 := fun h => hz (List.length_eq_zero.mp h)
  have hm : ¬ (bytesHasPrefix ((buf ++ chunk).take L) jpegStart = true ∧
      bytesHasSuffix ((buf ++ chunk).take L) jpegEnd = true) := by
    rintro ⟨h1, h2⟩
    rcases hbad with hb | hb
    · exact hb ((bytesHasPrefix_jpegStart _).mp h1).2
    · exact hb ((bytesHasSuffix_jpegEnd _).mp h2).2
  have step : ∀ rest, captureLoop (some buf) L (.data chunk :: rest) = captureLoop none 0 rest :=
    fun rest => captureLoop_discard buf chunk L rest hL hz' hlen hm
  refine ⟨step rest, ?_, ?_, ?_, ?_, rfl⟩
  · intro h
    rw [step rest] at h
    rcases captureLoop_ok rest none 0 _ h with ⟨_, _, _, hb, _⟩ | ⟨_, _, _, _, _, _, _, _, _, hs, he⟩
    · cases hb
    · rcases hbad with hb | hb
      · exact hb hs
      · exact hb he
  · intro hdr frame rest' h16 hp hl hs he
    rw [step]
    exact captureLoop_header_frame hdr frame rest' h16 hp hl hs he
  · rw [step]
    rfl
  · intro h
    rw [step]
    exact captureLoop_no_header rest h

/-- The discard at a header for 10 bytes followed by 10 bytes whose start
marker is corrupted, then by a valid header and frame. -/
theorem captureLoop_discards_witness :
    captureLoop (some []) 10
      [.data [0x00, 0xd8, 0xff, 0xe0, 1, 2, 3, 4, 0xff, 0xd9],
        .data [10, 0, 0, 0, 0, 0, 0, 0, 0, 0, 0, 0, 0, 0, 0, 0],
        .data [0xff, 0xd8, 0xff, 0xe0, 5, 6, 7, 8, 0xff, 0xd9]] =
      .ok [0xff, 0xd8, 0xff, 0xe0, 5, 6, 7, 8, 0xff, 0xd9] ∧
    captureLoop (some []) 10 [.data [0x00, 0xd8, 0xff, 0xe0, 1, 2, 3, 4, 0xff, 0xd9]] =
      .error .noFrame :=
  ⟨(captureLoop_discards [] [0x00, 0xd8, 0xff, 0xe0, 1, 2, 3, 4, 0xff, 0xd9] 10 []
      (by decide) (by decide) (by decide) (Or.inl (by decide))).2.2.1
      [10, 0, 0, 0, 0, 0, 0, 0, 0, 0, 0, 0, 0, 0, 0, 0]
      [0xff, 0xd8, 0xff, 0xe0, 5, 6, 7, 8, 0xff, 0xd9] [] (by decide) (by decide) (by decide)
      (by decide) (by decide),
    (captureLoop_discards [] [0x00, 0xd8, 0xff, 0xe0, 1, 2, 3, 4, 0xff, 0xd9] 10 []
      (by decide) (by decide) (by decide) (Or.inl (by decide))).2.2.2.1⟩

/-! ### Decoders and the fields of the status view -/

/-- C21: for every input value `v`, `ParseGcodeState` returns `v` itself when
`v` is one of the six strings `IDLE`, `PREPARE`, `RUNNING`, `PAUSE`, `FINISH`,
`FAILED`, and `"UNKNOWN"` for every other string and for every value that is
no string; it has no error result. -/
theorem ParseGcodeState_total (v : Any) :
    ParseGcodeState v =
      match v with
      | .str s => if s ∈ knownGcodeStates then s else "UNKNOWN"
      | _ => "UNKNOWN" := by
  cases v with
  | str s =>
    simp only [ParseGcodeState, Any.asString, knownGcodeStates, List.mem_cons,
      List.mem_singleton, List.not_mem_nil, or_false]
    by_cases h1 : s = "IDLE"
    · simp [h1]
    by_cases h2 : s = "PREPARE"
    · simp [h2]
    by_cases h3 : s = "RUNNING"
    · simp [h3]
    by_cases h4 : s = "PAUSE"
    · simp [h4]
    by_cases h5 : s = "FINISH"
    · simp [h5]
    by_cases h6 : s = "FAILED"
    · simp [h6]
    simp [h1, h2, h3, h4, h5, h6]
  | nil => rfl
  | bool b => rfl
  | int n => rfl
  | int64 n => rfl
  | float64 x => rfl
  | jsonNumber t => rfl
  | intSlice xs => rfl
  | slice xs => rfl
  | map kvs => rfl

/-- C25: for every device-state document, `Light` of `GetStatus` is the string
under `"mode"` in the first element of the sequence `print.lights_report` when
that field is a non-empty sequence, its first element is a mapping and the
`"mode"` of this mapping is a string; it is `"unknown"` in every other
case. -/
theorem GetStatus_Light (sprintV : Any → String) (c : MQTTClient) :
    (GetStatus sprintV c).Light =
      match c.Get ["print", "lights_report"] with
      | some (.slice (.map first :: _)) =>
        (match mapGet first "mode" with
          | some (.str mode) => mode
          | _ => "unknown")
      | _ => "unknown" := by
  show lightState c = _
  unfold lightState
  cases hg : c.Get ["print", "lights_report"] with
  | none => rfl
  | some v =>
    cases v with
    | slice xs =>
      cases xs with
      | nil => rfl
      | cons arr0 rest =>
        cases arr0 with
        | map first =>
          simp only [Any.asSlice, Any.asMap]
          cases hm : mapGet first "mode" with
          | none => rfl
          | some w => cases w <;> rfl
        | nil => rfl
        | bool b => rfl
        | str s => rfl
        | int n => rfl
        | int64 n => rfl
        | float64 x => rfl
        | jsonNumber t => rfl
        | intSlice ys => rfl
        | slice ys => rfl
    | nil => rfl
    | bool b => rfl
    | str s => rfl
    | int n => rfl
    | int64 n => rfl
    | float64 x => rfl
    | jsonNumber t => rfl
    | intSlice ys => rfl
    | map kvs => rfl

/-- C26: for every device-state document in which `print.stg_cur` is present
with the value `v`: when `ParsePrintStatus v` is an error, `GetStatus` sets
`PrintStatus` to `"UNKNOWN"` (it returns a `Status`, the error is not
propagated); when `ParsePrintStatus v` is the code `ps`, `PrintStatus` is
`ps.String()`. -/
theorem GetStatus_PrintStatus (sprintV : Any → String) (c : MQTTClient) (v : Any)
    (h : c.Get ["print", "stg_cur"] = some v) :
    (∀ e, ParsePrintStatus v = .error e → (GetStatus sprintV c).PrintStatus = "UNKNOWN") ∧
    (∀ ps, ParsePrintStatus v = .ok ps →
      (GetStatus sprintV c).PrintStatus = PrintStatus.String ps) := by
  constructor
  · intro e he
    simp only [GetStatus, h, he]
  · intro ps hps
    simp only [GetStatus, h, hps]

/-- The status of `{print:{stg_cur:"x"}}` is `UNKNOWN`, the one of
`{print:{stg_cur:16}}` is `PAUSED_USER`. -/
theorem GetStatus_PrintStatus_witness :
    (GetStatus (fun _ => "")
      (MQTTClient.mk [("print", .map [("stg_cur", .str "x")])] true)).PrintStatus = "UNKNOWN" ∧
    (GetStatus (fun _ => "")
      (MQTTClient.mk [("print", .map [("stg_cur", .jsonNumber "16")])] true)).PrintStatus =
        PrintStatus.String 16 :=
  ⟨(GetStatus_PrintStatus (fun _ => "")
      (MQTTClient.mk [("print", .map [("stg_cur", .str "x")])] true) (.str "x") rfl).1
      .unsupportedStatusType rfl,
    (GetStatus_PrintStatus (fun _ => "")
      (MQTTClient.mk [("print", .map [("stg_cur", .jsonNumber "16")])] true)
      (.jsonNumber "16") rfl).2 16 rfl⟩

theorem mem_knownPrintStatusCodes (c : Int) :
    c ∈ knownPrintStatusCodes ↔ (0 ≤ c ∧ c ≤ 35) ∨ c = 255 := by
  simp only [knownPrintStatusCodes, List.mem_append, List.mem_map, List.mem_range,
    List.mem_singleton]
  constructor
  · rintro (⟨n, hn, rfl⟩ | h)
    · left
      simp only [Int.ofNat_eq_coe]
      omega
    · exact Or.inr h
  · rintro (⟨h0, h1⟩ | h)
    · left
      refine ⟨c.toNat, by omega, ?_⟩
      simp only [Int.ofNat_eq_coe]
      omega
    · exact Or.inr h

theorem String_injOn_of_nodup (l : List Int) (h : (l.map PrintStatus.String).Nodup)
    (c1 c2 : Int) (h1 : c1 ∈ l) (h2 : c2 ∈ l)
    (he : PrintStatus.String c1 = PrintStatus.String c2) : c1 = c2 :=
  List.inj_on_of_nodup_map h h1 h2 he

set_option maxRecDepth 100000 in
theorem knownNames_nodup : (knownPrintStatusCodes.map PrintStatus.String).Nodup := by
  decide

set_option maxRecDepth 100000 in
theorem unknown_not_known : "UNKNOWN" ∉ knownPrintStatusCodes.map PrintStatus.String := by
  decide

/-- C30: the table of print-status names is unambiguous. For all codes `c1`
and `c2` in `{0..35, 255}`, equal names imply `c1 = c2`; and the name of a code
`c` is `"UNKNOWN"` if and only if `c` is outside `{0..35, 255}`. -/
theorem PrintStatus_String_unambiguous :
    (∀ c1 c2 : Int, ((0 ≤ c1 ∧ c1 ≤ 35) ∨ c1 = 255) → ((0 ≤ c2 ∧ c2 ≤ 35) ∨ c2 = 255) →
      PrintStatus.String c1 = PrintStatus.String c2 → c1 = c2) ∧
    (∀ c : Int, PrintStatus.String c = "UNKNOWN" ↔ ¬ ((0 ≤ c ∧ c ≤ 35) ∨ c = 255)) := by
  constructor
  · intro c1 c2 h1 h2 he
    exact String_injOn_of_nodup _ knownNames_nodup c1 c2
      ((mem_knownPrintStatusCodes c1).mpr h1) ((mem_knownPrintStatusCodes c2).mpr h2) he
  · intro c
    constructor
    · intro hu hk
      apply unknown_not_known
      rw [← hu]
      exact List.mem_map.mpr ⟨c, (mem_knownPrintStatusCodes c).mpr hk, rfl⟩
    · intro hk
      have h255 : ¬ c = 255 := fun e => hk (Or.inr e)
      have hn : printStatusName printStatusNames c = none :=
        printStatusName_none c (by omega)
      simp [PrintStatus.String, PrintStatusIdle, h255, hn]

/-- The codes 16 and 255 have different names, and the name of 36 is
`UNKNOWN`. -/
theorem PrintStatus_String_unambiguous_witness :
    (PrintStatus.String 16 = PrintStatus.String 255 → (16 : Int) = 255) ∧
    PrintStatus.String 36 = "UNKNOWN" :=
  ⟨PrintStatus_String_unambiguous.1 16 255 (Or.inl (by decide)) (Or.inr rfl),
    (PrintStatus_String_unambiguous.2 36).mpr (by decide)⟩

/-! ### The header of a camera frame -/

theorem or_shift_eq_add (a b c : Nat) (ha : a < 256) (hb : b < 256) :
    a ||| (b <<< 8) ||| (c <<< 16) = a + 256 * b + 65536 * c := by
  have hb8 : b <<< 8 = 2 ^ 8 * b := by
    rw [Nat.shiftLeft_eq, Nat.mul_comm]
  have hc16 : c <<< 16 = 2 ^ 16 * c := by
    rw [Nat.shiftLeft_eq, Nat.mul_comm]
  have h1 : 2 ^ 8 * b ||| a = 2 ^ 8 * b + a :=
    (Nat.mul_add_lt_is_or (by omega) b).symm
  have hlt : 2 ^ 8 * b + a < 2 ^ 16 := by omega
  have h2 : 2 ^ 16 * c ||| (2 ^ 8 * b + a) = 2 ^ 16 * c + (2 ^ 8 * b + a) :=
    (Nat.mul_add_lt_is_or hlt c).symm
  rw [hb8, hc16, Nat.lor_comm a (2 ^ 8 * b), h1, Nat.lor_comm, h2]
  omega

theorem headerLength_eq (b0 b1 b2 : UInt8) (tl : List UInt8) :
    headerLength (b0 :: b1 :: b2 :: tl) = b0.toNat + 256 * b1.toNat + 65536 * b2.toNat := by
  have e : headerLength (b0 :: b1 :: b2 :: tl) =
      b0.toNat ||| (b1.toNat <<< 8) ||| (b2.toNat <<< 16) := rfl
  rw [e]
  exact or_shift_eq_add _ _ _ (UInt8.toNat_lt b0) (UInt8.toNat_lt b1)

/-- C27: while the capture loop awaits a header (no buffer, no target length),
a read of exactly 16 bytes `b0 … b15` declares the length
`b0 + 256*b1 + 65536*b2`, whatever the bytes 3 to 15 are; when that length is
greater than 0 the loop goes on accumulating for it with an empty buffer, and
when it is 0 the state is unchanged. A read of any other size, zero bytes
included, leaves the state unchanged. -/
theorem captureLoop_awaiting (chunk : List UInt8) (rest : List ReadResult) :
    (∀ (b0 b1 b2 : UInt8) (tl : List UInt8), chunk = b0 :: b1 :: b2 :: tl → tl.length = 13 →
      headerLength chunk = b0.toNat + 256 * b1.toNat + 65536 * b2.toNat ∧
      (b0.toNat + 256 * b1.toNat + 65536 * b2.toNat > 0 →
        captureLoop none 0 (.data chunk :: rest) =
          captureLoop (some []) (b0.toNat + 256 * b1.toNat + 65536 * b2.toNat) rest) ∧
      (b0.toNat + 256 * b1.toNat + 65536 * b2.toNat = 0 →
        captureLoop none 0 (.data chunk :: rest) = captureLoop none 0 rest)) ∧
    (chunk.length ≠ 16 →
      captureLoop none 0 (.data chunk :: rest) = captureLoop none 0 rest) := by
  constructor
  · intro b0 b1 b2 tl hc htl
    subst hc
    have hL := headerLength_eq b0 b1 b2 tl
    have h16 : (b0 :: b1 :: b2 :: tl).length = 16 := by
      simp only [List.length_cons, htl]
    refine ⟨hL, ?_, ?_⟩
    · intro hp
      rw [← hL]
      exact captureLoop_header _ rest h16 (by rw [hL]; exact hp)
    · intro h0
      have hz : ¬ (b0 :: b1 :: b2 :: tl).length = 0 := by rw [h16]; decide
      have hnp : ¬ headerLength (b0 :: b1 :: b2 :: tl) > 0 := by rw [hL, h0]; decide
      simp only [captureLoop]
      rw [if_neg hz, if_pos h16, if_neg hnp, hL, h0]
  · intro hne
    simp only [captureLoop]
    by_cases hz : chunk.length = 0
    · rw [if_pos hz]
    · rw [if_neg hz, if_neg hne]

/-- The three cases at a header declaring 66051 bytes, at a header declaring
0 bytes and at a read of 3 bytes. -/
theorem captureLoop_awaiting_witness :
    captureLoop none 0 [.data [3, 2, 1, 9, 9, 9, 9, 9, 9, 9, 9, 9, 9, 9, 9, 9]] =
      captureLoop (some []) ((3 : UInt8).toNat + 256 * (2 : UInt8).toNat +
        65536 * (1 : UInt8).toNat) [] ∧
    captureLoop none 0 [.data [0, 0, 0, 9, 9, 9, 9, 9, 9, 9, 9, 9, 9, 9, 9, 9]] =
      captureLoop none 0 [] ∧
    captureLoop none 0 [.data [1, 2, 3]] = captureLoop none 0 [] :=
  ⟨((captureLoop_awaiting [3, 2, 1, 9, 9, 9, 9, 9, 9, 9, 9, 9, 9, 9, 9, 9] []).1 3 2 1
      [9, 9, 9, 9, 9, 9, 9, 9, 9, 9, 9, 9, 9] rfl rfl).2.1 (by decide),
    ((captureLoop_awaiting [0, 0, 0, 9, 9, 9, 9, 9, 9, 9, 9, 9, 9, 9, 9, 9] []).1 0 0 0
      [9, 9, 9, 9, 9, 9, 9, 9, 9, 9, 9, 9, 9] rfl rfl).2.2 (by decide),
    (captureLoop_awaiting [1, 2, 3] []).2 (by decide)⟩

/-! ### What the gcode validator lets through -/

theorem splitFieldsLoop_no_sep (s : List Char) (cur : List Char)
    (h : ∀ c ∈ s, ¬ (c = ' ' ∨ c = '\t')) :
    splitFieldsLoop s (some cur) [] = [cur ++ s] := by
  induction s generalizing cur with
  | nil => simp [splitFieldsLoop]
  | cons r rs ih =>
    have hr : ¬ (r = ' ' ∨ r = '\t') := h r (List.mem_cons_self _ _)
    simp only [splitFieldsLoop, if_neg hr]
    rw [ih (cur ++ [r]) (fun c hc => h c (List.mem_cons_of_mem _ hc))]
    simp

/-- C28, the claim as stated fails at its second example: the line
`G1\nnot gcode` holds a space, its second token is `gcode`, which is no
parameter, and `ValidateGcodeLine` rejects the line. -/
theorem ValidateGcodeLine_newline_example :
    ValidateGcodeLine "G1\nnot gcode" = false ∧
    splitFields (stripComment "G1\nnot gcode".toList) = ["G1\nnot".toList, "gcode".toList] ∧
    matchWhole gcodeParam "gcode".toList = false := by
  refine ⟨?_, ?_, ?_⟩ <;> decide

/-- C28, amended: `ValidateGcodeLine` checks the first token only for its
beginning, `G` or `M` and digits, and separates tokens only at space and tab:
for every string `t` with no space, no tab and no `;`,
`ValidateGcodeLine("G1" ++ t)` is true, so `G1foo` and `G1\nnotgcode` (an
interior line feed followed by text without space and tab) are accepted. -/
theorem ValidateGcodeLine_accepts_single_token (t : String)
    (h : ∀ c ∈ t.toList, c ≠ ' ' ∧ c ≠ '\t' ∧ c ≠ ';') :
    ValidateGcodeLine ("G1" ++ t) = true ∧
    ValidateGcodeLine "G1foo" = true ∧
    ValidateGcodeLine "G1\nnotgcode" = true := by
  refine ⟨?_, by decide, by decide⟩
  have e : ("G1" ++ t).toList = 'G' :: '1' :: t.toList := by
    simp [String.toList]
  have hsemi : ∀ x ∈ ('G' :: '1' :: t.toList), (fun r => decide (r ≠ ';')) x = true := by
    intro x hx
    simp only [List.mem_cons] at hx
    rcases hx with rfl | rfl | hx
    · decide
    · decide
    · simpa using (h x hx).2.2
  have hstrip : stripComment ('G' :: '1' :: t.toList) =
      'G' :: '1' :: (t.toList.rdropWhile isTrimmed) := by
    unfold stripComment
    rw [List.takeWhile_eq_self_iff.mpr hsemi]
    unfold trimSpace
    have hd : List.dropWhile isTrimmed ('G' :: '1' :: t.toList) = 'G' :: '1' :: t.toList := by
      simp [List.dropWhile, isTrimmed]
    rw [hd]
    have hcons : ∀ (l : List Char) (a : Char), isTrimmed a = false →
        (a :: l).rdropWhile isTrimmed = a :: l.rdropWhile isTrimmed := by
      intro l a ha
      induction l using List.reverseRecOn with
      | nil => simp [List.rdropWhile, List.dropWhile, ha]
      | append_singleton l x ih =>
        by_cases hx : isTrimmed x = true
        · rw [← List.cons_append, List.rdropWhile_concat_pos _ _ _ hx,
            List.rdropWhile_concat_pos _ _ _ hx, ih]
        · rw [← List.cons_append, List.rdropWhile_concat_neg _ _ _ hx,
            List.rdropWhile_concat_neg _ _ _ hx, List.cons_append]
    rw [hcons _ 'G' (by decide), hcons _ '1' (by decide)]
  have hsub : ∀ c ∈ t.toList.rdropWhile isTrimmed, ¬ (c = ' ' ∨ c = '\t') := by
    intro c hc
    have hmem : c ∈ t.toList := (List.rdropWhile_prefix isTrimmed t.toList).subset hc
    have := h c hmem
    rintro (h1 | h1)
    · exact this.1 h1
    · exact this.2.1 h1
  have hfields : splitFields ('G' :: '1' :: t.toList.rdropWhile isTrimmed) =
      ['G' :: '1' :: t.toList.rdropWhile isTrimmed] := by
    have h1 : splitFields ('G' :: '1' :: t.toList.rdropWhile isTrimmed) =
        splitFieldsLoop ('1' :: t.toList.rdropWhile isTrimmed) (some ['G']) [] := by
      simp [splitFields, splitFieldsLoop]
    rw [h1, splitFieldsLoop_no_sep _ ['G']]
    · rfl
    · intro c hc
      rcases List.mem_cons.mp hc with rfl | hc
      · decide
      · exact hsub c hc
  have hhead : matchStart gcodeHead ('G' :: '1' :: t.toList.rdropWhile isTrimmed) = true :=
    (matchStart_gcodeHead_iff _).mpr ⟨'G', '1', _, rfl, Or.inl rfl, by decide⟩
  unfold ValidateGcodeLine
  rw [e, hstrip]
  simp only [hhead, hfields]
  simp

/-- The acceptance at the tail `foo\r`. -/
theorem ValidateGcodeLine_accepts_single_token_witness :
    ValidateGcodeLine ("G1" ++ "foo\r") = true :=
  (ValidateGcodeLine_accepts_single_token "foo\r" (by decide)).1

/-! ### The numeric fields of the status view -/

theorem asInt_jsonNumber_ok (t : String) (z : Int) (h : IsInt64Text t z) :
    asInt (.jsonNumber t) = some z := by
  simp only [asInt, jsonNumberInt64, (ParseInt_ok_iff t z).mpr h]

theorem asInt_jsonNumber_none (t : String) (h : ¬ ∃ z, IsInt64Text t z) :
    asInt (.jsonNumber t) = none := by
  simp only [asInt, jsonNumberInt64]
  cases hp : ParseInt t with
  | error e => rfl
  | ok z => exact absurd ⟨z, (ParseInt_ok_iff t z).mp hp⟩ h

theorem asInt_not_numeric (v : Any) (h : v.isNumeric = false) : asInt v = none := by
  cases v <;> first | rfl | simp [Any.isNumeric] at h

theorem optIntFieldOf_bind_asInt (r : Option Any) : OptIntFieldOf r (r.bind asInt) := by
  refine ⟨?_, ?_, ?_, ?_, ?_, ?_⟩
  · intro h; subst h; rfl
  · intro v h hv; subst h; exact asInt_not_numeric v hv
  · intro n h
    rcases h with h | h <;> subst h <;> rfl
  · intro q h; subst h; rfl
  · intro t z h hz; subst h; exact asInt_jsonNumber_ok t z hz
  · intro t h hz; subst h; exact asInt_jsonNumber_none t hz

theorem intFieldOf_intValue (r : Option Any) : IntFieldOf r (intValue r) := by
  have e : intValue r = (r.bind asInt).getD 0 := by
    cases r with
    | none => rfl
    | some v =>
      simp only [intValue, Option.bind]
      cases asInt v <;> rfl
  obtain ⟨h1, h2, h3, h4, h5, h6⟩ := optIntFieldOf_bind_asInt r
  rw [e]
  refine ⟨?_, ?_, ?_, ?_, ?_, ?_⟩
  · intro h; rw [h1 h]; rfl
  · intro v h hv; rw [h2 v h hv]; rfl
  · intro n h; rw [h3 n h]; rfl
  · intro q h; rw [h4 q h]; rfl
  · intro t z h hz; rw [h5 t z h hz]; rfl
  · intro t h hz; rw [h6 t h hz]; rfl

theorem float64OfInt_exact (n : Int) (h : n.natAbs < 2 ^ 53) : float64OfInt n = (n : ℚ) := by
  have hs : Nat.size n.natAbs - 53 = 0 := by
    have : Nat.size n.natAbs ≤ 53 := Nat.size_le.mpr h
    omega
  unfold float64OfInt
  simp only [hs, pow_zero, Nat.div_one, Nat.mod_one, Nat.mul_zero, Nat.mul_one]
  have hq : ¬ ((0 : Nat) > 1 ∨ ((0 : Nat) = 1 ∧ n.natAbs % 2 = 1)) := by omega
  rw [if_neg hq]
  by_cases hn : n < 0
  · rw [if_pos hn]
    have e : n = -(n.natAbs : Int) := by omega
    generalize n.natAbs = m at e
    subst e
    push_cast
    rfl
  · rw [if_neg hn]
    have e : n = (n.natAbs : Int) := by omega
    generalize n.natAbs = m at e
    subst e
    push_cast
    rfl

/-- The cases of `asInt` at `RemainingMinutes`, on every value of the state,
those that no message produces included: `GetStatus` sets `RemainingMinutes`
only when `print.mc_remaining_time` is present and is an `int` or `int64`
(then to that integer), a `json.Number` whose text is a decimal integer
literal of the signed 64-bit range (then to that integer), or a `float64`
(then to its integer part, truncated toward zero); in every other case the
field is omitted. -/
theorem GetStatus_RemainingMinutes (sprintV : Any → String) (c : MQTTClient) :
    OptIntFieldOf (c.Get ["print", "mc_remaining_time"])
      (GetStatus sprintV c).RemainingMinutes := by
  have e : (GetStatus sprintV c).RemainingMinutes =
      (c.Get ["print", "mc_remaining_time"]).bind asInt := by
    show (match c.Get ["print", "mc_remaining_time"] with
      | some v => asInt v
      | none => none) = _
    cases c.Get ["print", "mc_remaining_time"] <;> rfl
  rw [e]
  exact optIntFieldOf_bind_asInt _

/-- The field at `{print:{mc_remaining_time:42}}`, at a text with a fraction
and at a document without the field. -/
theorem GetStatus_RemainingMinutes_witness :
    (GetStatus (fun _ => "")
      (MQTTClient.mk [("print", .map [("mc_remaining_time", .jsonNumber "42")])]
        true)).RemainingMinutes = some 42 ∧
    (GetStatus (fun _ => "") (MQTTClient.mk [] true)).RemainingMinutes = none :=
  ⟨(GetStatus_RemainingMinutes (fun _ => "")
      (MQTTClient.mk [("print", .map [("mc_remaining_time", .jsonNumber "42")])] true)).2.2.2.2.1
      "42" 42 rfl
      ⟨['4', '2'], by decide, by decide, Or.inl ⟨Or.inl rfl, by decide, by decide⟩⟩,
    (GetStatus_RemainingMinutes (fun _ => "") (MQTTClient.mk [] true)).1 rfl⟩

/-! ### The states that messages produce -/

theorem decoded_mapSet (m : GoMap) (k : String) (v : Any)
    (hm : ∀ kv ∈ m, Decoded kv.2) (hv : Decoded v) : ∀ kv ∈ mapSet m k v, Decoded kv.2 := by
  intro kv hkv
  rcases mem_mapSet m k v kv hkv with h | h
  · exact hm kv h
  · subst h
    exact hv

theorem decoded_mergeInto (vMap existingMap : GoMap)
    (he : ∀ kv ∈ existingMap, Decoded kv.2) (hv : ∀ kv ∈ vMap, Decoded kv.2) :
    ∀ kv ∈ mergeInto existingMap vMap, Decoded kv.2 := by
  induction vMap generalizing existingMap with
  | nil => exact he
  | cons hd tl ih =>
    have step : mergeInto existingMap (hd :: tl) = mergeInto (mapSet existingMap hd.1 hd.2) tl :=
      rfl
    rw [step]
    exact ih _ (decoded_mapSet existingMap hd.1 hd.2 he (hv hd (List.mem_cons_self _ _)))
      (fun kv hkv => hv kv (List.mem_cons_of_mem _ hkv))

theorem decoded_of_map (kvs : GoMap) (h : Decoded (.map kvs)) : ∀ kv ∈ kvs, Decoded kv.2 := by
  cases h with
  | map _ hk => exact hk

theorem decoded_ingestEntry (data : GoMap) (k : String) (v : Any)
    (hd : ∀ kv ∈ data, Decoded kv.2) (hv : Decoded v) :
    ∀ kv ∈ ingestEntry data k v, Decoded kv.2 := by
  unfold ingestEntry
  split
  · rename_i existing vMap hg hva
    split
    · rename_i existingMap hea
      have hvm : v = .map vMap := by
        cases v <;> simp [Any.asMap] at hva
        rw [hva]
      have hem : existing = .map existingMap := by
        cases existing <;> simp [Any.asMap] at hea
        rw [hea]
      subst hvm
      subst hem
      have he : Decoded (.map existingMap) :=
        hd (k, .map existingMap) (mem_of_mapGet data k _ hg)
      exact decoded_mapSet data k _ hd
        (Decoded.map _ (decoded_mergeInto vMap existingMap (decoded_of_map _ he)
          (decoded_of_map _ hv)))
    · exact decoded_mapSet data k v hd hv
  · exact decoded_mapSet data k v hd hv

theorem decoded_ingest (doc data : GoMap) (hd : ∀ kv ∈ data, Decoded kv.2)
    (hdoc : ∀ kv ∈ doc, Decoded kv.2) :
    ∀ kv ∈ doc.foldl (fun d kv => ingestEntry d kv.1 kv.2) data, Decoded kv.2 := by
  induction doc generalizing data with
  | nil => exact hd
  | cons hd' tl ih =>
    simp only [List.foldl_cons]
    exact ih _ (decoded_ingestEntry data hd'.1 hd'.2 hd (hdoc hd' (List.mem_cons_self _ _)))
      (fun kv hkv => hdoc kv (List.mem_cons_of_mem _ hkv))

theorem decoded_afterAll (calls : List Call) (m : MQTTClient)
    (hm : Decoded (.map m.data)) (hc : ∀ c ∈ calls, c.IsDecoded) :
    Decoded (.map (m.afterAll calls).data) := by
  induction calls generalizing m with
  | nil => exact hm
  | cons c cs ih =>
    show Decoded (.map ((m.after c).afterAll cs).data)
    apply ih _ _ (fun c' hc' => hc c' (List.mem_cons_of_mem _ hc'))
    have hcd := hc c (List.mem_cons_self _ _)
    cases c with
    | onMessage payload =>
      cases payload with
      | none => exact hm
      | some doc =>
        exact Decoded.map _ (decoded_ingest doc m.data (decoded_of_map _ hm)
          (decoded_of_map _ hcd))
    | get path => exact hm
    | snapshot => exact hm

theorem decoded_getFrom (path : List String) (cur v : Any) (hc : Decoded cur)
    (h : getFrom cur path = some v) : Decoded v := by
  induction path generalizing cur with
  | nil =>
    simp only [getFrom, Option.some.injEq] at h
    subst h
    exact hc
  | cons p rest ih =>
    unfold getFrom at h
    cases hm : cur.asMap with
    | none => simp [hm] at h
    | some mMap =>
      have hcm : cur = .map mMap := by
        cases cur <;> simp [Any.asMap] at hm
        rw [hm]
      subst hcm
      cases hg : mapGet mMap p with
      | none => simp [hm, hg] at h
      | some next =>
        simp only [hm, hg] at h
        exact ih next (decoded_of_map _ hc (p, next) (mem_of_mapGet mMap p next hg)) h

theorem asInt_decoded (v : Any) (hv : Decoded v) :
    asInt v = match v with
      | .jsonNumber t =>
        (match ParseInt t with
          | .ok z => some z
          | .error _ => none)
      | _ => none := by
  cases hv with
  | jsonNumber t =>
    simp only [asInt, jsonNumberInt64]
    cases ParseInt t <;> rfl
  | nil => rfl
  | bool b => rfl
  | str s => rfl
  | slice xs h => rfl
  | map kvs h => rfl

/-- C22: in every device-state document, the state after any sequence of
calls on a new aggregator whose messages are payloads as `onMessage` decodes
them, `GetStatus` sets `RemainingMinutes` only when `print.mc_remaining_time`
is present and parses cleanly as an integer, a `json.Number` whose text is a
decimal integer literal of the signed 64-bit range, and then to that integer;
in every other case (the field is missing, is no number, or is a number whose
text is no such literal) the field is omitted, not set to zero. -/
theorem GetStatus_RemainingMinutes_decoded (sprintV : Any → String) (calls : List Call)
    (hcalls : ∀ c ∈ calls, c.IsDecoded) :
    (∀ t z, (NewMQTTClient.afterAll calls).Get ["print", "mc_remaining_time"] =
        some (.jsonNumber t) → IsInt64Text t z →
      (GetStatus sprintV (NewMQTTClient.afterAll calls)).RemainingMinutes = some z) ∧
    ((NewMQTTClient.afterAll calls).Get ["print", "mc_remaining_time"] = none →
      (GetStatus sprintV (NewMQTTClient.afterAll calls)).RemainingMinutes = none) ∧
    (∀ v, (NewMQTTClient.afterAll calls).Get ["print", "mc_remaining_time"] = some v →
      (¬ ∃ t z, v = .jsonNumber t ∧ IsInt64Text t z) →
      (GetStatus sprintV (NewMQTTClient.afterAll calls)).RemainingMinutes = none) ∧
    (∀ z, (GetStatus sprintV (NewMQTTClient.afterAll calls)).RemainingMinutes = some z →
      ∃ t, (NewMQTTClient.afterAll calls).Get ["print", "mc_remaining_time"] =
        some (.jsonNumber t) ∧ IsInt64Text t z) := by
  have hdec : Decoded (.map (NewMQTTClient.afterAll calls).data) :=
    decoded_afterAll calls NewMQTTClient (Decoded.map _ (fun kv hkv => by cases hkv)) hcalls
  generalize NewMQTTClient.afterAll calls = c at hdec ⊢
  have e : (GetStatus sprintV c).RemainingMinutes =
      (c.Get ["print", "mc_remaining_time"]).bind asInt := by
    show (match c.Get ["print", "mc_remaining_time"] with
      | some v => asInt v
      | none => none) = _
    cases c.Get ["print", "mc_remaining_time"] <;> rfl
  rw [e]
  refine ⟨?_, ?_, ?_, ?_⟩
  · intro t z hg hz
    rw [hg]
    exact asInt_jsonNumber_ok t z hz
  · intro hg
    rw [hg]
    rfl
  · intro v hg hno
    rw [hg]
    have hv : Decoded v := decoded_getFrom _ _ v hdec hg
    show asInt v = none
    rw [asInt_decoded v hv]
    cases v with
    | jsonNumber t =>
      simp only
      cases hp : ParseInt t with
      | error err => rfl
      | ok z => exact absurd ⟨t, z, rfl, (ParseInt_ok_iff t z).mp hp⟩ hno
    | nil => rfl
    | bool b => rfl
    | str s => rfl
    | int n => rfl
    | int64 n => rfl
    | float64 x => rfl
    | intSlice xs => rfl
    | slice xs => rfl
    | map kvs => rfl
  · intro z hz
    cases hg : c.Get ["print", "mc_remaining_time"] with
    | none => rw [hg] at hz; cases hz
    | some v =>
      rw [hg] at hz
      have hv : Decoded v := decoded_getFrom _ _ v hdec hg
      have hz' : asInt v = some z := hz
      rw [asInt_decoded v hv] at hz'
      cases v with
      | jsonNumber t =>
        simp only at hz'
        cases hp : ParseInt t with
        | error err => rw [hp] at hz'; cases hz'
        | ok z' =>
          rw [hp] at hz'
          simp only [Option.some.injEq] at hz'
          subst hz'
          exact ⟨t, rfl, (ParseInt_ok_iff t z').mp hp⟩
      | nil => cases hz'
      | bool b => cases hz'
      | str s => cases hz'
      | int n => cases hz'
      | int64 n => cases hz'
      | float64 x => cases hz'
      | intSlice xs => cases hz'
      | slice xs => cases hz'
      | map kvs => cases hz'

/-- The field after the messages `{print:{mc_remaining_time:42}}` and, in a
second run, `{print:{mc_remaining_time:12.7}}`: 42, and omitted. -/
theorem GetStatus_RemainingMinutes_decoded_witness :
    (GetStatus (fun _ => "") (NewMQTTClient.afterAll
      [.onMessage (some [("print", .map [("mc_remaining_time", .jsonNumber "42")])])])
      ).RemainingMinutes = some 42 ∧
    (GetStatus (fun _ => "") (NewMQTTClient.afterAll
      [.onMessage (some [("print", .map [("mc_remaining_time", .jsonNumber "12.7")])])])
      ).RemainingMinutes = none :=
  ⟨(GetStatus_RemainingMinutes_decoded (fun _ => "")
      [.onMessage (some [("print", .map [("mc_remaining_time", .jsonNumber "42")])])]
      (by
        intro c hc
        simp only [List.mem_singleton] at hc
        subst hc
        refine Decoded.map _ (fun kv hkv => ?_)
        simp only [List.mem_singleton] at hkv
        subst hkv
        refine Decoded.map _ (fun kv hkv => ?_)
        simp only [List.mem_singleton] at hkv
        subst hkv
        exact Decoded.jsonNumber _)).1 "42" 42 rfl
      ⟨['4', '2'], by decide, by decide, Or.inl ⟨Or.inl rfl, by decide, by decide⟩⟩,
    (GetStatus_RemainingMinutes_decoded (fun _ => "")
      [.onMessage (some [("print", .map [("mc_remaining_time", .jsonNumber "12.7")])])]
      (by
        intro c hc
        simp only [List.mem_singleton] at hc
        subst hc
        refine Decoded.map _ (fun kv hkv => ?_)
        simp only [List.mem_singleton] at hkv
        subst hkv
        refine Decoded.map _ (fun kv hkv => ?_)
        simp only [List.mem_singleton] at hkv
        subst hkv
        exact Decoded.jsonNumber _)).2.2.1 (.jsonNumber "12.7") rfl
      (by
        rintro ⟨t, z, ht, hz⟩
        cases ht
        have h := (ParseInt_ok_iff "12.7" z).mpr hz
        have h2 : ParseInt "12.7" = .error .invalidText := rfl
        rw [h2] at h
        cases h)⟩

/-- C23, the claim as stated fails: the `json.Number` texts `1e2` and `12.5`
are numbers (100 and 12.5), but as `print.mc_percent`, `print.layer_num`,
`print.total_layer_num` and `print.print_error` they give 0, not the integer
value of the field. -/
theorem GetStatus_int_fields_exponent :
    jsonNumberValue "1e2" = some 100 ∧
    (GetStatus (fun _ => "")
      { data := [("print", .map [("mc_percent", .jsonNumber "1e2"),
          ("layer_num", .jsonNumber "1e2"), ("total_layer_num", .jsonNumber "12.5"),
          ("print_error", .jsonNumber "1e2")])], ready := true }).Percent = 0 ∧
    (GetStatus (fun _ => "")
      { data := [("print", .map [("mc_percent", .jsonNumber "1e2"),
          ("layer_num", .jsonNumber "1e2"), ("total_layer_num", .jsonNumber "12.5"),
          ("print_error", .jsonNumber "1e2")])], ready := true }).LayerCurrent = 0 ∧
    (GetStatus (fun _ => "")
      { data := [("print", .map [("mc_percent", .jsonNumber "1e2"),
          ("layer_num", .jsonNumber "1e2"), ("total_layer_num", .jsonNumber "12.5"),
          ("print_error", .jsonNumber "1e2")])], ready := true }).LayerTotal = 0 ∧
    (GetStatus (fun _ => "")
      { data := [("print", .map [("mc_percent", .jsonNumber "1e2"),
          ("layer_num", .jsonNumber "1e2"), ("total_layer_num", .jsonNumber "12.5"),
          ("print_error", .jsonNumber "1e2")])], ready := true }).ErrorCode = 0 := by
  refine ⟨?_, rfl, rfl, rfl, rfl⟩
  have h : jsonNumberParts "1e2" = some (1, 2) := by decide
  simp only [jsonNumberValue, h, Option.map_some', Option.some.injEq]
  norm_num

/-- C23, amended: for every device-state document, `GetStatus` returns a
`Status` in which `Percent`, `LayerCurrent`, `LayerTotal` and `ErrorCode` are
each: the value of the source field (`print.mc_percent`, `print.layer_num`,
`print.total_layer_num`, `print.print_error`) when it is an `int` or `int64`,
or a `json.Number` whose text is a decimal integer literal of the signed 64-bit
range; the integer part (truncated toward zero) when it is a `float64`; and 0
when the field is missing, of a non-numeric type, or a `json.Number` with
another text. -/
theorem GetStatus_int_fields (sprintV : Any → String) (c : MQTTClient) :
    IntFieldOf (c.Get ["print", "mc_percent"]) (GetStatus sprintV c).Percent ∧
    IntFieldOf (c.Get ["print", "layer_num"]) (GetStatus sprintV c).LayerCurrent ∧
    IntFieldOf (c.Get ["print", "total_layer_num"]) (GetStatus sprintV c).LayerTotal ∧
    IntFieldOf (c.Get ["print", "print_error"]) (GetStatus sprintV c).ErrorCode :=
  ⟨intFieldOf_intValue _, intFieldOf_intValue _, intFieldOf_intValue _, intFieldOf_intValue _⟩

/-- The four fields at `{print:{mc_percent:42}}`: 42 and three times 0. -/
theorem GetStatus_int_fields_witness :
    (GetStatus (fun _ => "")
      (MQTTClient.mk [("print", .map [("mc_percent", .jsonNumber "42")])] true)).Percent = 42 ∧
    (GetStatus (fun _ => "")
      (MQTTClient.mk [("print", .map [("mc_percent", .jsonNumber "42")])] true)).LayerTotal =
        0 :=
  ⟨(GetStatus_int_fields (fun _ => "")
      (MQTTClient.mk [("print", .map [("mc_percent", .jsonNumber "42")])] true)).1.2.2.2.2.1
      "42" 42 rfl
      ⟨['4', '2'], by decide, by decide, Or.inl ⟨Or.inl rfl, by decide, by decide⟩⟩,
    (GetStatus_int_fields (fun _ => "")
      (MQTTClient.mk [("print", .map [("mc_percent", .jsonNumber "42")])] true)).2.2.1.1 rfl⟩

/-- C24, at the failing input: the primary field `print.chamber_temper` is
present and numeric, the `json.Number` with the text `35.5` (which denotes
35.5), but `ChamberTemp` is not 35.5: it is 0 without a secondary field, and
the value 30 of the secondary field `print.device.ctc.info.temp` when there is
one. The same reading as a `float64` gives 35.5. `asFloat` reads a
`json.Number` through `Int64`. -/
theorem GetStatus_ChamberTemp_jsonNumber (sprintV : Any → String) :
    jsonNumberValue "35.5" = some (71 / 2) ∧
    (GetStatus sprintV
      { data := [("print", .map [("chamber_temper", .float64 (71 / 2))])],
        ready := true }).ChamberTemp = 71 / 2 ∧
    (GetStatus sprintV
      { data := [("print", .map [("chamber_temper", .jsonNumber "35.5")])],
        ready := true }).ChamberTemp = 0 ∧
    (GetStatus sprintV
      { data := [("print", .map [("chamber_temper", .jsonNumber "35.5"),
          ("device", .map [("ctc", .map [("info", .map [("temp", .jsonNumber "30")])])])])],
        ready := true }).ChamberTemp = 30 := by
  refine ⟨?_, rfl, rfl, ?_⟩
  · have h : jsonNumberParts "35.5" = some (355, -1) := by decide
    simp only [jsonNumberValue, h, Option.map_some', Option.some.injEq]
    norm_num
  · have h1 : asFloat (.jsonNumber "35.5") = none := rfl
    have h2 : asFloat (.jsonNumber "30") = some (float64OfInt 30) := rfl
    have h3 : float64OfInt 30 = 30 := by
      have := float64OfInt_exact 30 (by decide)
      simpa using this
    simp only [GetStatus]
    simp [chamberTemp, chamberTempFallback, MQTTClient.Get, getFrom, mapGet, Any.asMap, h1, h2,
      h3]

/-! ### Confirmation -/

/-- C29: `RequireConfirmation` lets the action proceed without a prompt only
when it is explicitly authorised. For all options: it returns `nil`, with no
prompt and no read, if `Force` is set, or if `Confirm` is non-empty and equal
to `Action`; it returns an error if `Force` is unset and `Confirm` is non-empty
but differs from `Action`; it returns an error, without a prompt and without
reading any input, if `Force` is unset, `Confirm` is empty and `NoInput` is set
or the input is no terminal; and when it returns `nil` without a prompt, then
`Force` is set or `Confirm` is non-empty and equal to `Action`. -/
theorem RequireConfirmation_authorised (opts : ConfirmOptions) (files : ConfirmFiles) :
    (opts.Force = true →
      RequireConfirmation opts files = { err := none, prompted := false, readInput := false }) ∧
    (opts.Force = false → opts.Confirm ≠ "" → opts.Confirm = opts.Action →
      RequireConfirmation opts files = { err := none, prompted := false, readInput := false }) ∧
    (opts.Force = false → opts.Confirm ≠ "" → opts.Confirm ≠ opts.Action →
      (RequireConfirmation opts files).err = some (.mustEqual opts.Action) ∧
      (RequireConfirmation opts files).readInput = false) ∧
    (opts.Force = false → opts.Confirm = "" → (opts.NoInput = true ∨ opts.UseTTY = false) →
      (RequireConfirmation opts files).err = some (.required opts.Action) ∧
      (RequireConfirmation opts files).prompted = false ∧
      (RequireConfirmation opts files).readInput = false) ∧
    ((RequireConfirmation opts files).err = none →
      (RequireConfirmation opts files).prompted = false →
      opts.Force = true ∨ (opts.Confirm ≠ "" ∧ opts.Confirm = opts.Action)) := by
  refine ⟨?_, ?_, ?_, ?_, ?_⟩
  · intro h
    simp [RequireConfirmation, h]
  · intro h1 h2 h3
    simp [RequireConfirmation, h1, h2, h3]
    intro h4
    exact absurd (h3 ▸ h4) h2
  · intro h1 h2 h3
    simp [RequireConfirmation, h1, h2, h3]
  · intro h1 h2 h3
    rcases h3 with h3 | h3 <;> simp [RequireConfirmation, h1, h2, h3]
  · intro herr hp
    by_cases hf : opts.Force = true
    · exact Or.inl hf
    · right
      by_cases hc : opts.Confirm ≠ ""
      · refine ⟨hc, ?_⟩
        by_contra hne
        simp [RequireConfirmation, hf, hc, hne] at herr
      · exfalso
        have hc' : opts.Confirm = "" := not_not.mp hc
        by_cases hn : opts.NoInput = true ∨ opts.UseTTY = false
        · simp [RequireConfirmation, hf, hc', hn] at herr
        · unfold RequireConfirmation at hp
          rw [if_neg hf, if_neg (by simpa using hc'), if_neg hn] at hp
          cases hw : files.writeErr with
          | some msg => simp [hw] at hp
          | none =>
            cases hr : files.readLine with
            | error msg => simp [hw, hr] at hp
            | ok line =>
              simp only [hw, hr] at hp
              split_ifs at hp

/-- The outcomes for the action `stop`: with `--force`, with `--confirm=stop`,
with `--confirm=no`, and with `--no-input` alone. -/
theorem RequireConfirmation_authorised_witness :
    RequireConfirmation ⟨"stop", true, "", false, true⟩ ⟨none, .ok "no\n"⟩ =
      { err := none, prompted := false, readInput := false } ∧
    RequireConfirmation ⟨"stop", false, "stop", true, false⟩ ⟨none, .ok "no\n"⟩ =
      { err := none, prompted := false, readInput := false } ∧
    (RequireConfirmation ⟨"stop", false, "no", false, true⟩ ⟨none, .ok "stop\n"⟩).err =
      some (.mustEqual "stop") ∧
    (RequireConfirmation ⟨"stop", false, "", true, true⟩ ⟨none, .ok "stop\n"⟩).readInput =
      false :=
  ⟨(RequireConfirmation_authorised ⟨"stop", true, "", false, true⟩ ⟨none, .ok "no\n"⟩).1 rfl,
    (RequireConfirmation_authorised ⟨"stop", false, "stop", true, false⟩
      ⟨none, .ok "no\n"⟩).2.1 rfl (by decide) rfl,
    ((RequireConfirmation_authorised ⟨"stop", false, "no", false, true⟩
      ⟨none, .ok "stop\n"⟩).2.2.1 rfl (by decide) (by decide)).1,
    ((RequireConfirmation_authorised ⟨"stop", false, "", true, true⟩
      ⟨none, .ok "stop\n"⟩).2.2.2.1 rfl rfl (Or.inl rfl)).2.2⟩


end BambuCli
